import Mathlib

/-!
# VB6824 driver: frame codec, audio queues and OTA handshake

A shallow embedding of `components/vb6824/vb6824.c`. The last sections embed the
device state machine, the decode queue and the scheduler of `main/application.cc`,
and `dl_power_of_two` of `dl_fft_base.c`.

Conventions of the embedding.

* A byte is a natural number; a byte string is a `List Nat`.
* The target (ESP32) is little-endian: a `uint16_t` field stored at offset `k`
  has its low byte at `k` and its high byte at `k + 1`.
* The static accumulator `tmp_data` / `tmp_len` of `__frame_parse_data` is
  represented by the list `tmp_data[0 .. tmp_len)`; bytes of the array at and
  beyond `tmp_len` are never read before they are overwritten.
* A load or store that leaves the array it addresses ends the run with a
  fault instead of a result. The parser is given a second time with such loads
  carried out on the memory behind the accumulated bytes (`parse_loop_mem`).
* `memcpy(tmp_data, &parse_data[k], n)` inside the parser copies towards lower
  addresses inside one array; it is modelled as the forward byte copy.
* Each function of the module runs to completion before the next one starts,
  except where a function is given in parts between which another context runs
  (`recv_pcm_test` and `recv_pcm_enqueue`, the scheduler). A loop that waits for
  another context is given a bound on the rounds looked at, and what the other
  context does meanwhile is an explicit argument.
-/

namespace VB6824

/-! ## Constants and macros -/

/-- Source constant `FRAME_MIN_LIN`. -/
def FRAME_MIN_LIN : Nat := 7

/-- Source constant `FRAME_MAX_LIN`. -/
def FRAME_MAX_LIN : Nat := 512 + 7

/-- Capacity of `tmp_data`, declared `uint8_t tmp_data[(FRAME_MAX_LIN) * 2]`. -/
def TMP_DATA_SIZE : Nat := FRAME_MAX_LIN * 2

/-- Macro `SWAP_16(x)`: `(((x) & 0xFF) << 8) | (((x) >> 8) & 0xFF)`. -/
def SWAP_16 (x : Nat) : Nat := (x % 256) * 256 + (x / 256) % 256

/-- Macro `FRAME_HEAD`: `SWAP_16(0x55AA)`. -/
def FRAME_HEAD : Nat := SWAP_16 0x55AA

/-- Command code `VB6824_CMD_RECV_PCM`. -/
def VB6824_CMD_RECV_PCM : Nat := 0x2080
/-- Command code `VB6824_CMD_RECV_CTL`. -/
def VB6824_CMD_RECV_CTL : Nat := 0x0180
/-- Command code `VB6824_CMD_RECV_WAKEUP_WORD`. -/
def VB6824_CMD_RECV_WAKEUP_WORD : Nat := 0x0280
/-- Command code `VB6824_CMD_RECV_OTA`. -/
def VB6824_CMD_RECV_OTA : Nat := 0x0105
/-- Command code `VB6824_CMD_SEND_PCM`. -/
def VB6824_CMD_SEND_PCM : Nat := 0x2081

/-- Load of a `uint16_t` field at byte offset `k` (little-endian target). -/
def rd16 (mem : List Nat) (k : Nat) : Nat := mem.getD k 0 + 256 * mem.getD (k + 1) 0

/-- The two bytes stored for a `uint16_t` value (little-endian target). -/
def wr16 (v : Nat) : List Nat := [v % 256, (v / 256) % 256]

/-- Source function `__sum_bytes`: the `int` sum of the first `size` bytes. -/
def __sum_bytes (bytes : List Nat) (size : Nat) : Nat := (bytes.take size).sum

/-- Macro `SUM8(bytes, size)`: `__sum_bytes(bytes, (uint16_t)size) % 256`. -/
def SUM8 (bytes : List Nat) (size : Nat) : Nat := __sum_bytes bytes (size % 65536) % 256

/-! ## The parser `__frame_parse_data` -/

/-- How a run of the parser (or of the sender) ends. -/
inductive Halt where
  /-- The function returned; the payload is `tmp_data[0 .. tmp_len)`. -/
  | ret (tmp : List Nat)
  /-- A byte was loaded at `parse_data[off]`, outside the accumulated bytes and the array. -/
  | oob_read (off : Nat)
  /-- The append `memcpy(tmp_data + tmp_len, data, len)` stored `total` bytes
  in all, more than the array holds. -/
  | oob_write (total : Nat)
  /-- The step budget of the embedding ran out (never the case, see `parse_loop_fuel`). -/
  | fuel
  deriving DecidableEq, Repr

/-- Outcome of one call of `__frame_parse_data`: the frames handed to
`__vb6824_frame_cb`, in call order, and how the call ended. -/
structure Out where
  frames : List (List Nat)
  halt : Halt
  deriving DecidableEq, Repr

/-- The `for` loop of `__frame_parse_data` together with the `goto re_parse`.
`parse_data` is the live region `parse_data[0 .. parse_len)` (it aliases
`tmp_data`), `tmp_len` and `i` are the source variables, `fr` collects the
frames already handed to the callback. The inner loop that fills the unused local
`sum` loads only bytes that `FRAME_CHECK` loads as well and is left out. The
callback rewrites bytes of the frame it is given; they are dropped by the `memcpy`
that follows. -/
def parse_loop : Nat → List Nat → Nat → Nat → List (List Nat) → Out
  | 0, _, _, _, fr => ⟨fr, Halt.fuel⟩
  | fuel + 1, parse_data, tmp_len, i, fr =>
    let parse_len := parse_data.length
    if i < parse_len then
      let left_len := (parse_len - i) % 65536
      if left_len ≥ FRAME_MIN_LIN then
        if rd16 parse_data i = FRAME_HEAD then
          let data_len := SWAP_16 (rd16 parse_data (i + 2))
          let fr_len := (6 + data_len + 1) % 65536
          if left_len ≥ fr_len then
            -- FRAME_CHECK(head, last): last = &parse_data[i + 6 + data_len]
            match parse_data.get? (i + 6 + data_len) with
            | none => ⟨fr, Halt.oob_read (i + 6 + data_len)⟩
            | some last_sum =>
              if SUM8 (parse_data.drop i) (6 + data_len) = last_sum then
                -- __vb6824_frame_cb(&parse_data[i], fr_len)
                let frame := (parse_data.drop i).take fr_len
                -- memcpy(tmp_data, &parse_data[i + fr_len], left_len - fr_len)
                let tmp_data := (parse_data.drop (i + fr_len)).take (left_len - fr_len)
                let tmp_len := left_len - fr_len
                if tmp_len > FRAME_MIN_LIN then
                  -- goto re_parse
                  if tmp_len < FRAME_MIN_LIN then ⟨fr ++ [frame], Halt.ret tmp_data⟩
                  else parse_loop fuel tmp_data tmp_len 0 (fr ++ [frame])
                else ⟨fr ++ [frame], Halt.ret tmp_data⟩
              else parse_loop fuel parse_data tmp_len (i + 1) fr
          else if fr_len ≤ FRAME_MAX_LIN then
            if i ≠ 0 then ⟨fr, Halt.ret (parse_data.drop i)⟩
            else ⟨fr, Halt.ret (parse_data.take tmp_len)⟩
          else parse_loop fuel parse_data tmp_len (i + 1) fr
        else parse_loop fuel parse_data tmp_len (i + 1) fr
      else
        -- memcpy(tmp_data, &parse_data[i], left_len); tmp_len = left_len;
        parse_loop fuel (parse_data.drop i ++ parse_data.drop left_len) left_len (i + 1) fr
    else ⟨fr, Halt.ret (parse_data.take tmp_len)⟩

/-- Source function `__frame_parse_data(data, len)`, as a function of the
accumulator `tmp = tmp_data[0 .. tmp_len)` and the chunk `data`.
The first branch of the source (`tmp_len == 0 && parse_len >= FRAME_MIN_LIN`)
is never taken, since `parse_len` is still `0` there: every chunk is appended
to `tmp_data`, without a capacity check. -/
def __frame_parse_data (tmp data : List Nat) : Out :=
  if tmp.length + data.length > TMP_DATA_SIZE then
    ⟨[], Halt.oob_write (tmp.length + data.length)⟩
  else
    let parse_data := tmp ++ data
    let parse_len := parse_data.length
    if parse_len < FRAME_MIN_LIN then ⟨[], Halt.ret parse_data⟩
    else parse_loop (parse_len + 1) parse_data parse_len 0 []

/-- A sequence of calls of `__frame_parse_data`, one per chunk, from the
accumulator `tmp`; the frames of all calls are collected in order, and a
fault ends the sequence. -/
def feed_all : List Nat → List (List Nat) → Out
  | tmp, [] => ⟨[], Halt.ret tmp⟩
  | tmp, c :: cs =>
    match __frame_parse_data tmp c with
    | ⟨fr, Halt.ret tmp'⟩ =>
      let r := feed_all tmp' cs
      ⟨fr ++ r.frames, r.halt⟩
    | o => o

/-! ## The parser with loads outside the accumulated bytes carried out

In `parse_loop` a load outside the accumulated bytes ends the run. The processor
carries such a load out and the function goes on with the byte it finds. The
definitions below follow the source in the same way as `parse_loop`, with `mem k`
standing for the byte that the memory holds at `parse_data[k]` for an offset `k` at
or beyond the end of the accumulated bytes. -/

/-- The byte a load at `parse_data[k]` yields: the accumulated byte at that offset,
or the byte `mem k` of the memory at and beyond the end of the accumulated bytes. -/
def load (mem : Nat → Nat) (parse_data : List Nat) (k : Nat) : Nat :=
  match parse_data.get? k with
  | some b => b
  | none => mem k

/-- Macro `FRAME_CHECK(head, last)` for the header at offset `i`:
`SUM8(head, 6 + data_len) == last->sum`, where `SUM8` sums `(uint16_t)(6 + data_len)`
bytes from `head` on and `last` is `&parse_data[i + 6 + data_len]`. -/
def FRAME_CHECK (mem : Nat → Nat) (parse_data : List Nat) (i data_len : Nat) : Bool :=
  decide (((List.range ((6 + data_len) % 65536)).map (fun j => load mem parse_data (i + j))).sum
      % 256 = load mem parse_data (i + 6 + data_len))

/-- The stores of `__vb6824_frame_cb` into the bytes it is handed at offset `i`:
`frame->len = SWAP_16(frame->len)` and `frame->cmd = SWAP_16(frame->cmd)` exchange
the bytes at `i + 2`, `i + 3` and at `i + 4`, `i + 5`, and
`frame->data[frame->len] = 0` clears the byte at `i + 6 + data_len` (a store in a
list does nothing at an offset outside the list). -/
def frame_cb_stores (parse_data : List Nat) (i data_len : Nat) : List Nat :=
  ((((parse_data.set (i + 2) (parse_data.getD (i + 3) 0)).set (i + 3)
    (parse_data.getD (i + 2) 0)).set (i + 4) (parse_data.getD (i + 5) 0)).set (i + 5)
    (parse_data.getD (i + 4) 0)).set (i + 6 + data_len) 0

/-- The `for` loop of `__frame_parse_data` together with the `goto re_parse`, as
`parse_loop`, with every load carried out. The inner loop that fills the unused
local `sum` has no effect. -/
def parse_loop_mem (mem : Nat → Nat) : Nat → List Nat → Nat → Nat → List (List Nat) → Out
  | 0, _, _, _, fr => ⟨fr, Halt.fuel⟩
  | fuel + 1, parse_data, tmp_len, i, fr =>
    let parse_len := parse_data.length
    if i < parse_len then
      let left_len := (parse_len - i) % 65536
      if left_len ≥ FRAME_MIN_LIN then
        if rd16 parse_data i = FRAME_HEAD then
          let data_len := SWAP_16 (rd16 parse_data (i + 2))
          let fr_len := (6 + data_len + 1) % 65536
          if left_len ≥ fr_len then
            if FRAME_CHECK mem parse_data i data_len then
              -- __vb6824_frame_cb(&parse_data[i], fr_len)
              let frame := (parse_data.drop i).take fr_len
              let parse_data := frame_cb_stores parse_data i data_len
              -- memcpy(tmp_data, &parse_data[i + fr_len], left_len - fr_len)
              let tmp_data := (parse_data.drop (i + fr_len)).take (left_len - fr_len)
              let tmp_len := left_len - fr_len
              if tmp_len > FRAME_MIN_LIN then
                -- goto re_parse
                if tmp_len < FRAME_MIN_LIN then ⟨fr ++ [frame], Halt.ret tmp_data⟩
                else parse_loop_mem mem fuel tmp_data tmp_len 0 (fr ++ [frame])
              else ⟨fr ++ [frame], Halt.ret tmp_data⟩
            else parse_loop_mem mem fuel parse_data tmp_len (i + 1) fr
          else if fr_len ≤ FRAME_MAX_LIN then
            if i ≠ 0 then ⟨fr, Halt.ret (parse_data.drop i)⟩
            else ⟨fr, Halt.ret (parse_data.take tmp_len)⟩
          else parse_loop_mem mem fuel parse_data tmp_len (i + 1) fr
        else parse_loop_mem mem fuel parse_data tmp_len (i + 1) fr
      else
        -- memcpy(tmp_data, &parse_data[i], left_len); tmp_len = left_len;
        parse_loop_mem mem fuel (parse_data.drop i ++ parse_data.drop left_len) left_len (i + 1) fr
    else ⟨fr, Halt.ret (parse_data.take tmp_len)⟩

/-- Source function `__frame_parse_data(data, len)`, as `__frame_parse_data`, with
every load of the scan carried out. -/
def __frame_parse_data_mem (mem : Nat → Nat) (tmp data : List Nat) : Out :=
  if tmp.length + data.length > TMP_DATA_SIZE then
    ⟨[], Halt.oob_write (tmp.length + data.length)⟩
  else
    let parse_data := tmp ++ data
    let parse_len := parse_data.length
    if parse_len < FRAME_MIN_LIN then ⟨[], Halt.ret parse_data⟩
    else parse_loop_mem mem (parse_len + 1) parse_data parse_len 0 []

/-! ## Decoding done by the callback on the frame it receives -/

/-- Payload length as `__vb6824_frame_cb` reads it: `SWAP_16(frame->len)`. -/
def frame_len (frame : List Nat) : Nat := SWAP_16 (rd16 frame 2)

/-- Command code as `__vb6824_frame_cb` reads it: `SWAP_16(frame->cmd)`. -/
def frame_cmd (frame : List Nat) : Nat := SWAP_16 (rd16 frame 4)

/-- Payload as `__vb6824_frame_cb` reads it: `frame->data[0 .. frame->len)`. -/
def frame_data (frame : List Nat) : List Nat := (frame.drop 6).take (frame_len frame)

/-! ## The sender `__frame_send` -/

/-- How a run of `__frame_send` ends. -/
inductive SendHalt where
  /-- The function returned. -/
  | done
  /-- A load or store left `packet` (or `data`). -/
  | oob
  /-- The step budget of the embedding ran out (never the case, see `frame_send_fuel`). -/
  | fuel
  deriving DecidableEq, Repr

/-- Outcome of one call of `__frame_send`: the byte strings given to
`uart_write_bytes`, in call order, and how the call ended. -/
structure SendOut where
  writes : List (List Nat)
  halt : SendHalt
  deriving DecidableEq, Repr

/-- Conversion to `int16_t` (two's complement wrap), used for `idx += send_len`. -/
def toInt16 (x : Int) : Int := (x + 32768) % 65536 - 32768

/-- The `checksum += packet[i]` loop on a `uint8_t` accumulator. -/
def checksum8 (bytes : List Nat) : Nat := bytes.foldl (fun c b => (c + b) % 256) 0

/-- One pass through the body of the `while` loop of `__frame_send`, up to the
argument of `uart_write_bytes`; `none` when a load or store leaves an array.
`chunk` is `AUDIO_SEND_CHENK_LEN` (40 or 320, by configuration), so that
`sizeof(packet) = chunk + 7`. -/
def frame_send_body (chunk cmd : Nat) (data : List Nat) (idx : Int) : Option (List Nat) :=
  let len := data.length
  let send_len := len
  let size := chunk + 7
  -- (send_len > (len - idx)) ? (len - idx) : send_len
  let n := if (send_len : Int) > (len : Int) - idx then ((len : Int) - idx).toNat else send_len
  -- memcpy(frame->data, data + idx, n)
  if idx < 0 ∨ 6 + n > size then none
  else
    let packet := wr16 FRAME_HEAD ++ wr16 (SWAP_16 send_len) ++ wr16 (SWAP_16 cmd)
      ++ (data.drop idx.toNat).take n ++ List.replicate (size - 6 - n) 0
    let packet_len := (6 + send_len + 1) % 65536
    -- packet[packet_len - 1] = checksum
    if packet_len = 0 ∨ packet_len - 1 ≥ size then none
    else
      let checksum := checksum8 (packet.take (packet_len - 1))
      let packet := packet.set (packet_len - 1) checksum
      some (packet.take packet_len)

/-- The `while (idx < len)` loop of `__frame_send`; `send_len` is `len` throughout. -/
def frame_send_loop (chunk cmd : Nat) (data : List Nat) : Nat → Int → List (List Nat) → SendOut
  | 0, _, ws => ⟨ws, SendHalt.fuel⟩
  | fuel + 1, idx, ws =>
    if idx < (data.length : Int) then
      match frame_send_body chunk cmd data idx with
      | none => ⟨ws, SendHalt.oob⟩
      | some packet =>
        frame_send_loop chunk cmd data fuel (toInt16 (idx + (data.length : Int))) (ws ++ [packet])
    else ⟨ws, SendHalt.done⟩

/-- Source function `__frame_send(cmd, data, len)` with `len = data.length` (a
`uint16_t`); `chunk` is `AUDIO_SEND_CHENK_LEN`. Three rounds of the loop are
enough for every such `len` (`frame_send_fuel`). -/
def __frame_send (chunk cmd : Nat) (data : List Nat) : SendOut :=
  frame_send_loop chunk cmd data 3 0 []

/-- The wire layout of one frame: magic, big-endian length, big-endian command,
payload, and the sum of everything before modulo 256. -/
def wire_frame (cmd : Nat) (payload : List Nat) : List Nat :=
  [0x55, 0xAA, (payload.length / 256) % 256, payload.length % 256, (cmd / 256) % 256, cmd % 256]
    ++ payload
    ++ [(0x55 + 0xAA + (payload.length / 256) % 256 + payload.length % 256
          + (cmd / 256) % 256 + cmd % 256 + payload.sum) % 256]

/-- A well-formed frame: it starts with the magic header bytes, it is one byte
longer than its 6 header bytes and declared payload, and its trailing byte is
the sum modulo 256 of the header and payload bytes. -/
def FrameOK (f : List Nat) : Prop :=
  f.take 2 = [0x55, 0xAA] ∧ f.length = frame_len f + 7
    ∧ f.getLast? = some ((f.take (frame_len f + 6)).sum % 256)

/-- The header and payload bytes of a frame, that is the frame without its
trailing checksum byte. -/
def frame_body (cmd : Nat) (payload : List Nat) : List Nat :=
  [0x55, 0xAA, (payload.length / 256) % 256, payload.length % 256, (cmd / 256) % 256, cmd % 256]
    ++ payload

/-! ## The capture queue and the frame callback `__vb6824_frame_cb` -/

/-- Modelled from the spec: the capture queue `g_rx_ringbuffer`, an ESP-IDF ring
buffer whose code is outside this repository, as a bounded FIFO of byte chunks:
`capacity` bytes in all, `items` oldest first. -/
structure RingBuf where
  capacity : Nat
  items : List (List Nat)
  deriving DecidableEq, Repr

/-- Modelled from the spec: the total number of bytes in a list of chunks. -/
def chunk_bytes (items : List (List Nat)) : Nat := (items.map List.length).sum

/-- Modelled from the spec: `xRingbufferGetCurFreeSize`, the capacity minus the
bytes buffered. -/
def xRingbufferGetCurFreeSize (rb : RingBuf) : Nat := rb.capacity - chunk_bytes rb.items

/-- Modelled from the spec: `xRingbufferReceive` with a zero timeout, followed by
`vRingbufferReturnItem`: the oldest chunk is taken out of the queue; `none` stands
for the `NULL` returned on an empty queue. -/
def xRingbufferReceive (rb : RingBuf) : Option (List Nat × RingBuf) :=
  match rb.items with
  | [] => none
  | c :: cs => some (c, { rb with items := cs })

/-- Modelled from the spec: `xRingbufferSend` with `portMAX_DELAY`: the chunk is
appended behind the buffered ones when it fits the free space; `none` when it does
not fit, in which case the call does not complete. -/
def xRingbufferSend (rb : RingBuf) (item : List Nat) : Option RingBuf :=
  if item.length ≤ xRingbufferGetCurFreeSize rb then
    some { rb with items := rb.items ++ [item] }
  else none

/-- The eviction loop of the `VB6824_CMD_RECV_PCM` case:
`while (xRingbufferGetCurFreeSize(g_rx_ringbuffer) < frame->len)` take out the
oldest chunk, and leave the loop when the queue is empty. The recursion is on the
buffered chunks, one `xRingbufferReceive` per round. -/
def evict_for (capacity len : Nat) : List (List Nat) → RingBuf
  | [] => ⟨capacity, []⟩
  | c :: cs =>
    if xRingbufferGetCurFreeSize ⟨capacity, c :: cs⟩ < len then evict_for capacity len cs
    else ⟨capacity, c :: cs⟩

/-- Event identifier `VB6824_EVT_OTA_ENTER`. -/
def VB6824_EVT_OTA_ENTER : Nat := 0
/-- Event identifier `VB6824_EVT_OTA_START`. -/
def VB6824_EVT_OTA_START : Nat := 2
/-- Mode `VB6824_MODE_AUDIO`. -/
def VB6824_MODE_AUDIO : Nat := 0
/-- Mode `VB6824_MODE_OTA`. -/
def VB6824_MODE_OTA : Nat := 1

/-- A call made by the module to a collaborator outside it. -/
inductive Call where
  /-- The call `g_voice_event_cb(event_id, data, g_voice_event_cb_arg)`. -/
  | voice_event (event_id data : Nat)
  /-- The call `g_voice_command_cb(command, len, g_voice_command_cb_arg)`; `command` is
  the payload the pointer addresses, which a NUL byte follows. -/
  | voice_command (command : List Nat) (len : Nat)
  /-- The call `jl_ota_start(vb_ota_evt_cb)`. -/
  | jl_ota_start
  deriving DecidableEq, Repr

/-- The module state read or written by `__vb6824_frame_cb`. The two callback
fields say whether a callback is registered; `jl_ws_is_start` is the value the
function of that name returns; `calls` logs the calls to collaborators, oldest
first. -/
structure Dev where
  s_mode : Nat
  s_wait_fresh_wakeup_word : Nat
  s_wait_vb_hello : Nat
  s_wakeup_word : List Nat
  g_voice_command_cb : Bool
  g_voice_event_cb : Bool
  g_input_enabled : Bool
  g_rx_ringbuffer : RingBuf
  jl_ws_is_start : Nat
  calls : List Call
  deriving DecidableEq, Repr

/-- The C string at the start of `bytes`: the bytes before the first NUL. -/
def c_str (bytes : List Nat) : List Nat := bytes.takeWhile (fun b => b != 0)

/-- The UTF-8 bytes of the string literal compared against in the
`VB6824_CMD_RECV_CTL` case (the source file is UTF-8). -/
def OTA_SENTINEL : List Nat := [229, 141, 135, 231, 186, 167, 230, 168, 161, 229, 188, 143]

/-- Source function `__vb6824_frame_cb(data, len)` on the frame bytes `frame`;
`ota_support` stands for `CONFIG_VB6824_OTA_SUPPORT == 1`. The store
`frame->data[frame->len] = 0` overwrites the checksum byte of the frame inside the
accumulator, so that `frame->data` is a C string ending at or before that byte. The
capture queue is the chunked one of the two configurations that compile
(`xRingbufferReceive`). `none`: the call does not complete (`xRingbufferSend`
cannot store the chunk, or `strncpy` stores past the 32 bytes of `s_wakeup_word`). -/
def __vb6824_frame_cb (ota_support : Bool) (st : Dev) (frame : List Nat) : Option Dev :=
  let len := frame_len frame
  let cmd := frame_cmd frame
  let data := frame_data frame
  if cmd = VB6824_CMD_RECV_PCM then
    let st := if st.s_wait_vb_hello ≠ 0 then { st with s_wait_vb_hello := 0 } else st
    if st.g_input_enabled then
      let rb := evict_for st.g_rx_ringbuffer.capacity len st.g_rx_ringbuffer.items
      match xRingbufferSend rb data with
      | some rb' => some { st with g_rx_ringbuffer := rb' }
      | none => none
    else some st
  else if cmd = VB6824_CMD_RECV_CTL then
    if ota_support ∧ c_str data = OTA_SENTINEL then
      if st.g_voice_event_cb then
        some { st with calls := st.calls ++ [Call.voice_event VB6824_EVT_OTA_ENTER 0] }
      else some st
    else if ota_support ∧ st.jl_ws_is_start = 1 then some st
    else if st.g_voice_command_cb then
      some { st with calls := st.calls ++ [Call.voice_command data len] }
    else some st
  else if ota_support ∧ cmd = VB6824_CMD_RECV_OTA then
    let st := { st with s_mode := VB6824_MODE_OTA }
    let st := if st.g_voice_event_cb then
        { st with calls := st.calls ++ [Call.voice_event VB6824_EVT_OTA_START 0] }
      else st
    some { st with calls := st.calls ++ [Call.jl_ota_start] }
  else if cmd = VB6824_CMD_RECV_WAKEUP_WORD then
    -- memset(s_wakeup_word, 0, 32); strncpy(s_wakeup_word, frame->data, frame->len)
    if len ≤ 32 then
      some { st with s_wait_fresh_wakeup_word := 0,
                     s_wakeup_word := c_str data ++ List.replicate (32 - (c_str data).length) 0 }
    else none
  else some st

/-- The `VB6824_CMD_RECV_PCM` case of `__vb6824_frame_cb` up to and including the
test `if(g_input_enabled)`: the state, and whether the test passes. -/
def recv_pcm_test (st : Dev) : Dev × Bool :=
  let st := if st.s_wait_vb_hello ≠ 0 then { st with s_wait_vb_hello := 0 } else st
  (st, st.g_input_enabled)

/-- The `VB6824_CMD_RECV_PCM` case of `__vb6824_frame_cb` behind a passed test, from
`xSemaphoreTake(g_rx_mux, portMAX_DELAY)` on: the eviction loop and
`xRingbufferSend`. The flag is not read again. -/
def recv_pcm_enqueue (st : Dev) (frame : List Nat) : Option Dev :=
  let rb := evict_for st.g_rx_ringbuffer.capacity (frame_len frame) st.g_rx_ringbuffer.items
  match xRingbufferSend rb (frame_data frame) with
  | some rb' => some { st with g_rx_ringbuffer := rb' }
  | none => none

/-- The callback applied to a sequence of frames, in order. -/
def dispatch_all (ota_support : Bool) : Dev → List (List Nat) → Option Dev
  | st, [] => some st
  | st, f :: fs =>
    match __vb6824_frame_cb ota_support st f with
    | some st' => dispatch_all ota_support st' fs
    | none => none

/-- The chunks `items` are the longest suffix of the chunks `hist` whose total size
is at most `capacity`. -/
def LongestFit (capacity : Nat) (items hist : List (List Nat)) : Prop :=
  items <:+ hist ∧ chunk_bytes items ≤ capacity
    ∧ ∀ s, s <:+ hist → chunk_bytes s ≤ capacity → s.length ≤ items.length

/-- A module state with capture enabled and an empty capture queue of 100 bytes,
nothing registered, used as a concrete starting point. -/
def capture_100 : Dev :=
  { s_mode := VB6824_MODE_AUDIO, s_wait_fresh_wakeup_word := 1, s_wait_vb_hello := 1,
    s_wakeup_word := [228, 189, 160, 229, 165, 189, 229, 176, 143, 230, 153, 186]
      ++ List.replicate 20 0,
    g_voice_command_cb := false, g_voice_event_cb := false, g_input_enabled := true,
    g_rx_ringbuffer := ⟨100, []⟩, jl_ws_is_start := 0, calls := [] }

/-- The byte stream of a sequence of frames, each given by its command code and
its payload, in wire order. -/
def wire_stream (fs : List (Nat × List Nat)) : List Nat :=
  (fs.map (fun f => wire_frame f.1 f.2)).flatten

/-! ## Capture control and capture read -/

/-- The drain loop of `vb6824_audio_enable_input` (and of `__send_task`): take
chunks out with a zero timeout, one `xRingbufferReceive` per round, until the
queue returns `NULL`. -/
def drain_all (capacity : Nat) : List (List Nat) → RingBuf
  | [] => ⟨capacity, []⟩
  | _ :: cs => drain_all capacity cs

/-- Source function `vb6824_audio_enable_input(enable)`. -/
def vb6824_audio_enable_input (st : Dev) (enable : Bool) : Dev :=
  if enable = st.g_input_enabled then st
  else
    let st := { st with g_input_enabled := enable }
    if st.g_input_enabled = false then
      { st with g_rx_ringbuffer := drain_all st.g_rx_ringbuffer.capacity st.g_rx_ringbuffer.items }
    else st

/-- Source function `vb6824_audio_read(data, size)` in the chunked capture
configurations (`xRingbufferReceive`). Each round of the `while (1)` loop is one
receive with a 10 ms timeout; `rounds` bounds the number of rounds looked at, and
nothing is written to the queue meanwhile. The result is the value returned, the
bytes copied into `data`, and the state; `none`: the loop is still running after
`rounds` timeouts. -/
def vb6824_audio_read : Nat → Dev → Nat → Option (Nat × List Nat × Dev)
  | 0, _, _ => none
  | rounds + 1, st, size =>
    match xRingbufferReceive st.g_rx_ringbuffer with
    | some (item, rb) =>
      if size ≥ item.length then some (item.length, item, { st with g_rx_ringbuffer := rb })
      else some (0, [], { st with g_rx_ringbuffer := rb })
    | none => vb6824_audio_read rounds st size

/-- Source function `vb6824_get_wakeup_word()`: the 32 bytes of `s_wakeup_word`,
which the caller reads as a C string. -/
def vb6824_get_wakeup_word (st : Dev) : List Nat := st.s_wakeup_word

/-- The states of the capture pipeline reachable from the state after
`vb6824_init` (capture disabled, capture queue empty) by frames handed to the
callback, calls of `vb6824_audio_enable_input` and returning calls of
`vb6824_audio_read`, each run to completion before the next. -/
inductive Reachable (ota_support : Bool) : Dev → Prop where
  | init (st : Dev) : st.g_input_enabled = false → st.g_rx_ringbuffer.items = [] →
      Reachable ota_support st
  | frame (st st' : Dev) (f : List Nat) : Reachable ota_support st →
      __vb6824_frame_cb ota_support st f = some st' → Reachable ota_support st'
  | enable (st : Dev) (b : Bool) : Reachable ota_support st →
      Reachable ota_support (vb6824_audio_enable_input st b)
  | read (st st' : Dev) (rounds size r : Nat) (d : List Nat) : Reachable ota_support st →
      vb6824_audio_read rounds st size = some (r, d, st') → Reachable ota_support st'

/-- The module state right after `vb6824_init`, with a capture queue of 400 bytes
(`RECV_BUF_LENGTH` of the chunked configurations) and both callbacks registered. -/
def boot_dev : Dev :=
  { s_mode := VB6824_MODE_AUDIO, s_wait_fresh_wakeup_word := 1, s_wait_vb_hello := 1,
    s_wakeup_word := [228, 189, 160, 229, 165, 189, 229, 176, 143, 230, 153, 186]
      ++ List.replicate 20 0,
    g_voice_command_cb := true, g_voice_event_cb := true, g_input_enabled := false,
    g_rx_ringbuffer := ⟨400, []⟩, jl_ws_is_start := 0, calls := [] }

/-- A state of the capture pipeline with capture enabled and the chunk `01 02 03`
in the capture queue: `boot_dev` after `vb6824_audio_enable_input(true)` and one
`VB6824_CMD_RECV_PCM` frame. -/
def capture_busy : Dev :=
  { boot_dev with s_wait_vb_hello := 0, g_input_enabled := true,
                  g_rx_ringbuffer := ⟨400, [[1, 2, 3]]⟩ }

/-- A state of the capture pipeline with capture disabled and the chunk `01 02 03`
in the capture queue. -/
def capture_stale : Dev :=
  { boot_dev with s_wait_vb_hello := 0, g_input_enabled := false,
                  g_rx_ringbuffer := ⟨400, [[1, 2, 3]]⟩ }

/-! ## Playback and the OTA handshake -/

/-- Command code `VB6824_CMD_SEND_OTA`. -/
def VB6824_CMD_SEND_OTA : Nat := 0x0205
/-- Command code `VB6824_CMD_SEND_GET_WAKEUP_WORD`. -/
def VB6824_CMD_SEND_GET_WAKEUP_WORD : Nat := 0x0207

/-- Event identifier `JL_OTA_START` (`jl_ota_evt_id` in `vb_ota.h`). -/
def JL_OTA_START : Nat := 0
/-- Event identifier `JL_OTA_STOP`. -/
def JL_OTA_STOP : Nat := 1
/-- Event identifier `JL_OTA_FAIL`. -/
def JL_OTA_FAIL : Nat := 2
/-- Event identifier `JL_OTA_PROCESS`. -/
def JL_OTA_PROCESS : Nat := 3
/-- Event identifier `JL_OTA_SUCCESS`. -/
def JL_OTA_SUCCESS : Nat := 4

/-- A call made by the playback and OTA paths to a collaborator outside the
module, other than the transport. -/
inductive Effect where
  /-- The call `s_ota_evt(evt, data)` of the registered OTA event callback. -/
  | ota_evt (evt data : Nat)
  /-- The call `jl_ota_set_code(code)`. -/
  | jl_ota_set_code (code : List Nat)
  /-- The call `esp_timer_start_once(start_ota_timer, us)`. -/
  | timer_start_once (us : Nat)
  /-- The call `jl_ws_stop()`. -/
  | jl_ws_stop
  /-- The call `esp_restart()`. -/
  | esp_restart
  deriving DecidableEq, Repr

/-- The module state as a whole: the state `dev` of the frame callback, the
playback flag and queue, whether an OTA event callback is registered in
`s_ota_evt`, whether the handle `start_ota_timer` is set, the byte strings given to
`uart_write_bytes` so far, and the other calls made, oldest first. -/
structure Sys where
  dev : Dev
  g_output_enabled : Bool
  g_tx_ringbuffer : RingBuf
  s_ota_evt : Bool
  start_ota_timer : Bool
  uart : List (List Nat)
  effects : List Effect
  deriving DecidableEq, Repr

/-- A call `__frame_send(cmd, data, len)` made by the module: what it writes goes
to the transport. `chunk` is `AUDIO_SEND_CHENK_LEN`. -/
def send_frame (chunk cmd : Nat) (data : List Nat) (st : Sys) : Sys :=
  { st with uart := st.uart ++ (__frame_send chunk cmd data).writes }

/-- Modelled from the spec: `xRingbufferReceiveUpTo` with a zero timeout on the
byte-buffer playback queue, followed by `vRingbufferReturnItem`: up to `n` of the
oldest buffered bytes are taken out; `none` stands for the `NULL` returned on an
empty queue. -/
def xRingbufferReceiveUpTo (n : Nat) (rb : RingBuf) : Option (List Nat × RingBuf) :=
  if rb.items.flatten = [] then none
  else some (rb.items.flatten.take n,
    { rb with items := if rb.items.flatten.drop n = [] then [] else [rb.items.flatten.drop n] })

/-- Source function `vb6824_audio_enable_output(enable)`; the drain loop in it is
commented out in the source. -/
def vb6824_audio_enable_output (st : Sys) (enable : Bool) : Sys :=
  if enable = st.g_output_enabled then st else { st with g_output_enabled := enable }

/-- Source function `__send_timer_cb` (built when `CONFIG_VB6824_SEND_USE_TASK` is
not defined). `receive` is the receive call of the configuration:
`xRingbufferReceive`, or `xRingbufferReceiveUpTo chunk`. -/
def __send_timer_cb (chunk : Nat) (receive : RingBuf → Option (List Nat × RingBuf))
    (st : Sys) : Sys :=
  match receive st.g_tx_ringbuffer with
  | some (item, rb) => send_frame chunk VB6824_CMD_SEND_PCM item { st with g_tx_ringbuffer := rb }
  | none => st

/-- One round of the `while (1)` loop of the source function `__send_task` (built
when `CONFIG_VB6824_SEND_USE_TASK` is defined), run to completion with no other
context in between. `none`: the round waits in the receive call on an empty
queue. -/
def __send_task_round (chunk : Nat) (receive : RingBuf → Option (List Nat × RingBuf))
    (st : Sys) : Option Sys :=
  if st.g_output_enabled then
    match receive st.g_tx_ringbuffer with
    | none => none
    | some (item, rb) =>
      let st := { st with g_tx_ringbuffer := rb }
      if st.g_output_enabled = false then
        -- goto clear_rbuffer
        some { st with g_tx_ringbuffer := drain_all rb.capacity rb.items }
      else
        let st := if st.dev.s_mode = VB6824_MODE_AUDIO then
            send_frame chunk VB6824_CMD_SEND_PCM item st
          else st
        -- clear_rbuffer:
        if st.g_output_enabled = false then
          some { st with g_tx_ringbuffer := drain_all rb.capacity rb.items }
        else some st
  else some st

/-- Source function `vb6824_ota(code, evt_cb)`: the value returned and the state
afterwards. `evt_cb` says whether the callback passed is non-`NULL`; `create_ok`
says whether `esp_timer_create` yields a handle. -/
def vb6824_ota (chunk : Nat) (create_ok : Bool) (st : Sys) (code : List Nat) (evt_cb : Bool) :
    Nat × Sys :=
  let st := { st with s_ota_evt := evt_cb,
                      effects := st.effects ++ [Effect.jl_ota_set_code code] }
  if st.dev.s_wait_fresh_wakeup_word ≠ 0 then
    let dev := if st.dev.g_voice_event_cb then
        { st.dev with calls := st.dev.calls ++ [Call.voice_event VB6824_EVT_OTA_START 0] }
      else st.dev
    let dev := { dev with calls := dev.calls ++ [Call.jl_ota_start] }
    (1, { st with dev := { dev with s_mode := VB6824_MODE_OTA } })
  else
    let st := { st with dev := { st.dev with s_wait_fresh_wakeup_word := 1 } }
    let st := send_frame chunk VB6824_CMD_SEND_OTA [0x01] st
    let st := if st.start_ota_timer = false then { st with start_ota_timer := create_ok } else st
    if st.start_ota_timer then
      (1, { st with effects := st.effects ++ [Effect.timer_start_once 500000] })
    else (0, st)

/-- The frame, if any, that the UART task hands to `__vb6824_frame_cb` while the
polling loop of `vb_ota_evt_cb` sleeps in `vTaskDelay`. A frame the callback does
not complete on leaves the state as it is. -/
def during_delay (frame : Option (List Nat)) (st : Sys) : Sys :=
  match frame with
  | none => st
  | some f =>
    match __vb6824_frame_cb true st.dev f with
    | some dev => { st with dev := dev }
    | none => st

/-- The loop `do { __frame_send(VB6824_CMD_SEND_GET_WAKEUP_WORD, &s_mode, 1);
vTaskDelay(100 ms); } while (s_wait_fresh_wakeup_word);` of `vb_ota_evt_cb`.
`env k` is what the UART task dispatches during the `k`-th sleep; `rounds` bounds
the number of rounds looked at. The result is the state and whether the loop has
been left. -/
def wakeup_poll (chunk : Nat) (env : Nat → Option (List Nat)) : Nat → Nat → Sys → Sys × Bool
  | 0, _, st => (st, false)
  | rounds + 1, k, st =>
    let st := send_frame chunk VB6824_CMD_SEND_GET_WAKEUP_WORD [st.dev.s_mode % 256] st
    let st := during_delay (env k) st
    if st.dev.s_wait_fresh_wakeup_word ≠ 0 then wakeup_poll chunk env rounds (k + 1) st
    else (st, true)

/-- The part of `vb_ota_evt_cb` behind the `switch`: the registered callback is
invoked with `evt` and `data`, and after a success event the web server is stopped
and the device restarted. -/
def ota_evt_finish (st : Sys) (evt data : Nat) : Sys :=
  let st := if st.s_ota_evt then { st with effects := st.effects ++ [Effect.ota_evt evt data] }
    else st
  if evt = JL_OTA_SUCCESS then
    { st with effects := st.effects ++ [Effect.jl_ws_stop, Effect.esp_restart] }
  else st

/-- Source function `vb_ota_evt_cb(evt, data)`. The case `JL_OTA_FAIL` has no
`break` and runs on into the case `JL_OTA_SUCCESS`. `wakeup_word_addr` is the
address of `s_wakeup_word`, which the success case stores in `data`. The result is
the state and whether the function has returned within `rounds` rounds of its
polling loop. -/
def vb_ota_evt_cb (chunk wakeup_word_addr : Nat) (env : Nat → Option (List Nat)) (rounds : Nat)
    (st : Sys) (evt data : Nat) : Sys × Bool :=
  if evt = JL_OTA_START then
    (ota_evt_finish { st with dev := { st.dev with s_wait_fresh_wakeup_word := 1,
                                                   s_mode := VB6824_MODE_OTA } } evt data, true)
  else if evt = JL_OTA_STOP then
    (ota_evt_finish { st with dev := { st.dev with s_mode := VB6824_MODE_AUDIO } } evt data, true)
  else if evt = JL_OTA_PROCESS then (ota_evt_finish st evt data, true)
  else if evt = JL_OTA_FAIL ∨ evt = JL_OTA_SUCCESS then
    let st := { st with dev := { st.dev with s_mode := VB6824_MODE_AUDIO } }
    match wakeup_poll chunk env rounds 0 st with
    | (st, true) => (ota_evt_finish st evt wakeup_word_addr, true)
    | (st, false) => (st, false)
  else (ota_evt_finish st evt data, true)

/-- The whole module right after `vb6824_init`, playback queue of 400 bytes, no
timer handle yet, nothing written. -/
def boot_sys : Sys :=
  { dev := boot_dev, g_output_enabled := false, g_tx_ringbuffer := ⟨400, []⟩,
    s_ota_evt := false, start_ota_timer := false, uart := [], effects := [] }

/-- The module with playback enabled and the chunk `01 02 03` in the playback
queue. -/
def playback_busy : Sys :=
  { boot_sys with g_output_enabled := true, g_tx_ringbuffer := ⟨400, [[1, 2, 3]]⟩ }

/-- The module after the voice module has reported its wake word: the flag
`s_wait_fresh_wakeup_word` is clear. -/
def ota_ready : Sys :=
  { boot_sys with dev := { boot_dev with s_wait_fresh_wakeup_word := 0, s_wait_vb_hello := 0 } }

/-- The module in the middle of an OTA transfer: an OTA event callback is
registered, and `JL_OTA_START` has set the mode to OTA and the flag
`s_wait_fresh_wakeup_word`. -/
def ota_running : Sys :=
  { boot_sys with s_ota_evt := true,
                  dev := { boot_dev with s_mode := VB6824_MODE_OTA, s_wait_vb_hello := 0 } }

/-! ## Writing to the playback queue -/

/-- Command code `VB6824_CMD_SEND_VOLUM`. -/
def VB6824_CMD_SEND_VOLUM : Nat := 0x0203

/-- Source function `__start_ota_timer_cb`, the callback of the one-shot timer
`start_ota_timer` armed by `vb6824_ota`. -/
def __start_ota_timer_cb (chunk : Nat) (st : Sys) : Sys :=
  if st.dev.s_mode ≠ VB6824_MODE_OTA then
    let st := send_frame chunk VB6824_CMD_SEND_OTA [0x01] st
    { st with effects := st.effects ++ [Effect.timer_start_once 500000] }
  else st

/-- Source function `vb6824_audio_set_output_volume(volume)`. The argument is a
`uint8_t`; the product `volume * 31` and the quotient are computed in `int`, and the
result is converted to `uint8_t`. -/
def vb6824_audio_set_output_volume (chunk : Nat) (volume : Nat) (st : Sys) : Sys :=
  let vol := ((volume % 256) * 31 / 100) % 256
  send_frame chunk VB6824_CMD_SEND_VOLUM [vol] st

/-! ## `dl_power_of_two` (`managed_components/espressif__dl_fft/base/dl_fft_base.c`) -/

/-- Source function `dl_power_of_two(n)` for a `uint32_t` argument `n`; the local
`pos` and the successive values of `n` are threaded through the five tests. -/
def dl_power_of_two (n : Nat) : Nat :=
  let pos := 0
  let (n, pos) := if n ≥ 1 <<< 16 then (n >>> 16, pos + 16) else (n, pos)
  let (n, pos) := if n ≥ 1 <<< 8 then (n >>> 8, pos + 8) else (n, pos)
  let (n, pos) := if n ≥ 1 <<< 4 then (n >>> 4, pos + 4) else (n, pos)
  let (n, pos) := if n ≥ 1 <<< 2 then (n >>> 2, pos + 2) else (n, pos)
  let pos := if n ≥ 1 <<< 1 then pos + 1 else pos
  pos

/-! ## The application (`main/application.cc`)

The device state machine, the queue of packets to decode and the scheduler of the
class `Application`. A call on a collaborator whose code is outside these sources
(display, LED, protocol, audio processor, background task, codec) is recorded in a
log; what such a call answers is an argument of the function that asks. Calls
compiled in only under `CONFIG_USE_WAKE_WORD_DETECT` and the resets of the Opus
encoder and decoder touch nothing of the state below and are left out. -/

/-- Source enumeration `DeviceState` (`main/application.h`). -/
inductive DeviceState where
  | kDeviceStateUnknown
  | kDeviceStateStarting
  | kDeviceStateWifiConfiguring
  | kDeviceStateIdle
  | kDeviceStateConnecting
  | kDeviceStateListening
  | kDeviceStateSpeaking
  | kDeviceStateUpgrading
  | kDeviceStateActivating
  | kDeviceStateFatalError
  deriving DecidableEq, Repr

/-- The enumerators of `ListeningMode` that `application.cc` uses. -/
inductive ListeningMode where
  | kListeningModeAutoStop
  | kListeningModeManualStop
  | kListeningModeRealtime
  deriving DecidableEq, Repr

/-- Source constant `OPUS_FRAME_DURATION_MS` (`main/application.h`). -/
def OPUS_FRAME_DURATION_MS : Nat := 60

/-- A call of the application on one of its collaborators. -/
inductive AppCall where
  /-- The call `background_task_->WaitForCompletion()`. -/
  | WaitForCompletion
  /-- The call `led->OnStateChanged()`. -/
  | OnStateChanged
  /-- The call `display->SetStatus(status)`. -/
  | SetStatus (status : String)
  /-- The call `display->SetEmotion(emotion)`. -/
  | SetEmotion (emotion : String)
  /-- The call `display->SetChatMessage(role, content)`. -/
  | SetChatMessage (role content : String)
  /-- The call `audio_processor_->Stop()`. -/
  | audio_processor_Stop
  /-- The call `audio_processor_->Start()`. -/
  | audio_processor_Start
  /-- The call `UpdateIotStates()`. -/
  | UpdateIotStates
  /-- The call `protocol_->SendStartListening(mode)`. -/
  | SendStartListening (mode : ListeningMode)
  /-- The call `vTaskDelay(pdMS_TO_TICKS(ms))`. -/
  | vTaskDelay (ms : Nat)
  /-- The call `codec->EnableOutput(enable)`. -/
  | EnableOutput (enable : Bool)
  /-- The call `SetDecodeSampleRate(sample_rate, frame_duration)`. -/
  | SetDecodeSampleRate (sample_rate frame_duration : Nat)
  deriving DecidableEq, Repr

/-- The members of `Application` that the state machine and the incoming-audio
handler use, and the log of calls on collaborators, oldest first. A packet of
`audio_decode_queue_` is its payload. -/
structure App where
  device_state_ : DeviceState
  listening_mode_ : ListeningMode
  aborted_ : Bool
  clock_ticks_ : Int
  audio_decode_queue_ : List (List Nat)
  calls : List AppCall
  deriving DecidableEq, Repr

/-- Appends calls to the log. -/
def App.log (app : App) (cs : List AppCall) : App := { app with calls := app.calls ++ cs }

/-- Source function `Application::ResetDecoder`; the condition variable and
`last_output_time_` are not part of the state. -/
def ResetDecoder (app : App) : App :=
  { app with audio_decode_queue_ := [], calls := app.calls ++ [AppCall.EnableOutput true] }

/-- Source function `Application::SetDeviceState(state)`. `is_running` is what
`audio_processor_->IsRunning()` answers. -/
def SetDeviceState (is_running : Bool) (app : App) (state : DeviceState) : App :=
  if app.device_state_ = state then app
  else
    let previous_state := app.device_state_
    let app := { app with clock_ticks_ := 0, device_state_ := state }
    let app := app.log [AppCall.WaitForCompletion, AppCall.OnStateChanged]
    match state with
    | DeviceState.kDeviceStateUnknown | DeviceState.kDeviceStateIdle =>
      app.log [AppCall.SetStatus "STANDBY", AppCall.SetEmotion "neutral",
               AppCall.audio_processor_Stop]
    | DeviceState.kDeviceStateConnecting =>
      app.log [AppCall.SetStatus "CONNECTING", AppCall.SetEmotion "neutral",
               AppCall.SetChatMessage "system" ""]
    | DeviceState.kDeviceStateListening =>
      let app := app.log [AppCall.SetStatus "LISTENING", AppCall.SetEmotion "neutral",
                          AppCall.UpdateIotStates]
      if is_running = false then
        let app := app.log [AppCall.SendStartListening app.listening_mode_]
        let app :=
          if app.listening_mode_ = ListeningMode.kListeningModeAutoStop
              ∧ previous_state = DeviceState.kDeviceStateSpeaking then
            app.log [AppCall.vTaskDelay 120]
          else app
        app.log [AppCall.audio_processor_Start]
      else app
    | DeviceState.kDeviceStateSpeaking =>
      let app := app.log [AppCall.SetStatus "SPEAKING"]
      let app :=
        if app.listening_mode_ ≠ ListeningMode.kListeningModeRealtime then
          app.log [AppCall.audio_processor_Stop]
        else app
      ResetDecoder app
    | _ => app

/-- The task scheduled by the incoming-JSON handler for a `tts` message with state
`start`. -/
def tts_start_task (is_running : Bool) (app : App) : App :=
  let app := { app with aborted_ := false }
  if app.device_state_ = DeviceState.kDeviceStateIdle
      ∨ app.device_state_ = DeviceState.kDeviceStateListening then
    SetDeviceState is_running app DeviceState.kDeviceStateSpeaking
  else app

/-- The task scheduled by the incoming-JSON handler for a `tts` message with state
`stop`. -/
def tts_stop_task (is_running : Bool) (app : App) : App :=
  let app := app.log [AppCall.WaitForCompletion]
  if app.device_state_ = DeviceState.kDeviceStateSpeaking then
    if app.listening_mode_ = ListeningMode.kListeningModeManualStop then
      SetDeviceState is_running app DeviceState.kDeviceStateIdle
    else
      SetDeviceState is_running app DeviceState.kDeviceStateListening
  else app

/-- The task scheduled by the handler registered with `OnAudioChannelClosed`. -/
def channel_closed_task (is_running : Bool) (app : App) : App :=
  let app := app.log [AppCall.SetChatMessage "system" ""]
  SetDeviceState is_running app DeviceState.kDeviceStateIdle

/-- Source function `Application::PlaySound(sound)`; `sound` is the list of the
payloads of the packets that make up the sound resource. `none`: the function
waits for the audio loop to empty `audio_decode_queue_`. -/
def PlaySound (app : App) (sound : List (List Nat)) : Option App :=
  if app.audio_decode_queue_ = [] then
    let app := app.log [AppCall.WaitForCompletion, AppCall.SetDecodeSampleRate 16000 60]
    some { app with audio_decode_queue_ := app.audio_decode_queue_ ++ sound }
  else none

/-- Source function `Application::Alert(status, message, emotion, sound)`. -/
def Alert (app : App) (status message emotion : String) (sound : List (List Nat)) :
    Option App :=
  let app := app.log [AppCall.SetStatus status, AppCall.SetEmotion emotion,
                      AppCall.SetChatMessage "system" message]
  if sound ≠ [] then PlaySound (ResetDecoder app) sound
  else some app

/-- The handler registered with `OnNetworkError`; `sound` is the sound resource
`P3_EXCLAMATION`. -/
def OnNetworkError (is_running : Bool) (app : App) (message : String)
    (sound : List (List Nat)) : Option App :=
  Alert (SetDeviceState is_running app DeviceState.kDeviceStateIdle) "ERROR" message "sad" sound

/-- The handler registered with `OnIncomingAudio`. -/
def OnIncomingAudio (app : App) (packet : List Nat) : App :=
  let max_packets_in_queue := 600 / OPUS_FRAME_DURATION_MS
  if app.audio_decode_queue_.length < max_packets_in_queue then
    { app with audio_decode_queue_ := app.audio_decode_queue_ ++ [packet] }
  else app

/-- An application in the state `kDeviceStateFatalError`. -/
def fatal_app : App :=
  { device_state_ := DeviceState.kDeviceStateFatalError,
    listening_mode_ := ListeningMode.kListeningModeAutoStop,
    aborted_ := false, clock_ticks_ := 0, audio_decode_queue_ := [], calls := [] }

/-! ### The scheduler

`Application::Schedule` is called from several tasks while the main task runs
`Application::MainEventLoop`. Each of the two statements of `Schedule` (the
`push_back` under the mutex, and `xEventGroupSetBits`) is one move, and so is each
of: the return of `xEventGroupWaitBits` with the bit cleared, the move of
`main_tasks_` into the local list under the mutex, and the run of one callback of
the local list. Moves of different tasks interleave in any order. A callback is
an element of `α`; a callback that itself calls `Schedule` is covered by moves of
`Schedule` between its run and the run of the next callback. -/

/-- Where the main task stands in `Application::MainEventLoop`. -/
inductive LoopPc (α : Type) where
  /-- In `xEventGroupWaitBits`. -/
  | wait
  /-- Past `xEventGroupWaitBits`, which has cleared `SCHEDULE_EVENT`; before the lock. -/
  | take
  /-- In the `for` loop, with the callbacks of the local list `tasks` still to run. -/
  | run (tasks : List α)
  deriving DecidableEq, Repr

/-- The state shared by `Schedule` and `MainEventLoop`: the list `main_tasks_`,
the bit `SCHEDULE_EVENT` of `event_group_`, the number of calls of `Schedule` that
have left the critical section and not yet set the bit, the position of the main
task, and the callbacks run so far, oldest first. -/
structure Sched (α : Type) where
  main_tasks_ : List α
  event : Bool
  pending : Nat
  pc : LoopPc α
  ran : List α

/-- A move of one of the tasks. -/
inductive Ev (α : Type) where
  /-- A call `Schedule(cb)` runs its critical section: `main_tasks_.push_back(cb)`. -/
  | push (cb : α)
  /-- A call of `Schedule` that has left its critical section calls
  `xEventGroupSetBits(event_group_, SCHEDULE_EVENT)`. -/
  | set_bits
  /-- The main task makes its next move in `MainEventLoop`. -/
  | loop

/-- The callbacks of the local list `tasks` of `MainEventLoop` that are still to
run. -/
def Sched.batch {α : Type} (s : Sched α) : List α :=
  match s.pc with
  | LoopPc.run tasks => tasks
  | _ => []

/-- First statement of `Application::Schedule(callback)`: the `push_back` under the
mutex. -/
def Schedule_push {α : Type} (s : Sched α) (cb : α) : Sched α :=
  { s with main_tasks_ := s.main_tasks_ ++ [cb], pending := s.pending + 1 }

/-- Second statement of `Application::Schedule(callback)`: `xEventGroupSetBits`.
With no call of `Schedule` at that statement there is nobody to make the move. -/
def Schedule_set_bits {α : Type} (s : Sched α) : Sched α :=
  if s.pending = 0 then s else { s with event := true, pending := s.pending - 1 }

/-- Source function `Application::Schedule(callback)`, run without another task in
between. -/
def Schedule {α : Type} (s : Sched α) (cb : α) : Sched α :=
  Schedule_set_bits (Schedule_push s cb)

/-- One move of `Application::MainEventLoop`. `xEventGroupWaitBits` returns only
once `SCHEDULE_EVENT` is set and clears it on return; the list moved from is left
empty; the callbacks of the local list run front to back. -/
def MainEventLoop {α : Type} (s : Sched α) : Sched α :=
  match s.pc with
  | LoopPc.wait => if s.event then { s with event := false, pc := LoopPc.take } else s
  | LoopPc.take => { s with main_tasks_ := [], pc := LoopPc.run s.main_tasks_ }
  | LoopPc.run [] => { s with pc := LoopPc.wait }
  | LoopPc.run (task :: tasks) => { s with ran := s.ran ++ [task], pc := LoopPc.run tasks }

/-- One move. -/
def Sched.step {α : Type} (s : Sched α) : Ev α → Sched α
  | Ev.push cb => Schedule_push s cb
  | Ev.set_bits => Schedule_set_bits s
  | Ev.loop => MainEventLoop s

/-- A sequence of moves, first to last. -/
def Sched.exec {α : Type} (s : Sched α) (evs : List (Ev α)) : Sched α :=
  evs.foldl Sched.step s

/-- The callbacks passed to `Schedule` in a sequence of moves, in the order of
their `push_back`. -/
def pushes {α : Type} : List (Ev α) → List α
  | [] => []
  | Ev.push cb :: evs => cb :: pushes evs
  | _ :: evs => pushes evs

/-- The scheduler at the start of `MainEventLoop`: nothing scheduled, nothing run. -/
def sched_init (α : Type) : Sched α :=
  { main_tasks_ := [], event := false, pending := 0, pc := LoopPc.wait, ran := [] }

/-- The callbacks passed to `Schedule` so far, in the order of their `push_back`,
as the state holds them: those run, those of the local list still to run, and those
in `main_tasks_`. -/
def Sched.order {α : Type} (s : Sched α) : List α := s.ran ++ s.batch ++ s.main_tasks_

/-- The number of moves the main task makes from a position of `MainEventLoop`
until it has taken `main_tasks_`, once the bit is set. -/
def LoopPc.moves {α : Type} : LoopPc α → Nat
  | LoopPc.wait => 2
  | LoopPc.take => 1
  | LoopPc.run _ => 3

/-- While `main_tasks_` holds a callback, the main task is bound to come by: the bit
is set, or a call of `Schedule` is about to set it, or the main task is past
`xEventGroupWaitBits` and before the lock. -/
def Sched.awake {α : Type} (s : Sched α) : Prop :=
  s.main_tasks_ ≠ [] → s.event = true ∨ 0 < s.pending ∨ s.pc.moves = 1

/-- A bound on the number of moves of the main task after which every callback
passed to `Schedule` so far has run, when no call of `Schedule` is under way. -/
def Sched.cost {α : Type} (s : Sched α) : Nat :=
  s.batch.length +
    match s.main_tasks_ with
    | [] => 0
    | _ :: _ => s.main_tasks_.length + s.pc.moves

/-! ## Arithmetic of the macros and of the sender -/

theorem foldl_checksum (bytes : List Nat) (c : Nat) :
    bytes.foldl (fun c b => (c + b) % 256) (c % 256) = (c + bytes.sum) % 256 := by
  induction bytes generalizing c with
  | nil => simp
  | cons b bs ih =>
    simp only [List.foldl_cons, List.sum_cons]
    have h : (c % 256 + b) % 256 = (c + b) % 256 := by omega
    rw [h, ih, Nat.add_assoc]

theorem checksum8_eq (bytes : List Nat) : checksum8 bytes = bytes.sum % 256 := by
  have h := foldl_checksum bytes 0
  simpa [checksum8] using h

theorem SWAP_16_mod (v : Nat) : SWAP_16 v % 256 = (v / 256) % 256 := by
  unfold SWAP_16
  generalize v % 256 = x
  have : (v / 256) % 256 < 256 := Nat.mod_lt _ (by norm_num)
  generalize (v / 256) % 256 = y at this ⊢
  omega

theorem SWAP_16_div (v : Nat) : SWAP_16 v / 256 = v % 256 := by
  unfold SWAP_16
  have : (v / 256) % 256 < 256 := Nat.mod_lt _ (by norm_num)
  generalize (v / 256) % 256 = y at this ⊢
  generalize v % 256 = x
  omega

theorem SWAP_16_lt (v : Nat) : SWAP_16 v < 65536 := by
  unfold SWAP_16
  omega

theorem wr16_SWAP_16 (v : Nat) : wr16 (SWAP_16 v) = [(v / 256) % 256, v % 256] := by
  simp only [wr16, SWAP_16_mod, SWAP_16_div, Nat.mod_mod]

theorem wr16_FRAME_HEAD : wr16 FRAME_HEAD = [0x55, 0xAA] := by decide

theorem set_take_append (L R : List Nat) (c m : Nat) (hm : L.length = m) (hR : R ≠ []) :
    ((L ++ R).set m c).take (m + 1) = L ++ [c] := by
  subst hm
  cases R with
  | nil => exact absurd rfl hR
  | cons r rs =>
    rw [List.set_append_right _ _ (Nat.le_refl _)]
    have h : L ++ c :: rs = (L ++ [c]) ++ rs := by simp
    have hl : (L ++ [c]).length = L.length + 1 := by simp
    simp only [Nat.sub_self, List.set_cons_zero]
    rw [h, List.take_left' hl]

theorem frame_send_body_eq (chunk cmd : Nat) (data : List Nat)
    (h1 : data.length ≤ chunk) (h2 : data.length < 32768) :
    frame_send_body chunk cmd data 0 = some (wire_frame cmd data) := by
  have hn : (if (data.length : Int) > (data.length : Int) - 0 then ((data.length : Int) - 0).toNat else data.length) = data.length := by
    simp
  unfold frame_send_body
  simp only [hn]
  have hpl : (6 + data.length + 1) % 65536 = data.length + 7 := by omega
  simp only [hpl]
  rw [if_neg (by omega), if_neg (by omega)]
  simp only [wr16_SWAP_16, wr16_FRAME_HEAD, Int.toNat_zero, List.drop_zero, List.take_length, checksum8_eq]
  have hR : List.replicate (chunk + 7 - 6 - data.length) 0 ≠ [] := by
    have : chunk + 7 - 6 - data.length = (chunk - data.length) + 1 := by omega
    rw [this]; simp [List.replicate_succ]
  have hL : ([85, 170] ++ [data.length / 256 % 256, data.length % 256] ++ [cmd / 256 % 256, cmd % 256] ++ data).length = data.length + 6 := by
    simp
  have e1 : data.length + 7 - 1 = data.length + 6 := by omega
  rw [e1, set_take_append _ _ _ _ hL hR, List.take_left' hL]
  simp [wire_frame]
  congr 1
  ring

theorem frame_send_eq (chunk cmd : Nat) (data : List Nat) (h0 : 1 ≤ data.length)
    (h1 : data.length ≤ chunk) (h2 : data.length < 32768) :
    __frame_send chunk cmd data = ⟨[wire_frame cmd data], SendHalt.done⟩ := by
  have hi : toInt16 (0 + (data.length : Int)) = data.length := by
    unfold toInt16; omega
  unfold __frame_send
  rw [frame_send_loop, if_pos (by omega), frame_send_body_eq chunk cmd data h1 h2]
  simp only [hi, List.nil_append]
  rw [frame_send_loop, if_neg (by omega)]

/-! ## One iteration of the parser loop -/

theorem rd16_drop (l : List Nat) (i k : Nat) : rd16 (l.drop i) k = rd16 l (i + k) := by
  simp [rd16, List.getD_eq_getElem?_getD, List.getElem?_drop, Nat.add_assoc]

theorem parse_loop_step (fuel : Nat) (pd : List Nat) (tl i : Nat) (fr : List (List Nat))
    (hlen : pd.length < 65536) (h7 : 7 ≤ pd.length - i) :
    parse_loop (fuel + 1) pd tl i fr =
      if rd16 (pd.drop i) 0 = FRAME_HEAD then
        if SWAP_16 (rd16 (pd.drop i) 2) + 7 ≤ (pd.drop i).length then
          if ((pd.drop i).take (SWAP_16 (rd16 (pd.drop i) 2) + 6)).sum % 256
              = (pd.drop i).getD (SWAP_16 (rd16 (pd.drop i) 2) + 6) 0 then
            if (pd.drop i).length - (SWAP_16 (rd16 (pd.drop i) 2) + 7) > 7 then
              parse_loop fuel ((pd.drop i).drop (SWAP_16 (rd16 (pd.drop i) 2) + 7))
                ((pd.drop i).length - (SWAP_16 (rd16 (pd.drop i) 2) + 7)) 0
                (fr ++ [(pd.drop i).take (SWAP_16 (rd16 (pd.drop i) 2) + 7)])
            else ⟨fr ++ [(pd.drop i).take (SWAP_16 (rd16 (pd.drop i) 2) + 7)],
                  Halt.ret ((pd.drop i).drop (SWAP_16 (rd16 (pd.drop i) 2) + 7))⟩
          else parse_loop fuel pd tl (i + 1) fr
        else if 65529 ≤ SWAP_16 (rd16 (pd.drop i) 2) then
          ⟨fr, Halt.oob_read (i + 6 + SWAP_16 (rd16 (pd.drop i) 2))⟩
        else if SWAP_16 (rd16 (pd.drop i) 2) + 7 ≤ 519 then
          ⟨fr, Halt.ret (if i ≠ 0 then pd.drop i else pd.take tl)⟩
        else parse_loop fuel pd tl (i + 1) fr
      else parse_loop fuel pd tl (i + 1) fr := by
  have hi : i < pd.length := by omega
  have hll : (pd.length - i) % 65536 = pd.length - i := by omega
  rw [parse_loop]
  simp only [hll, FRAME_MIN_LIN, FRAME_MAX_LIN, rd16_drop, Nat.zero_add, Nat.add_zero, List.length_drop,
    if_pos hi, ge_iff_le, if_pos h7]
  by_cases hh : rd16 pd i = FRAME_HEAD
  · simp only [if_pos hh]
    have hn := SWAP_16_lt (rd16 pd (i + 2))
    generalize SWAP_16 (rd16 pd (i + 2)) = n at hn ⊢
    by_cases hw : 65529 ≤ n
    · have h1 : (6 + n + 1) % 65536 ≤ pd.length - i := by omega
      have h2 : ¬ (n + 7 ≤ pd.length - i) := by omega
      have h3 : pd.get? (i + 6 + n) = none := by
        rw [List.get?_eq_none]; omega
      simp only [if_pos h1, h3, if_neg h2, if_pos hw]
    · have e1 : (6 + n + 1) % 65536 = n + 7 := by omega
      simp only [e1, if_neg hw]
      by_cases hc : n + 7 ≤ pd.length - i
      · have h3 : pd.get? (i + 6 + n) = some ((pd.drop i).getD (n + 6) 0) := by
          have hb : i + 6 + n < pd.length := by omega
          rw [List.get?_eq_get hb]
          have hb2 : i + (n + 6) < pd.length := by omega
          have e3 : i + 6 + n = i + (n + 6) := by omega
          simp [List.getD_eq_getElem?_getD, List.getElem?_drop, List.getElem?_eq_getElem, hb2, e3]
        have e2 : (6 + n) % 65536 = 6 + n := by omega
        have e4 : 6 + n = n + 6 := by omega
        have e2 : (n + 6) % 65536 = n + 6 := by omega
        have e5 : List.take (pd.length - i - (n + 7)) (List.drop (i + (n + 7)) pd)
            = List.drop (n + 7) (List.drop i pd) := by
          rw [List.drop_drop]
          apply List.take_of_length_le
          simp only [List.length_drop]; omega
        simp only [if_pos hc, h3, SUM8, __sum_bytes, e2, e4, e5]
        by_cases hs : (List.take (n + 6) (List.drop i pd)).sum % 256 = (List.drop i pd).getD (n + 6) 0
        · simp only [if_pos hs]
          by_cases hg : pd.length - i - (n + 7) > 7
          · have : ¬ (pd.length - i - (n + 7) < 7) := by omega
            simp only [if_pos hg, if_neg this]
          · simp only [if_neg hg]
        · simp only [if_neg hs]
      · simp only [if_neg hc]
        have e6 : (n + 7 ≤ 512 + 7) = (n + 7 ≤ 519) := rfl
        by_cases hm : n + 7 ≤ 519
        · simp only [e6, if_pos hm]
          by_cases h0 : i ≠ 0
          · simp only [if_pos h0]
          · simp only [if_neg h0]
        · simp only [e6, if_neg hm]
  · simp only [if_neg hh]

theorem parse_loop_tail (fuel : Nat) (pd : List Nat) (tl i : Nat) (fr : List (List Nat))
    (hi : i < pd.length) (h7 : pd.length - i < 7) :
    parse_loop (fuel + 1) pd tl i fr =
      parse_loop fuel (pd.drop i ++ pd.drop (pd.length - i)) (pd.length - i) (i + 1) fr := by
  have hll : (pd.length - i) % 65536 = pd.length - i := by omega
  rw [parse_loop]
  simp only [hll, FRAME_MIN_LIN, if_pos hi, ge_iff_le]
  rw [if_neg (by omega)]

theorem parse_loop_end (fuel : Nat) (pd : List Nat) (tl i : Nat) (fr : List (List Nat))
    (hi : pd.length ≤ i) :
    parse_loop (fuel + 1) pd tl i fr = ⟨fr, Halt.ret (pd.take tl)⟩ := by
  rw [parse_loop]
  simp only []
  rw [if_neg (by omega)]

theorem tail_length (pd : List Nat) (i : Nat) (hi : i < pd.length) :
    (pd.drop i ++ pd.drop (pd.length - i)).length = pd.length := by
  simp only [List.length_append, List.length_drop]; omega

theorem tail_mem (pd : List Nat) (i k : Nat) (b : Nat)
    (hb : b ∈ pd.drop i ++ pd.drop k) : b ∈ pd := by
  rcases List.mem_append.mp hb with h | h
  · exact List.mem_of_mem_drop h
  · exact List.mem_of_mem_drop h

/-! ## Every frame handed to the callback is well formed -/

theorem getD_take (s : List Nat) (m k : Nat) (h : k < m) : (s.take m).getD k 0 = s.getD k 0 := by
  simp [List.getD_eq_getElem?_getD, List.getElem?_take, h]

theorem rd16_take (s : List Nat) (m k : Nat) (h : k + 1 < m) : rd16 (s.take m) k = rd16 s k := by
  unfold rd16
  rw [getD_take s m k (by omega), getD_take s m (k + 1) h]

theorem head_bytes (s : List Nat) (hb : ∀ b ∈ s, b < 256) (hl : 2 ≤ s.length)
    (hh : rd16 s 0 = FRAME_HEAD) : s.take 2 = [0x55, 0xAA] := by
  match s, hl with
  | a :: b :: t, _ =>
    have ha : a < 256 := hb a (by simp)
    have hb' : b < 256 := hb b (by simp)
    have : a + 256 * b = 43605 := by
      simpa [rd16, FRAME_HEAD, SWAP_16] using hh
    have h1 : a = 0x55 := by omega
    have h2 : b = 0xAA := by omega
    simp [h1, h2]

/-- What the parser guarantees of a frame it hands to the callback. -/
theorem emitted_frame_ok (s : List Nat) (n : Nat) (hb : ∀ b ∈ s, b < 256)
    (hh : rd16 s 0 = FRAME_HEAD) (hn : SWAP_16 (rd16 s 2) = n) (hc : n + 7 ≤ s.length)
    (hs : (s.take (n + 6)).sum % 256 = s.getD (n + 6) 0) :
    (s.take (n + 7)).take 2 = [0x55, 0xAA]
      ∧ (s.take (n + 7)).length = frame_len (s.take (n + 7)) + 7
      ∧ (s.take (n + 7)).getLast?
          = some (((s.take (n + 7)).take (frame_len (s.take (n + 7)) + 6)).sum % 256) := by
  have hfl : frame_len (s.take (n + 7)) = n := by
    unfold frame_len
    rw [rd16_take s _ 2 (by omega)]; exact hn
  have hlen : (s.take (n + 7)).length = n + 7 := by
    rw [List.length_take]; omega
  refine ⟨?_, ?_, ?_⟩
  · apply head_bytes
    · intro b hb'
      exact hb b (List.mem_of_mem_take hb')
    · omega
    · rw [rd16_take s _ 0 (by omega)]; exact hh
  · rw [hfl, hlen]
  · rw [hfl]
    have h1 : (s.take (n + 7)).take (n + 6) = s.take (n + 6) := by
      rw [List.take_take]; congr 1; omega
    rw [h1, hs]
    rw [List.getLast?_eq_getElem?, hlen]
    have h2 : n + 6 < s.length := by omega
    simp [List.getElem?_take, List.getD_eq_getElem?_getD, h2]

theorem parse_loop_frames_ok (fuel : Nat) : ∀ (pd : List Nat) (tl i : Nat) (fr : List (List Nat)),
    pd.length < 65536 → (∀ b ∈ pd, b < 256) → (∀ f ∈ fr, FrameOK f) →
    ∀ f ∈ (parse_loop fuel pd tl i fr).frames, FrameOK f := by
  induction fuel with
  | zero =>
    intro pd tl i fr _ _ hfr f hf
    exact hfr f (by simpa [parse_loop] using hf)
  | succ fuel ih =>
    intro pd tl i fr hlen hb hfr
    by_cases hi : i < pd.length
    · by_cases h7 : 7 ≤ pd.length - i
      · rw [parse_loop_step fuel pd tl i fr hlen h7]
        have hbs : ∀ b ∈ pd.drop i, b < 256 := fun b h => hb b (List.mem_of_mem_drop h)
        have hbd : ∀ k, ∀ b ∈ (pd.drop i).drop k, b < 256 :=
          fun k b h => hbs b (List.mem_of_mem_drop h)
        have hem : rd16 (pd.drop i) 0 = FRAME_HEAD →
            SWAP_16 (rd16 (pd.drop i) 2) + 7 ≤ (pd.drop i).length →
            (List.take (SWAP_16 (rd16 (pd.drop i) 2) + 6) (pd.drop i)).sum % 256
              = (pd.drop i).getD (SWAP_16 (rd16 (pd.drop i) 2) + 6) 0 →
            ∀ f ∈ fr ++ [List.take (SWAP_16 (rd16 (pd.drop i) 2) + 7) (pd.drop i)], FrameOK f := by
          intro hh hc hs f hf
          rcases List.mem_append.mp hf with h | h
          · exact hfr f h
          · rw [List.mem_singleton.mp h]
            exact emitted_frame_ok (pd.drop i) _ hbs hh rfl hc hs
        split_ifs with hh hc hs hg
        all_goals first
          | exact hfr
          | exact ih pd tl (i + 1) fr hlen hb hfr
          | exact hem hh hc hs
          | skip
        apply ih
        · simp only [List.length_drop]; omega
        · exact hbd _
        · exact hem hh hc hs
      · rw [parse_loop_tail fuel pd tl i fr hi (by omega)]
        apply ih
        · rw [tail_length pd i hi]; exact hlen
        · exact fun b h => hb b (tail_mem pd _ _ b h)
        · exact hfr
    · rw [parse_loop_end fuel pd tl i fr (by omega)]
      exact hfr

theorem frame_parse_data_frames_ok (tmp data : List Nat) (hb : ∀ b ∈ tmp ++ data, b < 256) :
    ∀ f ∈ (__frame_parse_data tmp data).frames, FrameOK f := by
  unfold __frame_parse_data
  simp only []
  split_ifs with h1 h2
  · simp
  · simp
  · apply parse_loop_frames_ok
    · simp only [TMP_DATA_SIZE, FRAME_MAX_LIN, List.length_append] at h1 ⊢; omega
    · exact hb
    · simp

/-! ## The parser never exhausts its step budget -/

theorem parse_loop_fuel (fuel : Nat) : ∀ (pd : List Nat) (tl i : Nat) (fr : List (List Nat)),
    pd.length < 65536 → pd.length - i < fuel →
    (parse_loop fuel pd tl i fr).halt ≠ Halt.fuel := by
  induction fuel with
  | zero => intro pd tl i fr _ h; omega
  | succ fuel ih =>
    intro pd tl i fr hlen hf
    by_cases hi : i < pd.length
    · by_cases h7 : 7 ≤ pd.length - i
      · rw [parse_loop_step fuel pd tl i fr hlen h7]
        split_ifs with hh hc hs hg
        all_goals first
          | exact ih pd tl (i + 1) fr hlen (by omega)
          | (simp; done)
          | skip
        apply ih
        · simp only [List.length_drop]; omega
        · simp only [List.length_drop]; omega
      · rw [parse_loop_tail fuel pd tl i fr hi (by omega)]
        apply ih
        · rw [tail_length pd i hi]; exact hlen
        · rw [tail_length pd i hi]; omega
    · rw [parse_loop_end fuel pd tl i fr (by omega)]
      simp

theorem frame_parse_data_fuel (tmp data : List Nat) :
    (__frame_parse_data tmp data).halt ≠ Halt.fuel := by
  unfold __frame_parse_data
  simp only []
  split_ifs with h1 h2
  · simp
  · simp
  · apply parse_loop_fuel
    · simp only [TMP_DATA_SIZE, FRAME_MAX_LIN, List.length_append] at h1 ⊢; omega
    · omega

/-! ## Facts about the wire layout -/

theorem wire_frame_length (cmd : Nat) (payload : List Nat) :
    (wire_frame cmd payload).length = payload.length + 7 := by
  simp [wire_frame]

theorem wire_frame_eq (cmd : Nat) (payload : List Nat) :
    wire_frame cmd payload =
      0x55 :: 0xAA :: (payload.length / 256) % 256 :: payload.length % 256
        :: (cmd / 256) % 256 :: cmd % 256
        :: (payload ++ [(0x55 + 0xAA + (payload.length / 256) % 256 + payload.length % 256
          + (cmd / 256) % 256 + cmd % 256 + payload.sum) % 256]) := by
  simp [wire_frame]

theorem SWAP_16_be (a b : Nat) (ha : a < 256) (hb : b < 256) :
    SWAP_16 (a + 256 * b) = a * 256 + b := by
  unfold SWAP_16; omega

theorem rd16_head (a b c d : Nat) (q : List Nat) :
    rd16 (0x55 :: 0xAA :: a :: b :: c :: d :: q) 0 = FRAME_HEAD := by
  have h : FRAME_HEAD = 43605 := by decide
  rw [h]
  simp only [rd16, List.getD_cons_zero, List.getD_cons_succ]

theorem len_field (x y a b c d : Nat) (q : List Nat) :
    rd16 (x :: y :: a :: b :: c :: d :: q) 2 = a + 256 * b := by
  simp [rd16]

theorem cmd_field (x y a b c d : Nat) (q : List Nat) :
    rd16 (x :: y :: a :: b :: c :: d :: q) 4 = c + 256 * d := by
  simp [rd16]

theorem be16 (n : Nat) (h : n < 65536) : (n / 256) % 256 * 256 + n % 256 = n := by omega

theorem wire_frame_len (cmd : Nat) (payload rest : List Nat) (h : payload.length < 65536) :
    SWAP_16 (rd16 (wire_frame cmd payload ++ rest) 2) = payload.length := by
  rw [wire_frame_eq]
  simp only [List.cons_append, len_field]
  rw [SWAP_16_be _ _ (Nat.mod_lt _ (by norm_num)) (Nat.mod_lt _ (by norm_num))]
  exact be16 _ h

theorem wire_frame_head (cmd : Nat) (payload rest : List Nat) :
    rd16 (wire_frame cmd payload ++ rest) 0 = FRAME_HEAD := by
  rw [wire_frame_eq]
  simp only [List.cons_append]
  exact rd16_head _ _ _ _ _

theorem frame_cmd_wire (cmd : Nat) (payload : List Nat) (h : cmd < 65536) :
    frame_cmd (wire_frame cmd payload) = cmd := by
  unfold frame_cmd
  rw [wire_frame_eq, cmd_field]
  rw [SWAP_16_be _ _ (Nat.mod_lt _ (by norm_num)) (Nat.mod_lt _ (by norm_num))]
  exact be16 _ h

theorem frame_len_wire (cmd : Nat) (payload : List Nat) (h : payload.length < 65536) :
    frame_len (wire_frame cmd payload) = payload.length := by
  have := wire_frame_len cmd payload [] h
  simpa [frame_len] using this

theorem frame_data_wire (cmd : Nat) (payload : List Nat) (h : payload.length < 65536) :
    frame_data (wire_frame cmd payload) = payload := by
  unfold frame_data
  rw [frame_len_wire cmd payload h, wire_frame_eq]
  simp

theorem wire_frame_take (cmd : Nat) (payload rest : List Nat) :
    (wire_frame cmd payload ++ rest).take (payload.length + 7) = wire_frame cmd payload := by
  rw [List.take_left' (wire_frame_length cmd payload)]

theorem wire_frame_drop (cmd : Nat) (payload rest : List Nat) :
    (wire_frame cmd payload ++ rest).drop (payload.length + 7) = rest := by
  rw [List.drop_left' (wire_frame_length cmd payload)]

theorem wire_frame_sum (cmd : Nat) (payload rest : List Nat) :
    ((wire_frame cmd payload ++ rest).take (payload.length + 6)).sum % 256
      = (wire_frame cmd payload ++ rest).getD (payload.length + 6) 0 := by
  have h : wire_frame cmd payload ++ rest =
      ([0x55, 0xAA, (payload.length / 256) % 256, payload.length % 256,
        (cmd / 256) % 256, cmd % 256] ++ payload)
      ++ ((0x55 + 0xAA + (payload.length / 256) % 256 + payload.length % 256
          + (cmd / 256) % 256 + cmd % 256 + payload.sum) % 256 :: rest) := by
    simp [wire_frame]
  have hl : ([0x55, 0xAA, (payload.length / 256) % 256, payload.length % 256,
        (cmd / 256) % 256, cmd % 256] ++ payload).length = payload.length + 6 := by
    simp
  rw [h, List.take_left' hl]
  rw [List.getD_eq_getElem?_getD, List.getElem?_append_right (by omega)]
  simp only [hl, Nat.sub_self, List.getElem?_cons_zero, Option.getD_some]
  simp only [List.sum_append, List.sum_cons, List.sum_nil]
  congr 1
  ring

/-! ## A frame at the scan position -/

/-- A complete valid frame at offset `i` is handed to the callback; the scan
restarts on what follows it when that is longer than 7 bytes. -/
theorem parse_loop_frame (fuel : Nat) (pd : List Nat) (tl i : Nat) (fr : List (List Nat))
    (cmd : Nat) (payload rest : List Nat) (hlen : pd.length < 65536)
    (hs : pd.drop i = wire_frame cmd payload ++ rest) :
    parse_loop (fuel + 1) pd tl i fr =
      if rest.length > 7 then parse_loop fuel rest rest.length 0 (fr ++ [wire_frame cmd payload])
      else ⟨fr ++ [wire_frame cmd payload], Halt.ret rest⟩ := by
  have hl : (pd.drop i).length = payload.length + 7 + rest.length := by
    rw [hs, List.length_append, wire_frame_length]
  have hl' := hl
  rw [List.length_drop] at hl'
  have hp : payload.length < 65536 := by omega
  rw [parse_loop_step fuel pd tl i fr hlen (by omega)]
  rw [hs, wire_frame_len cmd payload rest hp, if_pos (wire_frame_head cmd payload rest)]
  rw [if_pos (by rw [← hs]; omega), if_pos (wire_frame_sum cmd payload rest)]
  rw [wire_frame_take, wire_frame_drop]
  have e : (wire_frame cmd payload ++ rest).length - (payload.length + 7) = rest.length := by
    rw [← hs]; omega
  rw [e]

/-- A proper prefix of a valid frame with at most 512 payload bytes, at offset 0,
is kept as it is. -/
theorem parse_loop_incomplete (fuel : Nat) (p q : List Nat) (fr : List (List Nat))
    (cmd : Nat) (payload : List Nat) (hn : payload.length ≤ 512)
    (hpq : p ++ q = wire_frame cmd payload) (hq : q ≠ []) (h7 : 7 ≤ p.length) :
    parse_loop (fuel + 1) p p.length 0 fr = ⟨fr, Halt.ret p⟩ := by
  have hl : p.length + q.length = payload.length + 7 := by
    rw [← List.length_append, hpq, wire_frame_length]
  have hq' : 0 < q.length := List.length_pos.mpr hq
  -- the first 6 bytes of p are the header
  have hp6 : p = (wire_frame cmd payload).take p.length := by
    rw [← hpq, List.take_left]
  have hh : rd16 p 0 = FRAME_HEAD := by
    rw [hp6, rd16_take _ _ 0 (by omega)]
    simpa using wire_frame_head cmd payload []
  have hlenf : SWAP_16 (rd16 p 2) = payload.length := by
    rw [hp6, rd16_take _ _ 2 (by omega)]
    simpa using wire_frame_len cmd payload [] (by omega)
  rw [parse_loop_step fuel p p.length 0 fr (by omega) (by omega)]
  simp only [List.drop_zero, hh, hlenf, if_true]
  rw [if_neg (by omega), if_neg (by omega), if_pos (by omega)]
  simp

theorem frame_parse_data_incomplete (tmp data q : List Nat) (cmd : Nat) (payload : List Nat)
    (hn : payload.length ≤ 512) (hpq : (tmp ++ data) ++ q = wire_frame cmd payload) (hq : q ≠ []) :
    __frame_parse_data tmp data = ⟨[], Halt.ret (tmp ++ data)⟩ := by
  have hl : (tmp ++ data).length + q.length = payload.length + 7 := by
    rw [← List.length_append, hpq, wire_frame_length]
  have hq' : 0 < q.length := List.length_pos.mpr hq
  unfold __frame_parse_data
  simp only []
  rw [← List.length_append, if_neg (by simp only [TMP_DATA_SIZE, FRAME_MAX_LIN]; omega)]
  by_cases h7 : (tmp ++ data).length < FRAME_MIN_LIN
  · rw [if_pos h7]
  · rw [if_neg h7]
    exact parse_loop_incomplete _ _ q [] cmd payload hn hpq hq (by simpa [FRAME_MIN_LIN] using h7)

theorem frame_parse_data_complete (tmp data : List Nat) (cmd : Nat) (payload : List Nat)
    (hn : payload.length + 7 ≤ TMP_DATA_SIZE) (hpq : tmp ++ data = wire_frame cmd payload) :
    __frame_parse_data tmp data = ⟨[wire_frame cmd payload], Halt.ret []⟩ := by
  have hl : (tmp ++ data).length = payload.length + 7 := by
    rw [hpq, wire_frame_length]
  unfold __frame_parse_data
  simp only []
  rw [← List.length_append, hl, if_neg (by omega), if_neg (by simp [FRAME_MIN_LIN])]
  rw [parse_loop_frame _ _ _ 0 [] cmd payload [] (by simp only [TMP_DATA_SIZE, FRAME_MAX_LIN] at hn; omega)
    (by simpa using hpq)]
  simp

/-! ## Round trip through sender and parser -/

theorem frame_parse_data_nil : __frame_parse_data [] [] = ⟨[], Halt.ret []⟩ := by decide

theorem feed_all_empty (cs : List (List Nat)) (h : cs.flatten = []) :
    feed_all [] cs = ⟨[], Halt.ret []⟩ := by
  induction cs with
  | nil => rfl
  | cons c cs ih =>
    rw [List.flatten_cons, List.append_eq_nil] at h
    rw [feed_all, h.1, frame_parse_data_nil]
    simp only [ih h.2, List.append_nil]

theorem feed_all_frame (cmd : Nat) (payload : List Nat) (hn : payload.length ≤ 512) :
    ∀ (cs : List (List Nat)) (tmp : List Nat),
      tmp ++ cs.flatten = wire_frame cmd payload → cs.flatten ≠ [] →
      feed_all tmp cs = ⟨[wire_frame cmd payload], Halt.ret []⟩ := by
  intro cs
  induction cs with
  | nil => intro tmp _ h; exact absurd rfl h
  | cons c cs ih =>
    intro tmp h hne
    rw [List.flatten_cons, ← List.append_assoc] at h
    by_cases hq : cs.flatten = []
    · rw [hq, List.append_nil] at h
      rw [feed_all, frame_parse_data_complete tmp c cmd payload
        (by simp only [TMP_DATA_SIZE, FRAME_MAX_LIN]; omega) h]
      simp only [feed_all_empty cs hq, List.append_nil]
    · rw [feed_all, frame_parse_data_incomplete tmp c cs.flatten cmd payload hn h hq]
      simp only [ih (tmp ++ c) h hq, List.nil_append]

/-! ## Scanning past offsets that carry no frame -/

theorem frame_body_length (cmd : Nat) (payload : List Nat) :
    (frame_body cmd payload).length = payload.length + 6 := by
  simp [frame_body]

theorem wire_frame_body (cmd : Nat) (payload : List Nat) :
    wire_frame cmd payload = frame_body cmd payload ++ [(frame_body cmd payload).sum % 256] := by
  simp only [wire_frame, frame_body, List.sum_append, List.sum_cons, List.sum_nil]
  congr 3
  ring

theorem wire_frame_dropLast (cmd : Nat) (payload : List Nat) :
    (wire_frame cmd payload).dropLast = frame_body cmd payload := by
  rw [wire_frame_body, List.dropLast_concat]

theorem wire_frame_getLast (cmd : Nat) (payload : List Nat) :
    (wire_frame cmd payload).getLast? = some ((frame_body cmd payload).sum % 256) := by
  rw [wire_frame_body, List.getLast?_concat]

theorem frame_body_head (cmd : Nat) (payload rest : List Nat) :
    rd16 (frame_body cmd payload ++ rest) 0 = FRAME_HEAD := by
  simp only [frame_body, List.cons_append, List.nil_append]
  exact rd16_head _ _ _ _ _

theorem frame_body_len (cmd : Nat) (payload rest : List Nat) (h : payload.length < 65536) :
    SWAP_16 (rd16 (frame_body cmd payload ++ rest) 2) = payload.length := by
  simp only [frame_body, List.cons_append, List.nil_append, len_field]
  rw [SWAP_16_be _ _ (Nat.mod_lt _ (by norm_num)) (Nat.mod_lt _ (by norm_num))]
  exact be16 _ h

theorem parse_loop_skip (fuel : Nat) (pd : List Nat) (tl i : Nat) (fr : List (List Nat))
    (hlen : pd.length < 65536) (h7 : 7 ≤ pd.length - i) (hh : rd16 pd i ≠ FRAME_HEAD) :
    parse_loop (fuel + 1) pd tl i fr = parse_loop fuel pd tl (i + 1) fr := by
  rw [parse_loop_step fuel pd tl i fr hlen h7, rd16_drop, Nat.add_zero, if_neg hh]

theorem parse_loop_skip_many (pd : List Nat) (tl : Nat) (fr : List (List Nat))
    (hlen : pd.length < 65536) (d : Nat) : ∀ (fuel i : Nat),
    (∀ j, i ≤ j → j < i + d → 7 ≤ pd.length - j ∧ rd16 pd j ≠ FRAME_HEAD) →
    parse_loop (fuel + d) pd tl i fr = parse_loop fuel pd tl (i + d) fr := by
  induction d with
  | zero => intro fuel i _; rfl
  | succ d ih =>
    intro fuel i h
    have h0 := h i (Nat.le_refl _) (by omega)
    rw [← Nat.add_assoc, parse_loop_skip (fuel + d) pd tl i fr hlen h0.1 h0.2]
    rw [ih fuel (i + 1) (fun j hj1 hj2 => h j (by omega) (by omega))]
    congr 1
    omega

/-- A complete frame whose trailing byte is not the checksum is passed over. -/
theorem parse_loop_bad_sum (fuel : Nat) (pd : List Nat) (tl i : Nat) (fr : List (List Nat))
    (cmd : Nat) (payload rest : List Nat) (x : Nat) (hlen : pd.length < 65536)
    (hs : pd.drop i = frame_body cmd payload ++ x :: rest)
    (hx : (frame_body cmd payload).sum % 256 ≠ x) :
    parse_loop (fuel + 1) pd tl i fr = parse_loop fuel pd tl (i + 1) fr := by
  have hl : (pd.drop i).length = payload.length + 6 + (rest.length + 1) := by
    rw [hs, List.length_append, frame_body_length, List.length_cons]
  have hl' := hl
  rw [List.length_drop] at hl'
  have hp : payload.length < 65536 := by omega
  rw [parse_loop_step fuel pd tl i fr hlen (by omega)]
  rw [hs, frame_body_len cmd payload _ hp, if_pos (frame_body_head cmd payload _)]
  rw [if_pos (by rw [← hs]; omega)]
  rw [List.take_left' (frame_body_length cmd payload)]
  have hg : (frame_body cmd payload ++ x :: rest).getD (payload.length + 6) 0 = x := by
    rw [List.getD_eq_getElem?_getD, List.getElem?_append_right (by rw [frame_body_length])]
    simp [frame_body_length]
  rw [hg, if_neg hx]

theorem getD_lt (l : List Nat) (k : Nat) (h : ∀ b ∈ l, b < 256) : l.getD k 0 < 256 := by
  rw [List.getD_eq_getElem?_getD]
  by_cases hk : k < l.length
  · rw [List.getElem?_eq_getElem hk]
    exact h _ (List.getElem_mem hk)
  · rw [List.getElem?_eq_none (by omega)]
    simp

theorem head_at (l : List Nat) (j : Nat) (h : ∀ b ∈ l, b < 256) (hh : rd16 l j = FRAME_HEAD) :
    l.getD j 0 = 0x55 ∧ l.getD (j + 1) 0 = 0xAA := by
  have h1 := getD_lt l j h
  have h2 := getD_lt l (j + 1) h
  have h3 : FRAME_HEAD = 43605 := by decide
  rw [h3] at hh
  unfold rd16 at hh
  omega

theorem frame_body_bytes (cmd : Nat) (payload : List Nat) (h : ∀ b ∈ payload, b < 256) :
    ∀ b ∈ frame_body cmd payload, b < 256 := by
  intro b hb
  simp only [frame_body, List.mem_append, List.mem_cons, List.mem_singleton] at hb
  rcases hb with (h1 | h1 | h1 | h1 | h1 | h1 | h1) | h1
  · omega
  · omega
  · omega
  · omega
  · omega
  · omega
  · simp at h1
  · exact h b h1

theorem wire_frame_bytes (cmd : Nat) (payload : List Nat) (h : ∀ b ∈ payload, b < 256) :
    ∀ b ∈ wire_frame cmd payload, b < 256 := by
  intro b hb
  rw [wire_frame_body] at hb
  rcases List.mem_append.mp hb with h1 | h1
  · exact frame_body_bytes cmd payload h b h1
  · rw [List.mem_singleton.mp h1]
    exact Nat.mod_lt _ (by norm_num)

theorem getD_append_left (l r : List Nat) (k : Nat) (h : k < l.length) :
    (l ++ r).getD k 0 = l.getD k 0 := by
  simp [List.getD_eq_getElem?_getD, List.getElem?_append_left h]

/-- Resynchronisation in one call: a frame with a wrong trailing byte, free of
further header byte pairs, followed by a valid frame. -/
theorem frame_parse_data_resync (ca cb : Nat) (pa pb : List Nat) (x : Nat)
    (hpa : pa.length ≤ 512) (hpb : pb.length ≤ 512)
    (hba : ∀ b ∈ pa, b < 256) (hbb : ∀ b ∈ pb, b < 256) (hx256 : x < 256)
    (hx : (frame_body ca pa).sum % 256 ≠ x)
    (hclean : ∀ i < pa.length + 5,
      ¬ ((frame_body ca pa ++ [x]).getD (i + 1) 0 = 0x55
          ∧ (frame_body ca pa ++ [x]).getD (i + 2) 0 = 0xAA)) :
    __frame_parse_data [] ((frame_body ca pa ++ [x]) ++ wire_frame cb pb)
      = ⟨[wire_frame cb pb], Halt.ret []⟩ := by
  have hA : (frame_body ca pa ++ [x]).length = pa.length + 7 := by
    simp [frame_body_length]
  have hL : ((frame_body ca pa ++ [x]) ++ wire_frame cb pb).length = pa.length + pb.length + 14 := by
    rw [List.length_append, hA, wire_frame_length]; omega
  have hAb : ∀ b ∈ frame_body ca pa ++ [x], b < 256 := by
    intro b hb
    rcases List.mem_append.mp hb with h1 | h1
    · exact frame_body_bytes ca pa hba b h1
    · rw [List.mem_singleton.mp h1]; exact hx256
  have hall : ∀ b ∈ (frame_body ca pa ++ [x]) ++ wire_frame cb pb, b < 256 := by
    intro b hb
    rcases List.mem_append.mp hb with h1 | h1
    · exact hAb b h1
    · exact wire_frame_bytes cb pb hbb b h1
  unfold __frame_parse_data
  simp only [List.nil_append, List.length_nil, Nat.zero_add]
  rw [hL, if_neg (by simp only [TMP_DATA_SIZE, FRAME_MAX_LIN]; omega),
    if_neg (by simp only [FRAME_MIN_LIN]; omega)]
  generalize hpd : (frame_body ca pa ++ [x]) ++ wire_frame cb pb = pd at hL hall
  have hlen : pd.length < 65536 := by omega
  -- offset 0: the corrupted frame
  have e0 : pa.length + pb.length + 14 + 1 = ((pb.length + 7 + 1) + (pa.length + 6)) + 1 := by omega
  rw [e0, parse_loop_bad_sum _ pd _ 0 [] ca pa (wire_frame cb pb) x hlen
    (by rw [← hpd]; simp) hx]
  -- offsets 1 .. |A|-1: no header
  rw [parse_loop_skip_many pd _ [] hlen (pa.length + 6) (pb.length + 7 + 1) (0 + 1)]
  · rw [parse_loop_frame (pb.length + 7) pd _ _ [] cb pb [] hlen]
    · simp
    · rw [← hpd, List.append_nil]
      exact List.drop_left' (by rw [hA]; omega)
  · intro j hj1 hj2
    refine ⟨by omega, ?_⟩
    intro hh
    have hd := head_at pd j hall hh
    by_cases hj : j + 1 < pa.length + 7
    · rw [← hpd, getD_append_left _ _ j (by omega), getD_append_left _ _ (j + 1) (by omega)] at hd
      obtain ⟨k, rfl⟩ : ∃ k, j = k + 1 := ⟨j - 1, by omega⟩
      exact hclean k (by omega) hd
    · have hj' : j + 1 = (frame_body ca pa ++ [x]).length := by omega
      have h1 := hd.2
      rw [← hpd, List.getD_eq_getElem?_getD, List.getElem?_append_right (by omega), hj',
        Nat.sub_self, wire_frame_eq] at h1
      simp at h1

theorem frame_send_overflow (chunk cmd : Nat) (data : List Nat)
    (h1 : chunk < data.length) (h2 : data.length < 65529) :
    __frame_send chunk cmd data = ⟨[], SendHalt.oob⟩ := by
  have hb : frame_send_body chunk cmd data 0 = none := by
    unfold frame_send_body
    simp only [Int.sub_zero, gt_iff_lt, lt_self_iff_false, if_false]
    by_cases h : chunk + 7 < 6 + data.length
    · rw [if_pos (Or.inr h)]
    · rw [if_neg (by simp only [false_or]; exact h)]
      have e : (6 + data.length + 1) % 65536 = data.length + 7 := by omega
      rw [e, if_pos (by omega)]
  unfold __frame_send
  rw [frame_send_loop, if_pos (by omega), hb]

/-! ## The capture queue keeps the newest chunks that fit -/

theorem chunk_bytes_nil : chunk_bytes [] = 0 := rfl

theorem chunk_bytes_cons (c : List Nat) (cs : List (List Nat)) :
    chunk_bytes (c :: cs) = c.length + chunk_bytes cs := by
  simp [chunk_bytes]

theorem chunk_bytes_append (a b : List (List Nat)) :
    chunk_bytes (a ++ b) = chunk_bytes a + chunk_bytes b := by
  simp [chunk_bytes]

theorem chunk_bytes_suffix (s l : List (List Nat)) (h : s <:+ l) :
    chunk_bytes s ≤ chunk_bytes l := by
  obtain ⟨pre, rfl⟩ := h
  rw [chunk_bytes_append]; omega

theorem evict_for_capacity (capacity len : Nat) (items : List (List Nat)) :
    (evict_for capacity len items).capacity = capacity := by
  induction items with
  | nil => rfl
  | cons c cs ih =>
    unfold evict_for
    split_ifs
    · exact ih
    · rfl

theorem evict_for_suffix (capacity len : Nat) (items : List (List Nat)) :
    (evict_for capacity len items).items <:+ items := by
  induction items with
  | nil => exact List.suffix_refl _
  | cons c cs ih =>
    unfold evict_for
    split_ifs
    · exact ih.trans (List.suffix_cons c cs)
    · exact List.suffix_refl _

theorem evict_for_fits (capacity len : Nat) (items : List (List Nat)) (h : len ≤ capacity) :
    len ≤ xRingbufferGetCurFreeSize (evict_for capacity len items) := by
  induction items with
  | nil => simpa [evict_for, xRingbufferGetCurFreeSize, chunk_bytes] using h
  | cons c cs ih =>
    unfold evict_for
    split_ifs with hc
    · exact ih
    · omega

theorem evict_for_max (capacity len : Nat) (items : List (List Nat)) :
    ∀ t, t <:+ items → chunk_bytes t + len ≤ capacity →
      t <:+ (evict_for capacity len items).items := by
  induction items with
  | nil => intro t ht _; simpa [evict_for] using ht
  | cons c cs ih =>
    intro t ht hb
    unfold evict_for
    split_ifs with hc
    · rcases List.suffix_cons_iff.mp ht with h | h
      · subst h
        simp only [xRingbufferGetCurFreeSize] at hc
        omega
      · exact ih t h hb
    · exact ht

theorem suffix_concat (s hist : List (List Nat)) (p : List Nat) (h : s <:+ hist ++ [p]) :
    s = [] ∨ ∃ s', s = s' ++ [p] ∧ s' <:+ hist := by
  rcases List.eq_nil_or_concat s with h0 | ⟨s', b, h1⟩
  · exact Or.inl h0
  · right
    rw [List.concat_eq_append] at h1
    subst h1
    obtain ⟨pre, hpre⟩ := h
    rw [← List.append_assoc] at hpre
    have := List.append_inj' hpre rfl
    refine ⟨s', ?_, ⟨pre, this.1⟩⟩
    rw [(List.cons.inj this.2).1]

theorem longestFit_step (capacity : Nat) (items hist : List (List Nat)) (p : List Nat)
    (hI : LongestFit capacity items hist) (hp : p.length ≤ capacity) :
    LongestFit capacity ((evict_for capacity p.length items).items ++ [p]) (hist ++ [p]) := by
  obtain ⟨h1, h2, h3⟩ := hI
  have hs := evict_for_suffix capacity p.length items
  have hf := evict_for_fits capacity p.length items hp
  have hb := chunk_bytes_suffix _ _ hs
  simp only [xRingbufferGetCurFreeSize, evict_for_capacity] at hf
  refine ⟨?_, ?_, ?_⟩
  · obtain ⟨pre, hpre⟩ := hs.trans h1
    exact ⟨pre, by rw [← List.append_assoc, hpre]⟩
  · rw [chunk_bytes_append, chunk_bytes_cons, chunk_bytes_nil]; omega
  · intro s hs' hbs
    rcases suffix_concat s hist p hs' with h0 | ⟨s', rfl, hs''⟩
    · rw [h0]; simp
    · rw [chunk_bytes_append, chunk_bytes_cons, chunk_bytes_nil] at hbs
      have hl := h3 s' hs'' (by omega)
      have hsi : s' <:+ items := List.suffix_of_suffix_length_le hs'' h1 hl
      have := (evict_for_max capacity p.length items s' hsi (by omega)).length_le
      simp only [List.length_append, List.length_singleton]
      omega

theorem frame_data_length (f : List Nat) (h : f.length = frame_len f + 7) :
    (frame_data f).length = frame_len f := by
  unfold frame_data
  rw [List.length_take, List.length_drop]
  omega

theorem frame_cb_recv_pcm (ota_support : Bool) (st : Dev) (f : List Nat)
    (hen : st.g_input_enabled = true) (hcmd : frame_cmd f = VB6824_CMD_RECV_PCM)
    (hwf : f.length = frame_len f + 7) (hfit : frame_len f ≤ st.g_rx_ringbuffer.capacity) :
    ∃ st', __vb6824_frame_cb ota_support st f = some st'
      ∧ st'.g_input_enabled = true
      ∧ st'.g_rx_ringbuffer.capacity = st.g_rx_ringbuffer.capacity
      ∧ st'.g_rx_ringbuffer.items
          = (evict_for st.g_rx_ringbuffer.capacity (frame_len f) st.g_rx_ringbuffer.items).items
            ++ [frame_data f] := by
  have hfits := evict_for_fits st.g_rx_ringbuffer.capacity (frame_len f) st.g_rx_ringbuffer.items hfit
  have hsend : xRingbufferSend
      (evict_for st.g_rx_ringbuffer.capacity (frame_len f) st.g_rx_ringbuffer.items) (frame_data f)
      = some { evict_for st.g_rx_ringbuffer.capacity (frame_len f) st.g_rx_ringbuffer.items with
          items := (evict_for st.g_rx_ringbuffer.capacity (frame_len f) st.g_rx_ringbuffer.items).items
            ++ [frame_data f] } := by
    unfold xRingbufferSend
    rw [frame_data_length f hwf, if_pos hfits]
  unfold __vb6824_frame_cb
  simp only [hcmd, if_true]
  by_cases hh : st.s_wait_vb_hello ≠ 0
  · simp only [if_pos hh, hen, if_true, hsend]
    exact ⟨_, rfl, rfl, evict_for_capacity _ _ _, rfl⟩
  · simp only [if_neg hh, hen, if_true, hsend]
    exact ⟨_, rfl, rfl, evict_for_capacity _ _ _, rfl⟩

theorem dispatch_all_recv_pcm (ota_support : Bool) : ∀ (frames : List (List Nat)) (st : Dev)
    (hist : List (List Nat)),
    st.g_input_enabled = true →
    LongestFit st.g_rx_ringbuffer.capacity st.g_rx_ringbuffer.items hist →
    (∀ f ∈ frames, frame_cmd f = VB6824_CMD_RECV_PCM ∧ f.length = frame_len f + 7
      ∧ frame_len f ≤ st.g_rx_ringbuffer.capacity) →
    ∃ st', dispatch_all ota_support st frames = some st'
      ∧ st'.g_rx_ringbuffer.capacity = st.g_rx_ringbuffer.capacity
      ∧ LongestFit st.g_rx_ringbuffer.capacity st'.g_rx_ringbuffer.items
          (hist ++ frames.map frame_data) := by
  intro frames
  induction frames with
  | nil =>
    intro st hist _ hI _
    exact ⟨st, rfl, rfl, by simpa using hI⟩
  | cons f fs ih =>
    intro st hist hen hI hfs
    obtain ⟨hcmd, hwf, hfit⟩ := hfs f (List.mem_cons_self _ _)
    obtain ⟨st1, h1, hen1, hcap1, hitems1⟩ := frame_cb_recv_pcm ota_support st f hen hcmd hwf hfit
    have hI1 : LongestFit st1.g_rx_ringbuffer.capacity st1.g_rx_ringbuffer.items
        (hist ++ [frame_data f]) := by
      rw [hcap1, hitems1, ← frame_data_length f hwf]
      exact longestFit_step _ _ _ _ hI (by rw [frame_data_length f hwf]; exact hfit)
    obtain ⟨st2, h2, hcap2, hI2⟩ := ih st1 (hist ++ [frame_data f]) hen1 hI1
      (fun g hg => by rw [hcap1]; exact hfs g (List.mem_cons_of_mem _ hg))
    refine ⟨st2, ?_, by rw [hcap2, hcap1], ?_⟩
    · rw [dispatch_all, h1]; exact h2
    · rw [hcap1] at hI2
      simpa using hI2

theorem frame_send_nil (chunk cmd : Nat) : __frame_send chunk cmd [] = ⟨[], SendHalt.done⟩ := by
  unfold __frame_send
  rw [frame_send_loop, if_neg (by simp)]

theorem frame_send_body_neg (chunk cmd : Nat) (data : List Nat) (idx : Int) (h : idx < 0) :
    frame_send_body chunk cmd data idx = none := by
  unfold frame_send_body
  simp only []
  rw [if_pos (Or.inl h)]

/-- With `len` a `uint16_t`, the loop of `__frame_send` ends within the step budget. -/
theorem frame_send_fuel (chunk cmd : Nat) (data : List Nat) (h : data.length < 65536) :
    (__frame_send chunk cmd data).halt ≠ SendHalt.fuel := by
  unfold __frame_send
  rw [frame_send_loop]
  split_ifs with h0
  · cases hb : frame_send_body chunk cmd data 0 with
    | none => simp
    | some p =>
      simp only []
      rw [frame_send_loop]
      split_ifs with h1
      · have hneg : toInt16 (0 + (data.length : Int)) < 0 := by
          unfold toInt16 at h1 ⊢
          omega
        rw [frame_send_body_neg chunk cmd data _ hneg]
        simp
      · simp
  · simp

/-! ## Several frames in one call -/

theorem wire_stream_cons (f : Nat × List Nat) (fs : List (Nat × List Nat)) :
    wire_stream (f :: fs) = wire_frame f.1 f.2 ++ wire_stream fs := by
  simp [wire_stream]

theorem wire_stream_length (fs : List (Nat × List Nat)) : fs.length ≤ (wire_stream fs).length := by
  induction fs with
  | nil => simp [wire_stream]
  | cons f fs ih =>
    rw [wire_stream_cons, List.length_append, wire_frame_length, List.length_cons]
    omega

theorem parse_loop_stream : ∀ (fs : List (Nat × List Nat)) (fuel : Nat) (fr : List (List Nat)),
    fs ≠ [] → (wire_stream fs).length < 65536 → fs.length ≤ fuel →
    (∀ f ∈ fs.tail, f.2 ≠ []) →
    parse_loop fuel (wire_stream fs) (wire_stream fs).length 0 fr
      = ⟨fr ++ fs.map (fun f => wire_frame f.1 f.2), Halt.ret []⟩ := by
  intro fs
  induction fs with
  | nil => intro _ _ h; exact absurd rfl h
  | cons f rest ih =>
    intro fuel fr _ hlen hfuel htail
    obtain ⟨k, rfl⟩ : ∃ k, fuel = k + 1 := ⟨fuel - 1, by simp only [List.length_cons] at hfuel; omega⟩
    rw [parse_loop_frame k (wire_stream (f :: rest)) _ 0 fr f.1 f.2 (wire_stream rest) hlen
      (by rw [List.drop_zero, wire_stream_cons])]
    cases rest with
    | nil => simp [wire_stream]
    | cons g rest' =>
      have hg : g.2 ≠ [] := htail g (by simp)
      have hgl : 0 < g.2.length := List.length_pos.mpr hg
      have h8 : (wire_stream (g :: rest')).length > 7 := by
        rw [wire_stream_cons, List.length_append, wire_frame_length]; omega
      rw [if_pos h8]
      rw [ih k (fr ++ [wire_frame f.1 f.2]) (List.cons_ne_nil _ _)
        (by rw [wire_stream_cons, List.length_append] at hlen; omega)
        (by simp only [List.length_cons] at hfuel ⊢; omega)
        (fun x hx => htail x (by
          simp only [List.tail_cons] at hx ⊢
          exact List.mem_cons_of_mem _ hx))]
      simp

/-- All frames of a stream are handed over in one call, in wire order, when every
frame after the first has a payload. -/
theorem frame_parse_data_stream (fs : List (Nat × List Nat))
    (hfit : (wire_stream fs).length ≤ TMP_DATA_SIZE) (htail : ∀ f ∈ fs.tail, f.2 ≠ []) :
    __frame_parse_data [] (wire_stream fs)
      = ⟨fs.map (fun f => wire_frame f.1 f.2), Halt.ret []⟩ := by
  cases fs with
  | nil => decide
  | cons f rest =>
    have h7 : 7 ≤ (wire_stream (f :: rest)).length := by
      rw [wire_stream_cons, List.length_append, wire_frame_length]; omega
    unfold __frame_parse_data
    simp only [List.nil_append, List.length_nil, Nat.zero_add]
    rw [if_neg (by omega), if_neg (by simp only [FRAME_MIN_LIN]; omega)]
    rw [parse_loop_stream (f :: rest) _ [] (List.cons_ne_nil _ _)
      (by simp only [TMP_DATA_SIZE, FRAME_MAX_LIN] at hfit; omega)
      (by have := wire_stream_length (f :: rest); omega) htail]
    simp

/-! ## Capture control -/

theorem frame_cb_keeps_input_flag (ota_support : Bool) (st st' : Dev) (f : List Nat)
    (h : __vb6824_frame_cb ota_support st f = some st') :
    st'.g_input_enabled = st.g_input_enabled := by
  unfold __vb6824_frame_cb at h
  simp only [] at h
  split_ifs at h
  all_goals first
    | (cases h; rfl)
    | skip
  all_goals
    split at h
    · cases h; rfl
    · cases h

theorem frame_cb_disabled (ota_support : Bool) (st st' : Dev) (f : List Nat)
    (hd : st.g_input_enabled = false)
    (h : __vb6824_frame_cb ota_support st f = some st') :
    st'.g_rx_ringbuffer = st.g_rx_ringbuffer := by
  unfold __vb6824_frame_cb at h
  simp only [] at h
  split_ifs at h
  all_goals first
    | (cases h; rfl)
    | skip
  all_goals simp_all

theorem frame_cb_recv_pcm_disabled (ota_support : Bool) (st : Dev) (f : List Nat)
    (hcmd : frame_cmd f = VB6824_CMD_RECV_PCM) (hd : st.g_input_enabled = false) :
    __vb6824_frame_cb ota_support st f = some { st with s_wait_vb_hello := 0 } := by
  unfold __vb6824_frame_cb
  simp only [hcmd, if_true]
  by_cases hh : st.s_wait_vb_hello ≠ 0
  · simp [hh, hd]
  · have h0 : st.s_wait_vb_hello = 0 := by simpa using hh
    simp only [hh, if_false, hd, Bool.false_eq_true]
    congr 1
    cases st
    simp_all

theorem drain_all_eq (capacity : Nat) (items : List (List Nat)) :
    drain_all capacity items = ⟨capacity, []⟩ := by
  induction items with
  | nil => rfl
  | cons c cs ih => rw [drain_all, ih]

theorem audio_read_empty (st : Dev) (size : Nat) (h : st.g_rx_ringbuffer.items = []) :
    ∀ rounds, vb6824_audio_read rounds st size = none := by
  intro rounds
  induction rounds with
  | zero => rfl
  | succ n ih =>
    rw [vb6824_audio_read]
    simp only [xRingbufferReceive, h]
    exact ih

theorem audio_read_rx (st st' : Dev) (size rounds : Nat) (h : st'.g_rx_ringbuffer = st.g_rx_ringbuffer) :
    (vb6824_audio_read rounds st' size).map (fun r => (r.1, r.2.1, r.2.2.g_rx_ringbuffer))
      = (vb6824_audio_read rounds st size).map (fun r => (r.1, r.2.1, r.2.2.g_rx_ringbuffer)) := by
  induction rounds with
  | zero => rfl
  | succ n ih =>
    rw [vb6824_audio_read, vb6824_audio_read, h]
    cases hr : xRingbufferReceive st.g_rx_ringbuffer with
    | none => simpa using ih
    | some p =>
      obtain ⟨item, rb⟩ := p
      simp only []
      split_ifs <;> rfl

theorem enable_input_eq (st : Dev) (b : Bool) :
    vb6824_audio_enable_input st b =
      if b = st.g_input_enabled then st
      else if b = false then
        { st with g_input_enabled := false,
                  g_rx_ringbuffer := ⟨st.g_rx_ringbuffer.capacity, []⟩ }
      else { st with g_input_enabled := true } := by
  unfold vb6824_audio_enable_input
  cases b <;> cases hq : st.g_input_enabled <;> simp [hq, drain_all_eq]

theorem enable_input_false (st : Dev) :
    (vb6824_audio_enable_input st false).g_input_enabled = false := by
  rw [enable_input_eq]
  cases hq : st.g_input_enabled <;> simp [hq]

theorem reachable_disabled_empty (ota_support : Bool) (st : Dev) (h : Reachable ota_support st) :
    st.g_input_enabled = false → st.g_rx_ringbuffer.items = [] := by
  induction h with
  | init st h1 h2 => exact fun _ => h2
  | frame st st' f _ hcb ih =>
    intro hd
    rw [frame_cb_keeps_input_flag ota_support st st' f hcb] at hd
    rw [frame_cb_disabled ota_support st st' f hd hcb]
    exact ih hd
  | enable st b _ ih =>
    intro hd
    rw [enable_input_eq] at hd ⊢
    cases b <;> cases hq : st.g_input_enabled <;> simp_all
  | read st st' rounds size r d _ hr ih =>
    intro hd
    induction rounds with
    | zero => simp [vb6824_audio_read] at hr
    | succ n ihn =>
      rw [vb6824_audio_read] at hr
      cases hx : xRingbufferReceive st.g_rx_ringbuffer with
      | none =>
        rw [hx] at hr
        exact ihn hr
      | some p =>
        obtain ⟨item, rb⟩ := p
        rw [hx] at hr
        simp only [] at hr
        have hst : st'.g_input_enabled = st.g_input_enabled := by
          split_ifs at hr <;> (cases hr; rfl)
        have he := ih (hst ▸ hd)
        simp [xRingbufferReceive, he] at hx

/-! ## The wake-word cache -/

theorem c_str_append_zeros (s : List Nat) (k : Nat) (hs : ∀ b ∈ s, b ≠ 0) :
    c_str (s ++ List.replicate k 0) = s := by
  unfold c_str
  induction s with
  | nil =>
    cases k with
    | zero => rfl
    | succ k => simp [List.replicate_succ]
  | cons a t ih =>
    have ha : a ≠ 0 := hs a (List.mem_cons_self _ _)
    rw [List.cons_append, List.takeWhile_cons_of_pos (by simpa using ha)]
    rw [ih (fun b hb => hs b (List.mem_cons_of_mem _ hb))]

theorem c_str_nonzero (s : List Nat) : ∀ b ∈ c_str s, b ≠ 0 := by
  intro b hb
  have := List.mem_takeWhile_imp hb
  simpa using this

theorem c_str_length_le (s : List Nat) : (c_str s).length ≤ s.length := by
  unfold c_str
  exact (List.takeWhile_sublist _).length_le

/-- A wake-word report with at most 31 payload bytes is cached as a terminated
string. -/
theorem frame_cb_wakeup_word (ota_support : Bool) (st : Dev) (f : List Nat)
    (hcmd : frame_cmd f = VB6824_CMD_RECV_WAKEUP_WORD) (hwf : f.length = frame_len f + 7)
    (hlen : frame_len f ≤ 31) :
    ∃ st', __vb6824_frame_cb ota_support st f = some st'
      ∧ st'.s_wait_fresh_wakeup_word = 0
      ∧ (vb6824_get_wakeup_word st').length = 32
      ∧ c_str (vb6824_get_wakeup_word st') = c_str (frame_data f)
      ∧ (c_str (vb6824_get_wakeup_word st')).length < 32 := by
  have hcl : (c_str (frame_data f)).length ≤ 31 := by
    have := c_str_length_le (frame_data f)
    rw [frame_data_length f hwf] at this
    omega
  have h1 : VB6824_CMD_RECV_WAKEUP_WORD ≠ VB6824_CMD_RECV_PCM := by decide
  have h2 : VB6824_CMD_RECV_WAKEUP_WORD ≠ VB6824_CMD_RECV_CTL := by decide
  have h3 : VB6824_CMD_RECV_WAKEUP_WORD ≠ VB6824_CMD_RECV_OTA := by decide
  unfold __vb6824_frame_cb
  simp only [hcmd, h1, h2, h3, if_false, and_false, if_true]
  rw [if_pos (by omega)]
  refine ⟨_, rfl, rfl, ?_, ?_, ?_⟩
  · simp only [vb6824_get_wakeup_word, List.length_append, List.length_replicate]
    omega
  · simp only [vb6824_get_wakeup_word]
    exact c_str_append_zeros _ _ (c_str_nonzero _)
  · simp only [vb6824_get_wakeup_word]
    rw [c_str_append_zeros _ _ (c_str_nonzero _)]
    omega

/-! ## Playback ticks and the OTA handshake -/

theorem send_task_round_disabled (chunk : Nat) (receive : RingBuf → Option (List Nat × RingBuf))
    (st : Sys) (h : st.g_output_enabled = false) :
    __send_task_round chunk receive st = some st := by
  unfold __send_task_round
  simp [h]

theorem send_timer_cb_chunk (chunk : Nat) (st : Sys) (item : List Nat) (rest : List (List Nat))
    (h : st.g_tx_ringbuffer.items = item :: rest)
    (h1 : 1 ≤ item.length) (h2 : item.length ≤ chunk) (h3 : item.length < 32768) :
    (__send_timer_cb chunk xRingbufferReceive st).uart
      = st.uart ++ [wire_frame VB6824_CMD_SEND_PCM item] := by
  unfold __send_timer_cb
  simp only [xRingbufferReceive, h, send_frame, frame_send_eq chunk _ item h1 h2 h3]

theorem send_frame_byte (chunk cmd b : Nat) (st : Sys) (h : 1 ≤ chunk) :
    send_frame chunk cmd [b] st = { st with uart := st.uart ++ [wire_frame cmd [b]] } := by
  unfold send_frame
  rw [frame_send_eq chunk cmd [b] (by simp) (by simpa using h) (by simp)]

/-- While no wake-word report arrives the polling loop goes on: after `rounds`
rounds it has written `rounds` request frames and has not been left. -/
theorem wakeup_poll_silent (chunk : Nat) (h : 1 ≤ chunk) : ∀ (rounds k : Nat) (st : Sys),
    st.dev.s_wait_fresh_wakeup_word ≠ 0 →
    wakeup_poll chunk (fun _ => none) rounds k st
      = ({ st with uart := st.uart ++
            (List.replicate rounds (wire_frame VB6824_CMD_SEND_GET_WAKEUP_WORD [st.dev.s_mode % 256])) },
          false) := by
  intro rounds
  induction rounds with
  | zero => intro k st _; simp [wakeup_poll]
  | succ n ih =>
    intro k st hw
    rw [wakeup_poll]
    simp only [during_delay, send_frame_byte chunk _ _ st h]
    rw [if_pos hw]
    have hp := ih (k + 1) { st with uart := st.uart ++
      [wire_frame VB6824_CMD_SEND_GET_WAKEUP_WORD [st.dev.s_mode % 256]] } hw
    rw [hp]
    simp only [List.append_assoc, List.singleton_append, List.replicate_succ]

theorem ota_evt_poll_silent (chunk addr : Nat) (h : 1 ≤ chunk) (rounds : Nat) (st : Sys)
    (evt data : Nat) (he : evt = JL_OTA_FAIL ∨ evt = JL_OTA_SUCCESS)
    (hw : st.dev.s_wait_fresh_wakeup_word ≠ 0) :
    vb_ota_evt_cb chunk addr (fun _ => none) rounds st evt data
      = ({ st with dev := { st.dev with s_mode := VB6824_MODE_AUDIO },
                   uart := st.uart ++
                     (List.replicate rounds (wire_frame VB6824_CMD_SEND_GET_WAKEUP_WORD [0])) },
          false) := by
  have h1 : evt ≠ JL_OTA_START := by rcases he with rfl | rfl <;> decide
  have h2 : evt ≠ JL_OTA_STOP := by rcases he with rfl | rfl <;> decide
  have h3 : evt ≠ JL_OTA_PROCESS := by rcases he with rfl | rfl <;> decide
  unfold vb_ota_evt_cb
  simp only [if_neg h1, if_neg h2, if_neg h3, if_pos he]
  have hp := wakeup_poll_silent chunk h rounds 0
    { st with dev := { st.dev with s_mode := VB6824_MODE_AUDIO } } hw
  rw [hp]
  rfl

theorem dl_power_of_two_bounds (n : Nat) (h1 : 1 ≤ n) (h2 : n < 2 ^ 32) :
    2 ^ dl_power_of_two n ≤ n ∧ n < 2 ^ (dl_power_of_two n + 1) ∧ dl_power_of_two n ≤ 31 := by
  unfold dl_power_of_two
  simp only [Nat.shiftRight_eq_div_pow, Nat.shiftLeft_eq, ge_iff_le]
  norm_num
  split_ifs <;> norm_num <;> omega

theorem pow_two_sandwich (n r p : Nat) (h1 : 2 ^ r ≤ n) (h2 : n < 2 ^ (r + 1))
    (h3 : 2 ^ p ≤ n) (h4 : n < 2 ^ (p + 1)) : r = p := by
  have a : r < p + 1 := (Nat.pow_lt_pow_iff_right (by norm_num : 1 < 2)).mp (lt_of_le_of_lt h1 h4)
  have b : p < r + 1 := (Nat.pow_lt_pow_iff_right (by norm_num : 1 < 2)).mp (lt_of_le_of_lt h3 h2)
  omega

theorem parse_loop_carry (fuel : Nat) : ∀ (pd : List Nat) (tl i : Nat) (fr : List (List Nat))
    (t : List Nat), pd.length < 65536 → (i < pd.length ∨ tl ≤ 518) →
    (parse_loop fuel pd tl i fr).halt = Halt.ret t → t.length ≤ 518 := by
  induction fuel with
  | zero =>
    intro pd tl i fr t _ _ h
    simp [parse_loop] at h
  | succ fuel ih =>
    intro pd tl i fr t hlen hinv h
    by_cases hi : i < pd.length
    · by_cases h7 : 7 ≤ pd.length - i
      · rw [parse_loop_step fuel pd tl i fr hlen h7] at h
        have hd : (pd.drop i).length = pd.length - i := List.length_drop i pd
        split_ifs at h with c1 c2 c3 c4 c5 c6
        all_goals try simp only [Halt.ret.injEq] at h
        all_goals first
          | (subst h; simp only [List.length_drop, List.length_take]; omega)
          | exact ih _ _ _ _ t hlen (Or.inl (by omega)) h
          | (refine ih _ _ _ _ t ?_ (Or.inl ?_) h <;> simp only [List.length_drop] <;> omega)
      · rw [parse_loop_tail fuel pd tl i fr hi (by omega)] at h
        refine ih _ _ _ _ t ?_ (Or.inr (by omega)) h
        rw [tail_length pd i hi]; exact hlen
    · rw [parse_loop_end fuel pd tl i fr (by omega)] at h
      simp only [Halt.ret.injEq] at h
      subst h
      simp only [List.length_take]
      rcases hinv with h' | h'
      · exact absurd h' hi
      · omega

theorem frame_parse_data_carry (tmp data t : List Nat)
    (h : (__frame_parse_data tmp data).halt = Halt.ret t) : t.length ≤ 518 := by
  unfold __frame_parse_data at h
  simp only [List.length_append] at h
  split_ifs at h with c1 c2
  · simp only [Halt.ret.injEq] at h
    subst h
    simp only [FRAME_MIN_LIN] at c2
    simp only [List.length_append]
    omega
  · simp only [TMP_DATA_SIZE, FRAME_MAX_LIN, FRAME_MIN_LIN, List.length_append] at c1 c2
    refine parse_loop_carry _ _ _ _ _ t ?_ (Or.inl ?_) h
    · simp only [List.length_append]; omega
    · simp only [List.length_append]; omega

theorem parse_loop_tail_one (k : Nat) : ∀ (fuel : Nat) (pd : List Nat) (tl i : Nat)
    (fr : List (List Nat)), pd.length - i = k + 1 → k + 1 < 7 → k + 2 ≤ fuel →
    ∃ b, parse_loop fuel pd tl i fr = ⟨fr, Halt.ret [b]⟩ := by
  induction k with
  | zero =>
    intro fuel pd tl i fr hk _ hf
    obtain ⟨f, rfl⟩ : ∃ f, fuel = f + 2 := ⟨fuel - 2, by omega⟩
    have hi : i < pd.length := by omega
    rw [parse_loop_tail (f + 1) pd tl i fr hi (by omega)]
    rw [parse_loop_end f _ _ _ fr (by rw [tail_length pd i hi]; omega)]
    have hl := tail_length pd i hi
    rw [hk]
    cases hpd : pd.drop i ++ pd.drop 1 with
    | nil => rw [hk, hpd] at hl; simp at hl; omega
    | cons b rest => exact ⟨b, by simp⟩
  | succ k ih =>
    intro fuel pd tl i fr hk h7 hf
    obtain ⟨f, rfl⟩ : ∃ f, fuel = f + 1 := ⟨fuel - 1, by omega⟩
    have hi : i < pd.length := by omega
    rw [parse_loop_tail f pd tl i fr hi (by omega)]
    have hl := tail_length pd i hi
    exact ih f _ _ (i + 1) fr (by rw [hl]; omega) (by omega) (by omega)

theorem frame_parse_data_tail (tmp data : List Nat)
    (h7 : 7 ≤ (tmp ++ data).length) (hmax : (tmp ++ data).length ≤ TMP_DATA_SIZE)
    (hno : ∀ j, j + 7 ≤ (tmp ++ data).length → rd16 (tmp ++ data) j ≠ FRAME_HEAD) :
    ∃ b, __frame_parse_data tmp data = ⟨[], Halt.ret [b]⟩ := by
  unfold __frame_parse_data
  simp only [TMP_DATA_SIZE, FRAME_MAX_LIN, FRAME_MIN_LIN] at hmax ⊢
  rw [← List.length_append]
  rw [if_neg (by omega), if_neg (by omega)]
  have hlen : (tmp ++ data).length < 65536 := by omega
  have e : (tmp ++ data).length + 1 = 7 + ((tmp ++ data).length - 6) := by omega
  rw [e, parse_loop_skip_many (tmp ++ data) _ [] hlen ((tmp ++ data).length - 6) 7 0
    (fun j _ hj => ⟨by omega, hno j (by omega)⟩)]
  exact parse_loop_tail_one 5 7 _ _ _ [] (by omega) (by omega) (by omega)

theorem frame_parse_data_carry_518 :
    ∃ t, (__frame_parse_data [] (frame_body 0 (List.replicate 512 0))).halt = Halt.ret t
      ∧ t.length = 518 := by
  refine ⟨frame_body 0 (List.replicate 512 0), ?_, ?_⟩
  · rw [frame_parse_data_incomplete [] (frame_body 0 (List.replicate 512 0))
      [(frame_body 0 (List.replicate 512 0)).sum % 256] 0 (List.replicate 512 0)
      (by rw [List.length_replicate]) (by rw [wire_frame_body, List.nil_append])
      (List.cons_ne_nil _ _)]
    rw [List.nil_append]
  · rw [frame_body_length, List.length_replicate]

theorem SetDeviceState_state (is_running : Bool) (app : App) (state : DeviceState) :
    (SetDeviceState is_running app state).device_state_ = state
    ∧ (SetDeviceState is_running app state).listening_mode_ = app.listening_mode_
    ∧ (SetDeviceState is_running app state).aborted_ = app.aborted_ := by
  unfold SetDeviceState
  by_cases h : app.device_state_ = state
  · rw [if_pos h]; exact ⟨h, rfl, rfl⟩
  · rw [if_neg h]
    cases state <;> cases is_running <;> simp only [App.log, ResetDecoder] <;>
      (try split_ifs) <;> first | exact ⟨rfl, rfl, rfl⟩ | simp

theorem PlaySound_empty (app : App) (sound : List (List Nat)) (h : app.audio_decode_queue_ = []) :
    ∃ app', PlaySound app sound = some app' ∧ app'.device_state_ = app.device_state_ := by
  unfold PlaySound
  rw [if_pos h]
  exact ⟨_, rfl, rfl⟩

theorem Alert_state (app : App) (status message emotion : String) (sound : List (List Nat)) :
    ∃ app', Alert app status message emotion sound = some app'
      ∧ app'.device_state_ = app.device_state_ := by
  unfold Alert
  by_cases hs : sound = []
  · simp only [hs, ne_eq, not_true_eq_false, if_false]
    exact ⟨_, rfl, rfl⟩
  · simp only [ne_eq, hs, not_false_eq_true, if_true]
    exact PlaySound_empty _ sound rfl

theorem OnIncomingAudio_eq (app : App) (packet : List Nat) :
    OnIncomingAudio app packet =
      if app.audio_decode_queue_.length < 10 then
        { app with audio_decode_queue_ := app.audio_decode_queue_ ++ [packet] }
      else app := rfl

theorem OnIncomingAudio_foldl (packets : List (List Nat)) : ∀ (app : App),
    app.audio_decode_queue_ <+: (packets.foldl OnIncomingAudio app).audio_decode_queue_
    ∧ (app.audio_decode_queue_.length ≤ 10 →
        (packets.foldl OnIncomingAudio app).audio_decode_queue_.length ≤ 10) := by
  induction packets with
  | nil => intro app; exact ⟨List.prefix_refl _, fun h => h⟩
  | cons p ps ih =>
    intro app
    rw [List.foldl_cons]
    by_cases c : app.audio_decode_queue_.length < 10
    · have e : OnIncomingAudio app p
          = { app with audio_decode_queue_ := app.audio_decode_queue_ ++ [p] } := by
        rw [OnIncomingAudio_eq, if_pos c]
      rw [e]
      obtain ⟨h1, h2⟩ := ih { app with audio_decode_queue_ := app.audio_decode_queue_ ++ [p] }
      refine ⟨(List.prefix_append _ _).trans h1, fun _ => h2 ?_⟩
      simp only [List.length_append, List.length_singleton]
      omega
    · have e : OnIncomingAudio app p = app := by rw [OnIncomingAudio_eq, if_neg c]
      rw [e]
      exact ih app

theorem pushes_append {α : Type} (a b : List (Ev α)) : pushes (a ++ b) = pushes a ++ pushes b := by
  induction a with
  | nil => rfl
  | cons e a ih =>
    cases e with
    | push cb =>
      show cb :: pushes (a ++ b) = cb :: pushes a ++ pushes b
      rw [ih]; rfl
    | set_bits => exact ih
    | loop => exact ih

theorem sched_step_order {α : Type} (s : Sched α) (e : Ev α) :
    (s.step e).order = s.order ++ pushes [e] ∧ s.ran <+: (s.step e).ran := by
  cases e with
  | push cb =>
    simp only [Sched.step, Schedule_push, Sched.order, Sched.batch, pushes, List.append_assoc]
    exact ⟨trivial, List.prefix_refl _⟩
  | set_bits =>
    simp only [Sched.step, Schedule_set_bits, pushes, List.append_nil]
    split_ifs
    · exact ⟨rfl, List.prefix_refl _⟩
    · exact ⟨rfl, List.prefix_refl _⟩
  | loop =>
    simp only [Sched.step, MainEventLoop, pushes, List.append_nil]
    rcases s with ⟨mt, ev, pn, pc, ran⟩
    cases pc with
    | wait =>
      simp only
      split_ifs
      · exact ⟨rfl, List.prefix_refl _⟩
      · exact ⟨rfl, List.prefix_refl _⟩
    | take =>
      simp only [Sched.order, Sched.batch, List.append_nil]
      exact ⟨trivial, List.prefix_refl _⟩
    | run tasks =>
      cases tasks with
      | nil =>
        simp only [Sched.order, Sched.batch, List.append_nil]
        exact ⟨trivial, List.prefix_refl _⟩
      | cons t ts =>
        simp only [Sched.order, Sched.batch, List.append_assoc, List.singleton_append]
        exact ⟨trivial, List.prefix_append _ _⟩

theorem sched_exec_order {α : Type} (evs : List (Ev α)) : ∀ (s : Sched α),
    (s.exec evs).order = s.order ++ pushes evs ∧ s.ran <+: (s.exec evs).ran := by
  induction evs with
  | nil => intro s; simp [Sched.exec, pushes]
  | cons e evs ih =>
    intro s
    obtain ⟨h1, h2⟩ := ih (s.step e)
    obtain ⟨h3, h4⟩ := sched_step_order s e
    have hp : pushes (e :: evs) = pushes [e] ++ pushes evs := pushes_append [e] evs
    simp only [Sched.exec, List.foldl_cons] at h1 h2 ⊢
    rw [h1, h3, hp, List.append_assoc]
    exact ⟨rfl, h4.trans h2⟩

theorem sched_step_awake {α : Type} (s : Sched α) (e : Ev α) (h : s.awake) : (s.step e).awake := by
  rcases s with ⟨mt, ev, pn, pc, ran⟩
  cases e with
  | push cb =>
    intro _
    right; left
    simp only [Sched.step, Schedule_push]
    omega
  | set_bits =>
    simp only [Sched.step, Schedule_set_bits]
    split_ifs
    · exact h
    · intro _; left; rfl
  | loop =>
    cases pc with
    | wait =>
      simp only [Sched.step, MainEventLoop]
      split_ifs
      · intro _; right; right; rfl
      · exact h
    | take =>
      intro hm
      exact absurd rfl hm
    | run tasks =>
      cases tasks with
      | nil =>
        intro hm
        rcases h hm with h1 | h1 | h1
        · left; exact h1
        · right; left; exact h1
        · simp [LoopPc.moves] at h1
      | cons t ts =>
        intro hm
        rcases h hm with h1 | h1 | h1
        · left; exact h1
        · right; left; exact h1
        · simp [LoopPc.moves] at h1

theorem sched_exec_awake {α : Type} (evs : List (Ev α)) : ∀ (s : Sched α),
    s.awake → (s.exec evs).awake := by
  induction evs with
  | nil => intro s h; exact h
  | cons e evs ih =>
    intro s h
    exact ih (s.step e) (sched_step_awake s e h)

theorem sched_loop_cost {α : Type} (s : Sched α) (h : s.awake) (hp : s.pending = 0) :
    (MainEventLoop s).pending = 0 ∧ (MainEventLoop s).cost ≤ s.cost - 1 := by
  rcases s with ⟨mt, ev, pn, pc, ran⟩
  simp only at hp
  subst hp
  cases pc with
  | wait =>
    cases mt with
    | nil =>
      simp only [MainEventLoop]
      split_ifs <;> simp [Sched.cost, Sched.batch]
    | cons m ms =>
      have he : ev = true := by
        rcases h (List.cons_ne_nil _ _) with h1 | h1 | h1
        · exact h1
        · simp at h1
        · simp [LoopPc.moves] at h1
      subst he
      simp [MainEventLoop, Sched.cost, Sched.batch, LoopPc.moves]
  | take =>
    cases mt with
    | nil => simp [MainEventLoop, Sched.cost, Sched.batch]
    | cons m ms => simp [MainEventLoop, Sched.cost, Sched.batch, LoopPc.moves]
  | run tasks =>
    cases tasks with
    | nil =>
      cases mt with
      | nil => simp [MainEventLoop, Sched.cost, Sched.batch]
      | cons m ms => simp [MainEventLoop, Sched.cost, Sched.batch, LoopPc.moves]
    | cons t ts =>
      cases mt with
      | nil => simp [MainEventLoop, Sched.cost, Sched.batch]
      | cons m ms =>
        simp only [MainEventLoop, Sched.cost, Sched.batch, LoopPc.moves, List.length_cons,
          true_and]
        omega

theorem sched_drain {α : Type} (n : Nat) : ∀ (s : Sched α), s.awake → s.pending = 0 →
    s.cost ≤ n → (s.exec (List.replicate n Ev.loop)).ran = s.order := by
  induction n with
  | zero =>
    intro s _ _ hc
    rcases s with ⟨mt, ev, pn, pc, ran⟩
    cases mt with
    | nil =>
      simp only [Sched.cost, Nat.add_zero, Nat.le_zero, List.length_eq_zero] at hc
      simp [Sched.exec, Sched.order, hc]
    | cons m ms =>
      simp only [Sched.cost, List.length_cons] at hc
      omega
  | succ n ih =>
    intro s h hp hc
    obtain ⟨h1, h2⟩ := sched_loop_cost s h hp
    have h3 := ih (MainEventLoop s) (sched_step_awake s Ev.loop h) h1 (by omega)
    have h4 := (sched_step_order s Ev.loop).1
    simp only [pushes, List.append_nil] at h4
    rw [List.replicate_succ]
    simp only [Sched.exec, List.foldl_cons] at h3 ⊢
    exact h3.trans h4

theorem sched_cost_le {α : Type} (s : Sched α) :
    s.cost ≤ s.batch.length + s.main_tasks_.length + 3 := by
  rcases s with ⟨mt, ev, pn, pc, ran⟩
  cases mt <;> cases pc <;> simp [Sched.cost, LoopPc.moves] <;> omega

theorem sched_init_awake (α : Type) : (sched_init α).awake := fun h => absurd rfl h

theorem sched_exec_pending_le {α : Type} (evs : List (Ev α)) : ∀ (s : Sched α),
    (s.exec evs).pending ≤ s.pending + (pushes evs).length := by
  induction evs with
  | nil => intro s; exact Nat.le_add_right _ _
  | cons e evs ih =>
    intro s
    have h := ih (s.step e)
    have hs : (s.step e).pending + (pushes evs).length
        ≤ s.pending + (pushes (e :: evs)).length := by
      cases e with
      | push cb => simp only [Sched.step, Schedule_push, pushes, List.length_cons]; omega
      | set_bits =>
        simp only [Sched.step, Schedule_set_bits, pushes]
        split_ifs <;> (try dsimp only) <;> omega
      | loop =>
        rcases s with ⟨mt, ev, pn, pc, ran⟩
        simp only [Sched.step, MainEventLoop, pushes]
        cases pc with
        | wait => simp only []; split_ifs <;> exact le_refl _
        | take => exact le_refl _
        | run tasks => cases tasks <;> exact le_refl _
    exact le_trans h hs

theorem pushes_set_bits {α : Type} (k : Nat) :
    pushes (List.replicate k (Ev.set_bits : Ev α)) = [] := by
  induction k with
  | zero => rfl
  | succ k ih => rw [List.replicate_succ]; exact ih

theorem sched_set_bits_pending {α : Type} (k : Nat) : ∀ (s : Sched α),
    (s.exec (List.replicate k Ev.set_bits)).pending = s.pending - k := by
  induction k with
  | zero => intro s; rfl
  | succ k ih =>
    intro s
    rw [List.replicate_succ]
    have h := ih (s.step Ev.set_bits)
    simp only [Sched.exec, List.foldl_cons] at h ⊢
    rw [h]
    simp only [Sched.step, Schedule_set_bits]
    split_ifs <;> (try dsimp only) <;> omega

theorem sched_order_length {α : Type} (s : Sched α) :
    s.batch.length + s.main_tasks_.length ≤ s.order.length := by
  simp only [Sched.order, List.length_append]
  omega

theorem Schedule_pending {α : Type} (s : Sched α) (cb : α) :
    (Schedule s cb).pending = s.pending := by
  simp [Schedule, Schedule_set_bits, Schedule_push]

theorem Schedule_exec {α : Type} (s : Sched α) (cb : α) :
    Schedule s cb = s.exec [Ev.push cb, Ev.set_bits] := rfl

theorem sched_foldl_Schedule {α : Type} (cbs : List α) : ∀ (s : Sched α),
    (cbs.foldl Schedule s).pending = s.pending
    ∧ (cbs.foldl Schedule s).order = s.order ++ cbs
    ∧ (s.awake → (cbs.foldl Schedule s).awake) := by
  induction cbs with
  | nil => intro s; simp
  | cons cb cbs ih =>
    intro s
    obtain ⟨h1, h2, h3⟩ := ih (Schedule s cb)
    have ho := (sched_exec_order [Ev.push cb, Ev.set_bits] s).1
    rw [← Schedule_exec] at ho
    simp only [List.foldl_cons]
    refine ⟨by rw [h1, Schedule_pending], ?_, ?_⟩
    · rw [h2, ho]; simp [pushes]
    · intro ha
      apply h3
      rw [Schedule_exec]
      exact sched_exec_awake _ s ha

theorem sched_complete_drain {α : Type} (evs : List (Ev α)) (n : Nat)
    (hn : (pushes evs).length + 3 ≤ n) :
    ((((sched_init α).exec evs).exec (List.replicate (pushes evs).length Ev.set_bits)).exec
      (List.replicate n Ev.loop)).ran = pushes evs := by
  have hp := sched_exec_pending_le evs (sched_init α)
  have hpend := sched_set_bits_pending (pushes evs).length ((sched_init α).exec evs)
  have ho1 := (sched_exec_order evs (sched_init α)).1
  have ho2 := (sched_exec_order (List.replicate (pushes evs).length (Ev.set_bits : Ev α))
    ((sched_init α).exec evs)).1
  rw [pushes_set_bits, List.append_nil, ho1] at ho2
  have ho3 : (sched_init α).order ++ pushes evs = pushes evs := rfl
  rw [ho3] at ho2
  have haw := sched_exec_awake (List.replicate (pushes evs).length (Ev.set_bits : Ev α)) _
    (sched_exec_awake evs _ (sched_init_awake α))
  have hc := sched_cost_le
    (((sched_init α).exec evs).exec (List.replicate (pushes evs).length Ev.set_bits))
  have hl := sched_order_length
    (((sched_init α).exec evs).exec (List.replicate (pushes evs).length Ev.set_bits))
  rw [ho2] at hl
  have h0 : (sched_init α).pending = 0 := rfl
  rw [sched_drain n _ haw (by rw [hpend]; omega) (by omega), ho2]

theorem sched_Schedule_drain {α : Type} (cbs : List α) (n : Nat) (hn : cbs.length + 3 ≤ n) :
    ((cbs.foldl Schedule (sched_init α)).exec (List.replicate n Ev.loop)).ran = cbs := by
  obtain ⟨h1, h2, h3⟩ := sched_foldl_Schedule cbs (sched_init α)
  have hc := sched_cost_le (cbs.foldl Schedule (sched_init α))
  have hl := sched_order_length (cbs.foldl Schedule (sched_init α))
  have ho : (sched_init α).order ++ cbs = cbs := rfl
  rw [h2, ho] at hl
  rw [sched_drain n _ (h3 (sched_init_awake α)) (by rw [h1]; rfl) (by omega), h2, ho]

theorem frame_cb_recv_pcm_split (ota_support : Bool) (st : Dev) (frame : List Nat)
    (h : frame_cmd frame = VB6824_CMD_RECV_PCM) :
    __vb6824_frame_cb ota_support st frame =
      if (recv_pcm_test st).2 then recv_pcm_enqueue (recv_pcm_test st).1 frame
      else some (recv_pcm_test st).1 := by
  unfold __vb6824_frame_cb recv_pcm_test recv_pcm_enqueue
  simp only [h, if_true]

theorem range_map_load (mem : Nat → Nat) (pd : List Nat) (i : Nat) : ∀ (n : Nat),
    i + n ≤ pd.length →
    (List.range n).map (fun j => load mem pd (i + j)) = (pd.drop i).take n := by
  intro n
  induction n with
  | zero => intro _; simp
  | succ n ih =>
    intro h
    rw [List.range_succ, List.map_append, ih (by omega), List.take_succ]
    congr 1
    have hlt : i + n < pd.length := by omega
    simp only [List.map_cons, List.map_nil, load, List.get?_eq_getElem?, List.getElem?_drop,
      List.getElem?_eq_getElem hlt, Option.toList]

theorem FRAME_CHECK_eq (mem : Nat → Nat) (pd : List Nat) (i dl s : Nat)
    (h : pd.get? (i + 6 + dl) = some s) :
    FRAME_CHECK mem pd i dl = decide (SUM8 (pd.drop i) (6 + dl) = s) := by
  have hlt : i + 6 + dl < pd.length := by
    rcases Nat.lt_or_ge (i + 6 + dl) pd.length with c | c
    · exact c
    · rw [List.get?_eq_none.mpr c] at h; exact Option.noConfusion h
  have hm : (6 + dl) % 65536 ≤ 6 + dl := Nat.mod_le _ _
  unfold FRAME_CHECK SUM8 __sum_bytes
  rw [range_map_load mem pd i _ (by omega)]
  have hl : load mem pd (i + 6 + dl) = s := by
    unfold load
    rw [h]
  rw [hl]

theorem frame_cb_stores_drop (pd : List Nat) (i dl n : Nat) (h : i + 6 + dl < n) :
    (frame_cb_stores pd i dl).drop n = pd.drop n := by
  unfold frame_cb_stores
  rw [List.drop_set_of_lt _ _ (by omega), List.drop_set_of_lt _ _ (by omega),
    List.drop_set_of_lt _ _ (by omega), List.drop_set_of_lt _ _ (by omega),
    List.drop_set_of_lt _ _ (by omega)]

theorem parse_loop_mem_eq (mem : Nat → Nat) (fuel : Nat) : ∀ (pd : List Nat) (tl i : Nat)
    (fr : List (List Nat)), pd.length < 65536 →
    (∀ off, (parse_loop fuel pd tl i fr).halt ≠ Halt.oob_read off) →
    parse_loop_mem mem fuel pd tl i fr = parse_loop fuel pd tl i fr := by
  induction fuel with
  | zero => intro pd tl i fr _ _; rfl
  | succ fuel ih =>
    intro pd tl i fr hlen h
    rw [parse_loop] at h ⊢
    rw [parse_loop_mem]
    by_cases c1 : i < pd.length
    · simp only [c1, if_true] at h ⊢
      have hm : (pd.length - i) % 65536 = pd.length - i := Nat.mod_eq_of_lt (by omega)
      simp only [hm] at h ⊢
      by_cases c2 : pd.length - i ≥ FRAME_MIN_LIN
      · simp only [c2, if_true] at h ⊢
        by_cases c3 : rd16 pd i = FRAME_HEAD
        · simp only [c3, if_true] at h ⊢
          by_cases c4 : pd.length - i ≥ (6 + SWAP_16 (rd16 pd (i + 2)) + 1) % 65536
          · simp only [c4, if_true] at h ⊢
            cases hg : pd.get? (i + 6 + SWAP_16 (rd16 pd (i + 2))) with
            | none =>
              simp only [hg] at h
              exact absurd rfl (h _)
            | some s =>
              simp only [hg] at h ⊢
              have hlt : i + 6 + SWAP_16 (rd16 pd (i + 2)) < pd.length := by
                rcases Nat.lt_or_ge (i + 6 + SWAP_16 (rd16 pd (i + 2))) pd.length with c | c
                · exact c
                · rw [List.get?_eq_none.mpr c] at hg; exact Option.noConfusion hg
              have hfl : (6 + SWAP_16 (rd16 pd (i + 2)) + 1) % 65536
                  = 6 + SWAP_16 (rd16 pd (i + 2)) + 1 := Nat.mod_eq_of_lt (by omega)
              rw [FRAME_CHECK_eq mem pd i _ s hg]
              rw [frame_cb_stores_drop pd i _ _ (by rw [hfl]; omega)]
              by_cases c5 : SUM8 (pd.drop i) (6 + SWAP_16 (rd16 pd (i + 2))) = s
              · simp only [c5, decide_True, if_true] at h ⊢
                split_ifs at h ⊢ with d1 d2
                · rfl
                · refine ih _ _ _ _ ?_ h
                  simp only [List.length_take, List.length_drop]
                  omega
                · rfl
              · simp only [c5, decide_False, if_false, Bool.false_eq_true] at h ⊢
                exact ih _ _ _ _ hlen h
          · simp only [c4, if_false] at h ⊢
            split_ifs at h ⊢
            all_goals first | rfl | exact ih _ _ _ _ hlen h
        · simp only [c3, if_false] at h ⊢
          exact ih _ _ _ _ hlen h
      · simp only [c2, if_false] at h ⊢
        refine ih _ _ _ _ ?_ h
        rw [tail_length pd i c1]; exact hlen
    · simp only [c1, if_false] at h ⊢

theorem frame_parse_data_mem_eq (mem : Nat → Nat) (tmp data : List Nat)
    (h : ∀ off, (__frame_parse_data tmp data).halt ≠ Halt.oob_read off) :
    __frame_parse_data_mem mem tmp data = __frame_parse_data tmp data := by
  unfold __frame_parse_data at h ⊢
  unfold __frame_parse_data_mem
  by_cases c1 : tmp.length + data.length > TMP_DATA_SIZE
  · simp only [c1, if_true]
  · simp only [c1, if_false] at h ⊢
    by_cases c2 : (tmp ++ data).length < FRAME_MIN_LIN
    · simp only [c2, if_true]
    · simp only [c2, if_false] at h ⊢
      refine parse_loop_mem_eq mem _ _ _ _ _ ?_ h
      simp only [TMP_DATA_SIZE, FRAME_MAX_LIN] at c1
      simp only [List.length_append]
      omega

/-! ## The claims -/

/-- C1 (as stated, refuted): the round trip fails for the empty payload. With
`AUDIO_SEND_CHENK_LEN = 320` and command `VB6824_CMD_SEND_PCM`, `__frame_send`
writes nothing for an empty payload, so that feeding what it wrote to the parser
from an empty accumulator does not deliver exactly one frame carrying the command
and the empty payload. -/
theorem roundtrip_fails_on_empty_payload :
    ¬ (∀ cs : List (List Nat),
        cs.flatten = (__frame_send 320 VB6824_CMD_SEND_PCM []).writes.flatten →
        ∃ f, (feed_all [] cs).frames = [f] ∧ frame_cmd f = VB6824_CMD_SEND_PCM
          ∧ frame_data f = []) := by
  intro h
  obtain ⟨f, hf, _⟩ := h [] (by decide)
  have h0 : (feed_all [] []).frames = [] := by decide
  rw [h0] at hf
  exact List.noConfusion hf

/-- C1 (amended): round trip for a payload of 1 to `AUDIO_SEND_CHENK_LEN` bytes
(at most 512) and a 16-bit command code. `__frame_send` returns after writing its
bytes, and feeding those bytes to `__frame_parse_data` from an empty accumulator,
in one call or split at arbitrary chunk boundaries over several calls, hands the
callback exactly one frame, which decodes to the original command code and the
original payload, and leaves the accumulator empty. -/
theorem roundtrip_send_parse (chunk cmd : Nat) (payload : List Nat)
    (h1 : 1 ≤ payload.length) (h2 : payload.length ≤ chunk) (h3 : payload.length ≤ 512)
    (hc : cmd < 65536) :
    (__frame_send chunk cmd payload).halt = SendHalt.done ∧
    ∀ cs : List (List Nat),
      cs.flatten = (__frame_send chunk cmd payload).writes.flatten →
      ∃ f, feed_all [] cs = ⟨[f], Halt.ret []⟩ ∧ frame_cmd f = cmd ∧ frame_data f = payload := by
  rw [frame_send_eq chunk cmd payload h1 h2 (by omega)]
  refine ⟨rfl, ?_⟩
  intro cs hcs
  simp only [List.flatten_cons, List.flatten_nil, List.append_nil] at hcs
  refine ⟨wire_frame cmd payload, ?_, frame_cmd_wire cmd payload hc,
    frame_data_wire cmd payload (by omega)⟩
  apply feed_all_frame cmd payload h3 cs []
  · simpa using hcs
  · rw [hcs]
    intro h
    have := congrArg List.length h
    rw [wire_frame_length] at this
    simp at this

/-- Witness of `roundtrip_send_parse`: the payload `01 02 03` with command
`VB6824_CMD_SEND_PCM` under `AUDIO_SEND_CHENK_LEN = 40`. -/
theorem roundtrip_send_parse_witness :
    (1 ≤ [1, 2, 3].length ∧ [1, 2, 3].length ≤ 40 ∧ [1, 2, 3].length ≤ 512
      ∧ VB6824_CMD_SEND_PCM < 65536) ∧
    ((__frame_send 40 VB6824_CMD_SEND_PCM [1, 2, 3]).halt = SendHalt.done ∧
    ∀ cs : List (List Nat),
      cs.flatten = (__frame_send 40 VB6824_CMD_SEND_PCM [1, 2, 3]).writes.flatten →
      ∃ f, feed_all [] cs = ⟨[f], Halt.ret []⟩ ∧ frame_cmd f = VB6824_CMD_SEND_PCM
        ∧ frame_data f = [1, 2, 3]) :=
  ⟨by decide, roundtrip_send_parse 40 VB6824_CMD_SEND_PCM [1, 2, 3]
    (by decide) (by decide) (by decide) (by decide)⟩

/-- Frames handed over when a load outside the accumulated bytes ends the run:
whatever the accumulator holds and whatever bytes arrive, every frame that
`__frame_parse_data` hands to the callback up to such a load, or up to its return,
starts with the magic header bytes `55 AA`, is exactly 6 header bytes, its declared
number of payload bytes and one trailing byte long, and its trailing byte equals
the sum modulo 256 of the header and payload bytes. -/
theorem parse_forwards_only_checksummed_frames (tmp data : List Nat)
    (hb : ∀ b ∈ tmp ++ data, b < 256) :
    ∀ f ∈ (__frame_parse_data tmp data).frames,
      f.take 2 = [0x55, 0xAA] ∧ f.length = frame_len f + 7
        ∧ f.getLast? = some ((f.take (frame_len f + 6)).sum % 256) :=
  frame_parse_data_frames_ok tmp data hb

/-- Witness of `parse_forwards_only_checksummed_frames`: two bytes of noise in
the accumulator, then a chunk holding a valid frame followed by a frame with a
wrong checksum. -/
theorem parse_forwards_only_checksummed_frames_witness :
    (∀ b ∈ [7, 9] ++ [0x55, 0xAA, 0, 1, 1, 0x80, 0x4A, 0xCB, 0x55, 0xAA, 0, 0, 1, 0x80, 0x81],
      b < 256) ∧
    ∀ f ∈ (__frame_parse_data [7, 9]
        [0x55, 0xAA, 0, 1, 1, 0x80, 0x4A, 0xCB, 0x55, 0xAA, 0, 0, 1, 0x80, 0x81]).frames,
      f.take 2 = [0x55, 0xAA] ∧ f.length = frame_len f + 7
        ∧ f.getLast? = some ((f.take (frame_len f + 6)).sum % 256) :=
  ⟨by decide, parse_forwards_only_checksummed_frames [7, 9]
    [0x55, 0xAA, 0, 1, 1, 0x80, 0x4A, 0xCB, 0x55, 0xAA, 0, 0, 1, 0x80, 0x81] (by decide)⟩

/-- C2 (the code at the failing input): the chunk `55 AA FF FA 02 80 00` on an
empty accumulator declares 65530 payload bytes. The 16-bit frame length wraps to 1,
the checksum is summed over `(uint16_t)65536 = 0` bytes, and the checksum byte is
loaded at offset 65536, outside the accumulated bytes and the array. When the memory
holds `00` there the check passes, and the callback is handed a frame of the one
byte `55`: it does not start with the two header bytes, and it is not 6 header
bytes, the declared payload bytes and a checksum byte long. Wherever no checksum
byte is loaded outside the accumulated bytes, the parser with every load carried
out runs exactly as `__frame_parse_data`, and every frame it hands over starts
with `55 AA`, has the declared length and ends in the sum modulo 256 of the bytes
before it. -/
theorem unverified_frame_reaches_callback :
    __frame_parse_data_mem (fun _ => 0) [] [0x55, 0xAA, 0xFF, 0xFA, 0x02, 0x80, 0x00]
      = ⟨[[0x55]], Halt.ret [0xAA, 0xFA, 0xFF, 0x80, 0x02, 0x00]⟩
    ∧ [0x55].take 2 ≠ [0x55, 0xAA]
    ∧ [0x55].length ≠ frame_len [0x55] + 7
    ∧ __frame_parse_data [] [0x55, 0xAA, 0xFF, 0xFA, 0x02, 0x80, 0x00]
      = ⟨[], Halt.oob_read 65536⟩
    ∧ (∀ (mem : Nat → Nat) (tmp data : List Nat),
        (∀ off, (__frame_parse_data tmp data).halt ≠ Halt.oob_read off) →
        __frame_parse_data_mem mem tmp data = __frame_parse_data tmp data)
    ∧ (∀ (mem : Nat → Nat) (tmp data : List Nat), (∀ b ∈ tmp ++ data, b < 256) →
        (∀ off, (__frame_parse_data tmp data).halt ≠ Halt.oob_read off) →
        ∀ f ∈ (__frame_parse_data_mem mem tmp data).frames,
          f.take 2 = [0x55, 0xAA] ∧ f.length = frame_len f + 7
            ∧ f.getLast? = some ((f.take (frame_len f + 6)).sum % 256)) := by
  refine ⟨by decide, by decide, by decide, by decide, frame_parse_data_mem_eq, ?_⟩
  intro mem tmp data hb h
  rw [frame_parse_data_mem_eq mem tmp data h]
  exact frame_parse_data_frames_ok tmp data hb

/-- C4: for a 16-bit command code and a payload of `n` bytes with
`1 ≤ n ≤ AUDIO_SEND_CHENK_LEN`, `__frame_send` returns after exactly one write to the
transport, a frame of `n + 7` bytes: the magic header bytes `55 AA`, `n` as a
big-endian 16-bit value at offsets 2-3, the command code as a big-endian 16-bit
value at offsets 4-5, the payload at offsets `6 .. 6+n-1`, and a last byte equal
to the sum of the `n + 6` bytes before it modulo 256. -/
theorem frame_send_writes_one_frame (chunk cmd : Nat) (data : List Nat)
    (h1 : 1 ≤ data.length) (h2 : data.length ≤ chunk) (hk : chunk < 32768)
    (hc : cmd < 65536) :
    ∃ f, __frame_send chunk cmd data = ⟨[f], SendHalt.done⟩
      ∧ f.length = data.length + 7
      ∧ f.take 2 = [0x55, 0xAA]
      ∧ f.getD 2 0 < 256 ∧ f.getD 3 0 < 256 ∧ f.getD 2 0 * 256 + f.getD 3 0 = data.length
      ∧ f.getD 4 0 < 256 ∧ f.getD 5 0 < 256 ∧ f.getD 4 0 * 256 + f.getD 5 0 = cmd
      ∧ (f.drop 6).take data.length = data
      ∧ f.getLast? = some ((f.take (data.length + 6)).sum % 256) := by
  refine ⟨wire_frame cmd data, frame_send_eq chunk cmd data h1 h2 (by omega),
    wire_frame_length cmd data, ?_⟩
  have hs := wire_frame_sum cmd data []
  rw [List.append_nil] at hs
  rw [hs]
  rw [wire_frame_eq]
  simp only [List.getD_cons_zero, List.getD_cons_succ, List.take, List.drop]
  refine ⟨trivial, Nat.mod_lt _ (by norm_num), Nat.mod_lt _ (by norm_num), be16 _ (by omega),
    Nat.mod_lt _ (by norm_num), Nat.mod_lt _ (by norm_num), be16 _ hc, ?_, ?_⟩
  · simp
  · simp [List.getLast?_eq_getElem?, List.getD_eq_getElem?_getD]

/-- Witness of `frame_send_writes_one_frame`: the one-byte volume payload `1F`
sent with command `0x0203` under `AUDIO_SEND_CHENK_LEN = 320`. -/
theorem frame_send_writes_one_frame_witness :
    (1 ≤ [0x1F].length ∧ [0x1F].length ≤ 320 ∧ 320 < 32768 ∧ 0x0203 < 65536) ∧
    ∃ f, __frame_send 320 0x0203 [0x1F] = ⟨[f], SendHalt.done⟩
      ∧ f.length = [0x1F].length + 7
      ∧ f.take 2 = [0x55, 0xAA]
      ∧ f.getD 2 0 < 256 ∧ f.getD 3 0 < 256 ∧ f.getD 2 0 * 256 + f.getD 3 0 = [0x1F].length
      ∧ f.getD 4 0 < 256 ∧ f.getD 5 0 < 256 ∧ f.getD 4 0 * 256 + f.getD 5 0 = 0x0203
      ∧ (f.drop 6).take [0x1F].length = [0x1F]
      ∧ f.getLast? = some ((f.take ([0x1F].length + 6)).sum % 256) :=
  ⟨by decide, frame_send_writes_one_frame 320 0x0203 [0x1F]
    (by decide) (by decide) (by decide) (by decide)⟩

/-- C5 (as stated, refuted): fed from an empty accumulator, the 8 bytes
`AA 55 00 01 80 01 4A` plus their modulo-256 sum dispatch nothing. The header
field of these bytes reads `0x55AA` on the little-endian target, not
`FRAME_HEAD = 0xAA55`, so no frame is found and the callback is not invoked. -/
theorem scenario_bytes_dispatch_nothing :
    (__frame_parse_data []
      [0xAA, 0x55, 0x00, 0x01, 0x80, 0x01, 0x4A,
        (0xAA + 0x55 + 0x00 + 0x01 + 0x80 + 0x01 + 0x4A) % 256]).frames = [] := by
  decide

/-- C5 (amended): fed from an empty accumulator, the 8 bytes
`55 AA 00 01 01 80 4A` plus their modulo-256 sum (the bytes `__frame_send` writes
for command `VB6824_CMD_RECV_CTL` and payload `4A`: header and command code high
byte first) hand the callback exactly one frame; it decodes to the command
`VB6824_CMD_RECV_CTL` with the one-byte payload `4A`, and the accumulator is left
empty. -/
theorem scenario_control_frame :
    (__frame_send 320 VB6824_CMD_RECV_CTL [0x4A]).writes
      = [[0x55, 0xAA, 0x00, 0x01, 0x01, 0x80, 0x4A,
          (0x55 + 0xAA + 0x00 + 0x01 + 0x01 + 0x80 + 0x4A) % 256]] ∧
    ∃ f, __frame_parse_data []
        [0x55, 0xAA, 0x00, 0x01, 0x01, 0x80, 0x4A,
          (0x55 + 0xAA + 0x00 + 0x01 + 0x01 + 0x80 + 0x4A) % 256] = ⟨[f], Halt.ret []⟩
      ∧ frame_cmd f = VB6824_CMD_RECV_CTL ∧ frame_len f = 1 ∧ frame_data f = [0x4A] := by
  refine ⟨by decide, [0x55, 0xAA, 0x00, 0x01, 0x01, 0x80, 0x4A, 0xCB], ?_⟩
  decide

/-- C3 (as stated, refuted): take for A the valid `VB6824_CMD_RECV_CTL` frame with
payload `55 AA 02 00 00 00` (checksum `87`) and alter its checksum byte to `86`;
take for B the valid `VB6824_CMD_RECV_CTL` frame with payload `4A`. Fed in one call
from an empty accumulator, the corrupted A followed by B invokes the callback not
at all: the header bytes inside A's payload declare 512 payload bytes, and the
parser returns holding everything from that offset on, waiting for more bytes. -/
theorem resync_fails_on_header_in_payload :
    (wire_frame VB6824_CMD_RECV_CTL [0x55, 0xAA, 0x02, 0x00, 0x00, 0x00]).getLast? = some 0x87 ∧
    __frame_parse_data []
        (((wire_frame VB6824_CMD_RECV_CTL [0x55, 0xAA, 0x02, 0x00, 0x00, 0x00]).dropLast ++ [0x86])
          ++ wire_frame VB6824_CMD_RECV_CTL [0x4A])
      = ⟨[], Halt.ret ([0x55, 0xAA, 0x02, 0x00, 0x00, 0x00, 0x86]
          ++ wire_frame VB6824_CMD_RECV_CTL [0x4A])⟩ := by
  decide

/-- C3 (amended): resynchronisation in one call. Let A be a valid frame whose
checksum byte has been replaced by another byte `x`, such that the header byte pair
`55 AA` occurs in the corrupted frame at its start only, and let B be a valid frame
(payloads of at most 512 bytes). Feeding the corrupted A followed by B to
`__frame_parse_data` from an empty accumulator, in one call, invokes the callback
exactly once, with frame B, and leaves the accumulator empty. -/
theorem resync_after_bad_checksum (ca cb : Nat) (pa pb : List Nat) (x : Nat)
    (hpa : pa.length ≤ 512) (hpb : pb.length ≤ 512)
    (hba : ∀ b ∈ pa, b < 256) (hbb : ∀ b ∈ pb, b < 256) (hx256 : x < 256)
    (hx : (wire_frame ca pa).getLast? ≠ some x)
    (hclean : ∀ i < pa.length + 5,
      ¬ (((wire_frame ca pa).dropLast ++ [x]).getD (i + 1) 0 = 0x55
          ∧ ((wire_frame ca pa).dropLast ++ [x]).getD (i + 2) 0 = 0xAA)) :
    __frame_parse_data [] (((wire_frame ca pa).dropLast ++ [x]) ++ wire_frame cb pb)
      = ⟨[wire_frame cb pb], Halt.ret []⟩ := by
  rw [wire_frame_dropLast] at hclean ⊢
  rw [wire_frame_getLast] at hx
  exact frame_parse_data_resync ca cb pa pb x hpa hpb hba hbb hx256
    (fun h => hx (by rw [h])) hclean

/-- Witness of `resync_after_bad_checksum`: A is the `VB6824_CMD_RECV_CTL` frame
with payload `4A` with its checksum byte `CB` replaced by `00`, B is the
`VB6824_CMD_RECV_PCM` frame with payload `01 02`. -/
theorem resync_after_bad_checksum_witness :
    ([0x4A].length ≤ 512 ∧ [1, 2].length ≤ 512 ∧ (∀ b ∈ [0x4A], b < 256)
      ∧ (∀ b ∈ [1, 2], b < 256) ∧ 0 < 256
      ∧ (wire_frame VB6824_CMD_RECV_CTL [0x4A]).getLast? ≠ some 0
      ∧ (∀ i < [0x4A].length + 5,
          ¬ (((wire_frame VB6824_CMD_RECV_CTL [0x4A]).dropLast ++ [0]).getD (i + 1) 0 = 0x55
            ∧ ((wire_frame VB6824_CMD_RECV_CTL [0x4A]).dropLast ++ [0]).getD (i + 2) 0 = 0xAA))) ∧
    __frame_parse_data []
        (((wire_frame VB6824_CMD_RECV_CTL [0x4A]).dropLast ++ [0])
          ++ wire_frame VB6824_CMD_RECV_PCM [1, 2])
      = ⟨[wire_frame VB6824_CMD_RECV_PCM [1, 2]], Halt.ret []⟩ :=
  ⟨by decide, resync_after_bad_checksum VB6824_CMD_RECV_CTL VB6824_CMD_RECV_PCM [0x4A] [1, 2] 0
    (by decide) (by decide) (by decide) (by decide) (by decide) (by decide) (by decide)⟩

/-- C6 (the code at the failing inputs): the declared payload length is not
checked against the maximum frame size before the checksum is located.
(1) The 7 bytes `55 AA FF FA 00 00 00` declare 65530 payload bytes; the 16-bit frame
length wraps to 1, and the checksum byte is loaded at offset 65536, outside the 7
accumulated bytes (and outside the 1038-byte array).
(2) A complete, correctly checksummed frame declaring 513 payload bytes is handed
to the callback. -/
theorem length_unchecked_before_checksum :
    __frame_parse_data [] [0x55, 0xAA, 0xFF, 0xFA, 0x00, 0x00, 0x00]
      = ⟨[], Halt.oob_read 65536⟩
    ∧ __frame_parse_data [] (wire_frame VB6824_CMD_RECV_PCM (List.replicate 513 0))
      = ⟨[wire_frame VB6824_CMD_RECV_PCM (List.replicate 513 0)], Halt.ret []⟩
    ∧ frame_len (wire_frame VB6824_CMD_RECV_PCM (List.replicate 513 0)) = 513 := by
  refine ⟨by decide, ?_, ?_⟩
  · exact frame_parse_data_complete [] _ _ _
      (by rw [List.length_replicate]; decide) (List.nil_append _)
  · rw [frame_len_wire _ _ (by rw [List.length_replicate]; decide), List.length_replicate]

/-- C7 (the code at the failing input): the append has no capacity check. From an
empty accumulator, a first chunk of 518 bytes (header and payload of a frame
declaring 512 payload bytes, its checksum byte still missing) is retained whole;
a second chunk of 1024 bytes is then appended behind it, 1542 bytes in all, past
the 1038 bytes of `tmp_data`; the state is not reset. -/
theorem append_overflows_accumulator :
    ((wire_frame VB6824_CMD_RECV_PCM (List.replicate 512 0)).dropLast).length = 518
    ∧ __frame_parse_data [] (wire_frame VB6824_CMD_RECV_PCM (List.replicate 512 0)).dropLast
      = ⟨[], Halt.ret (wire_frame VB6824_CMD_RECV_PCM (List.replicate 512 0)).dropLast⟩
    ∧ __frame_parse_data (wire_frame VB6824_CMD_RECV_PCM (List.replicate 512 0)).dropLast
        (List.replicate 1024 0) = ⟨[], Halt.oob_write 1542⟩ := by
  have hl : ((wire_frame VB6824_CMD_RECV_PCM (List.replicate 512 0)).dropLast).length = 518 := by
    rw [wire_frame_dropLast, frame_body_length, List.length_replicate]
  refine ⟨hl, ?_, ?_⟩
  · have := frame_parse_data_incomplete [] (wire_frame VB6824_CMD_RECV_PCM (List.replicate 512 0)).dropLast
      [((frame_body VB6824_CMD_RECV_PCM (List.replicate 512 0)).sum % 256)]
      VB6824_CMD_RECV_PCM (List.replicate 512 0) (by rw [List.length_replicate])
      (by rw [wire_frame_dropLast, List.nil_append, ← wire_frame_body]) (List.cons_ne_nil _ _)
    rw [List.nil_append] at this
    exact this
  · unfold __frame_parse_data
    rw [hl, List.length_replicate, if_pos (by decide)]

/-- C8 (the code at the failing input): two valid frames in one call, the second
with an empty payload. The first frame is handed to the callback; the 7 bytes of
the second stay in the accumulator and the call returns, because the parser scans
on only when more than `FRAME_MIN_LIN` bytes remain. The same 7-byte frame fed
alone is handed over at once. -/
theorem trailing_empty_frame_not_dispatched :
    __frame_parse_data [] (wire_frame VB6824_CMD_RECV_CTL [0x4A] ++ wire_frame VB6824_CMD_RECV_CTL [])
      = ⟨[wire_frame VB6824_CMD_RECV_CTL [0x4A]], Halt.ret (wire_frame VB6824_CMD_RECV_CTL [])⟩
    ∧ __frame_parse_data [] (wire_frame VB6824_CMD_RECV_CTL [])
      = ⟨[wire_frame VB6824_CMD_RECV_CTL []], Halt.ret []⟩ := by
  decide

/-- C9 (the code at the failing input): a payload one byte longer than
`AUDIO_SEND_CHENK_LEN` is not split. `send_len` stays equal to `len`, the single
frame being built needs `len + 7` bytes, and the store of its checksum leaves the
`AUDIO_SEND_CHENK_LEN + 7` bytes of `packet`; no sequence of frames carrying the
payload in chunks is written. Shown for both configured chunk sizes. -/
theorem oversized_payload_not_chunked :
    __frame_send 320 VB6824_CMD_SEND_PCM (List.replicate 321 0) = ⟨[], SendHalt.oob⟩
    ∧ __frame_send 40 VB6824_CMD_SEND_PCM (List.replicate 41 0) = ⟨[], SendHalt.oob⟩ :=
  ⟨frame_send_overflow 320 _ _ (by rw [List.length_replicate]; decide)
      (by rw [List.length_replicate]; decide),
   frame_send_overflow 40 _ _ (by rw [List.length_replicate]; decide)
      (by rw [List.length_replicate]; decide)⟩

/-- C10: with capture enabled and the capture queue a bounded FIFO of chunks,
initially empty, dispatching in order any sequence of well-formed
`VB6824_CMD_RECV_PCM` frames whose payloads are each no larger than the queue
capacity completes, and the queue then holds, oldest first, the longest suffix of
the written chunks whose total size fits the capacity: it is a suffix of the chunks
written, it fits, and no suffix that fits is longer. -/
theorem capture_queue_keeps_newest_fitting_chunks (ota_support : Bool) (st : Dev)
    (frames : List (List Nat))
    (hen : st.g_input_enabled = true) (hempty : st.g_rx_ringbuffer.items = [])
    (hfs : ∀ f ∈ frames, frame_cmd f = VB6824_CMD_RECV_PCM ∧ f.length = frame_len f + 7
      ∧ frame_len f ≤ st.g_rx_ringbuffer.capacity) :
    ∃ st', dispatch_all ota_support st frames = some st'
      ∧ st'.g_rx_ringbuffer.items <:+ frames.map frame_data
      ∧ chunk_bytes st'.g_rx_ringbuffer.items ≤ st.g_rx_ringbuffer.capacity
      ∧ ∀ s, s <:+ frames.map frame_data → chunk_bytes s ≤ st.g_rx_ringbuffer.capacity →
          s.length ≤ st'.g_rx_ringbuffer.items.length := by
  have hI : LongestFit st.g_rx_ringbuffer.capacity st.g_rx_ringbuffer.items [] := by
    rw [hempty]
    exact ⟨List.suffix_refl _, Nat.zero_le _, fun s hs _ => by
      rw [List.eq_nil_of_suffix_nil hs]⟩
  obtain ⟨st', h1, _, h2⟩ := dispatch_all_recv_pcm ota_support frames st [] hen hI hfs
  rw [List.nil_append] at h2
  exact ⟨st', h1, h2.1, h2.2.1, h2.2.2⟩

set_option maxRecDepth 100000 in
/-- Witness of `capture_queue_keeps_newest_fitting_chunks`: a capture queue of 100
bytes and two `VB6824_CMD_RECV_PCM` frames with 60 payload bytes each. After both
are dispatched only the second chunk is in the queue. -/
theorem capture_queue_keeps_newest_fitting_chunks_witness :
    (capture_100.g_input_enabled = true ∧ capture_100.g_rx_ringbuffer.items = []
      ∧ ∀ f ∈ [wire_frame VB6824_CMD_RECV_PCM (List.replicate 60 1),
               wire_frame VB6824_CMD_RECV_PCM (List.replicate 60 2)],
          frame_cmd f = VB6824_CMD_RECV_PCM ∧ f.length = frame_len f + 7
            ∧ frame_len f ≤ capture_100.g_rx_ringbuffer.capacity) ∧
    (∃ st', dispatch_all false capture_100
          [wire_frame VB6824_CMD_RECV_PCM (List.replicate 60 1),
           wire_frame VB6824_CMD_RECV_PCM (List.replicate 60 2)] = some st'
      ∧ st'.g_rx_ringbuffer.items <:+
          [wire_frame VB6824_CMD_RECV_PCM (List.replicate 60 1),
           wire_frame VB6824_CMD_RECV_PCM (List.replicate 60 2)].map frame_data
      ∧ chunk_bytes st'.g_rx_ringbuffer.items ≤ capture_100.g_rx_ringbuffer.capacity
      ∧ ∀ s, s <:+ [wire_frame VB6824_CMD_RECV_PCM (List.replicate 60 1),
                    wire_frame VB6824_CMD_RECV_PCM (List.replicate 60 2)].map frame_data →
          chunk_bytes s ≤ capture_100.g_rx_ringbuffer.capacity →
          s.length ≤ st'.g_rx_ringbuffer.items.length) ∧
    (dispatch_all false capture_100
          [wire_frame VB6824_CMD_RECV_PCM (List.replicate 60 1),
           wire_frame VB6824_CMD_RECV_PCM (List.replicate 60 2)]).map
        (fun st' => st'.g_rx_ringbuffer.items) = some [List.replicate 60 2] :=
  ⟨by decide, capture_queue_keeps_newest_fitting_chunks false capture_100 _
    (by decide) (by decide) (by decide), by decide⟩

/-- C11: a `VB6824_CMD_RECV_PCM` frame dispatched by `__vb6824_frame_cb` while
capture is disabled leaves the capture queue and the disabled flag unchanged and
invokes no callback; every later `vb6824_audio_read` behaves as if the frame had
never arrived (same return value, same bytes copied, same queue afterwards), so
its payload cannot be read. -/
theorem recv_pcm_dropped_while_capture_disabled (ota_support : Bool) (st : Dev) (f : List Nat)
    (hcmd : frame_cmd f = VB6824_CMD_RECV_PCM) (hd : st.g_input_enabled = false) :
    ∃ st', __vb6824_frame_cb ota_support st f = some st'
      ∧ st'.g_rx_ringbuffer = st.g_rx_ringbuffer
      ∧ st'.calls = st.calls
      ∧ st'.g_input_enabled = false
      ∧ ∀ rounds size,
          (vb6824_audio_read rounds st' size).map (fun r => (r.1, r.2.1, r.2.2.g_rx_ringbuffer))
            = (vb6824_audio_read rounds st size).map
                (fun r => (r.1, r.2.1, r.2.2.g_rx_ringbuffer)) := by
  refine ⟨_, frame_cb_recv_pcm_disabled ota_support st f hcmd hd, rfl, rfl, hd, ?_⟩
  intro rounds size
  exact audio_read_rx st _ size rounds rfl

/-- Witness of `recv_pcm_dropped_while_capture_disabled`: the state after
`vb6824_init` (capture disabled) and a `VB6824_CMD_RECV_PCM` frame with payload
`01 02 03`. -/
theorem recv_pcm_dropped_while_capture_disabled_witness :
    (frame_cmd (wire_frame VB6824_CMD_RECV_PCM [1, 2, 3]) = VB6824_CMD_RECV_PCM
      ∧ boot_dev.g_input_enabled = false) ∧
    ∃ st', __vb6824_frame_cb true boot_dev (wire_frame VB6824_CMD_RECV_PCM [1, 2, 3]) = some st'
      ∧ st'.g_rx_ringbuffer = boot_dev.g_rx_ringbuffer
      ∧ st'.calls = boot_dev.calls
      ∧ st'.g_input_enabled = false
      ∧ ∀ rounds size,
          (vb6824_audio_read rounds st' size).map (fun r => (r.1, r.2.1, r.2.2.g_rx_ringbuffer))
            = (vb6824_audio_read rounds boot_dev size).map
                (fun r => (r.1, r.2.1, r.2.2.g_rx_ringbuffer)) :=
  ⟨by decide, recv_pcm_dropped_while_capture_disabled true boot_dev
    (wire_frame VB6824_CMD_RECV_PCM [1, 2, 3]) (by decide) (by decide)⟩

/-- Disabling capture when every operation runs to completion before the next one
starts: in every state of the capture pipeline that frames, enable and disable calls
and reads reach in that way, `vb6824_audio_enable_input(false)` leaves capture
disabled and the capture queue empty; a second call right after it changes nothing;
and after capture is enabled again the queue is still empty, so that
`vb6824_audio_read` finds no chunk. -/
theorem disable_capture_empties_and_is_idempotent (ota_support : Bool) (st : Dev)
    (hr : Reachable ota_support st) :
    (vb6824_audio_enable_input st false).g_input_enabled = false
      ∧ (vb6824_audio_enable_input st false).g_rx_ringbuffer.items = []
      ∧ vb6824_audio_enable_input (vb6824_audio_enable_input st false) false
          = vb6824_audio_enable_input st false
      ∧ (vb6824_audio_enable_input (vb6824_audio_enable_input st false) true).g_rx_ringbuffer.items
          = []
      ∧ ∀ rounds size,
          vb6824_audio_read rounds
            (vb6824_audio_enable_input (vb6824_audio_enable_input st false) true) size = none := by
  have h1 := enable_input_false st
  have h2 : (vb6824_audio_enable_input st false).g_rx_ringbuffer.items = [] :=
    reachable_disabled_empty ota_support _ (Reachable.enable st false hr) h1
  have h3 : vb6824_audio_enable_input (vb6824_audio_enable_input st false) false
      = vb6824_audio_enable_input st false := by
    rw [enable_input_eq (vb6824_audio_enable_input st false) false, if_pos h1.symm]
  have h4 : (vb6824_audio_enable_input (vb6824_audio_enable_input st false) true).g_rx_ringbuffer.items
      = [] := by
    rw [enable_input_eq (vb6824_audio_enable_input st false) true, h1]
    simpa using h2
  exact ⟨h1, h2, h3, h4, fun rounds size => audio_read_empty _ size h4 rounds⟩

/-- Witness of `disable_capture_empties_and_is_idempotent`: the reachable state
`capture_busy`, in which capture is enabled and a chunk is queued. -/
theorem disable_capture_empties_and_is_idempotent_witness :
    Reachable true capture_busy ∧
    ((vb6824_audio_enable_input capture_busy false).g_input_enabled = false
      ∧ (vb6824_audio_enable_input capture_busy false).g_rx_ringbuffer.items = []
      ∧ vb6824_audio_enable_input (vb6824_audio_enable_input capture_busy false) false
          = vb6824_audio_enable_input capture_busy false
      ∧ (vb6824_audio_enable_input
            (vb6824_audio_enable_input capture_busy false) true).g_rx_ringbuffer.items = []
      ∧ ∀ rounds size,
          vb6824_audio_read rounds
            (vb6824_audio_enable_input (vb6824_audio_enable_input capture_busy false) true)
            size = none) :=
  have hr : Reachable true capture_busy :=
    Reachable.frame (vb6824_audio_enable_input boot_dev true) capture_busy
      (wire_frame VB6824_CMD_RECV_PCM [1, 2, 3])
      (Reachable.enable boot_dev true (Reachable.init boot_dev rfl rfl)) (by decide)
  ⟨hr, disable_capture_empties_and_is_idempotent true capture_busy hr⟩

/-- C12 (the code at the failing interleaving): capture is enabled and the queue
empty; the UART task dispatches the `VB6824_CMD_RECV_PCM` frame with payload
`01 02 03` and passes the test `if(g_input_enabled)`; before it goes on,
`vb6824_audio_enable_input(false)` runs and leaves capture disabled and the queue
empty; then the UART task enqueues the chunk. Capture is now disabled with a chunk
queued (`capture_stale`), a state that no sequence of operations run one after
another reaches. In it `vb6824_audio_enable_input(false)` returns at once and leaves
the chunk queued, and after `vb6824_audio_enable_input(true)` a read returns that
chunk. -/
theorem disable_races_with_frame_callback :
    (recv_pcm_test (vb6824_audio_enable_input boot_dev true)).2 = true
    ∧ (vb6824_audio_enable_input
        (recv_pcm_test (vb6824_audio_enable_input boot_dev true)).1 false).g_input_enabled = false
    ∧ (vb6824_audio_enable_input
        (recv_pcm_test (vb6824_audio_enable_input boot_dev true)).1 false).g_rx_ringbuffer.items = []
    ∧ recv_pcm_enqueue
        (vb6824_audio_enable_input
          (recv_pcm_test (vb6824_audio_enable_input boot_dev true)).1 false)
        (wire_frame VB6824_CMD_RECV_PCM [1, 2, 3]) = some capture_stale
    ∧ capture_stale.g_input_enabled = false
    ∧ capture_stale.g_rx_ringbuffer.items = [[1, 2, 3]]
    ∧ ¬ Reachable true capture_stale
    ∧ vb6824_audio_enable_input capture_stale false = capture_stale
    ∧ vb6824_audio_read 1
        (vb6824_audio_enable_input (vb6824_audio_enable_input capture_stale false) true) 40
          = some (3, [1, 2, 3],
              { capture_stale with g_input_enabled := true, g_rx_ringbuffer := ⟨400, []⟩ }) := by
  refine ⟨by decide, by decide, by decide, by decide, rfl, rfl, ?_, by decide, by decide⟩
  intro hr
  have h := reachable_disabled_empty true _ hr rfl
  exact List.cons_ne_nil _ _ h

/-- C13 (as stated, refuted): on the empty capture queue of the state after
`vb6824_init`, with nothing written, `vb6824_audio_read(data, 40)` does not return
after any number of expired receive timeouts; in particular it never returns 0. -/
theorem audio_read_never_returns_on_empty_queue :
    ¬ ∃ rounds r, vb6824_audio_read rounds boot_dev 40 = some r := by
  rintro ⟨rounds, r, h⟩
  rw [audio_read_empty boot_dev 40 rfl rounds] at h
  exact Option.noConfusion h

/-- C13 (amended): `vb6824_audio_read` called on an empty capture queue to which
nothing is written does not return: after every expired 10 ms receive timeout it
receives again, however many timeouts expire. It returns only on a queue that
holds a chunk, and then in its first round: with the length of the oldest chunk
and that chunk copied when `size` is at least that length, with 0 and nothing
copied otherwise, the chunk being taken out of the queue in both cases. -/
theorem audio_read_waits_for_a_chunk (st : Dev) (size : Nat) :
    (st.g_rx_ringbuffer.items = [] → ∀ rounds, vb6824_audio_read rounds st size = none)
    ∧ (∀ item rest, st.g_rx_ringbuffer.items = item :: rest → ∀ rounds,
        vb6824_audio_read (rounds + 1) st size
          = some (if size ≥ item.length then item.length else 0,
                  if size ≥ item.length then item else [],
                  { st with g_rx_ringbuffer := { st.g_rx_ringbuffer with items := rest } })) := by
  refine ⟨audio_read_empty st size, ?_⟩
  intro item rest h rounds
  rw [vb6824_audio_read]
  simp only [xRingbufferReceive, h]
  split_ifs <;> rfl

/-- Witness of `audio_read_waits_for_a_chunk`: the empty queue of `boot_dev`, where
the read keeps waiting, and the queue of `capture_busy`, where it returns the
three queued bytes. -/
theorem audio_read_waits_for_a_chunk_witness :
    (boot_dev.g_rx_ringbuffer.items = [] ∧ ∀ rounds, vb6824_audio_read rounds boot_dev 40 = none)
    ∧ (capture_busy.g_rx_ringbuffer.items = [[1, 2, 3]] ∧ ∀ rounds,
        vb6824_audio_read (rounds + 1) capture_busy 40
          = some (3, [1, 2, 3],
              { capture_busy with g_rx_ringbuffer := ⟨400, []⟩ })) :=
  ⟨⟨rfl, (audio_read_waits_for_a_chunk boot_dev 40).1 rfl⟩,
   ⟨rfl, fun rounds =>
      (audio_read_waits_for_a_chunk capture_busy 40).2 [1, 2, 3] [] rfl rounds⟩⟩

/-- C16: with OTA support compiled in and both callbacks registered, for every
`VB6824_CMD_RECV_CTL` frame dispatched by `__vb6824_frame_cb`: when the payload
text (the bytes before the first NUL) equals the sentinel, exactly the event
`VB6824_EVT_OTA_ENTER` with data 0 is raised and the voice-command callback is not
invoked; for any other payload text, when `jl_ws_is_start()` is not 1, the
voice-command callback is invoked exactly once, with the payload and the payload
length of the frame, and no event is raised. Nothing else of the state changes. -/
theorem control_text_dispatch (st : Dev) (f : List Nat)
    (hcmd : frame_cmd f = VB6824_CMD_RECV_CTL)
    (hc : st.g_voice_command_cb = true) (he : st.g_voice_event_cb = true) :
    (c_str (frame_data f) = OTA_SENTINEL →
      __vb6824_frame_cb true st f
        = some { st with calls := st.calls ++ [Call.voice_event VB6824_EVT_OTA_ENTER 0] })
    ∧ (c_str (frame_data f) ≠ OTA_SENTINEL → st.jl_ws_is_start ≠ 1 →
      __vb6824_frame_cb true st f
        = some { st with calls := st.calls ++ [Call.voice_command (frame_data f) (frame_len f)] }) := by
  have h1 : VB6824_CMD_RECV_CTL ≠ VB6824_CMD_RECV_PCM := by decide
  constructor
  · intro hs
    unfold __vb6824_frame_cb
    simp [hcmd, h1, hs, he]
  · intro hs hw
    unfold __vb6824_frame_cb
    simp [hcmd, h1, hs, hw, hc]

/-- Witness of `control_text_dispatch`: in the state after `vb6824_init` (both
callbacks registered, web server not running), the frame carrying the sentinel
raises the enter event, and the frame carrying the text `J` reaches the
voice-command callback. -/
theorem control_text_dispatch_witness :
    (frame_cmd (wire_frame VB6824_CMD_RECV_CTL OTA_SENTINEL) = VB6824_CMD_RECV_CTL
      ∧ frame_cmd (wire_frame VB6824_CMD_RECV_CTL [0x4A]) = VB6824_CMD_RECV_CTL
      ∧ boot_dev.g_voice_command_cb = true ∧ boot_dev.g_voice_event_cb = true
      ∧ c_str (frame_data (wire_frame VB6824_CMD_RECV_CTL OTA_SENTINEL)) = OTA_SENTINEL
      ∧ c_str (frame_data (wire_frame VB6824_CMD_RECV_CTL [0x4A])) ≠ OTA_SENTINEL
      ∧ boot_dev.jl_ws_is_start ≠ 1) ∧
    __vb6824_frame_cb true boot_dev (wire_frame VB6824_CMD_RECV_CTL OTA_SENTINEL)
        = some { boot_dev with calls := [Call.voice_event VB6824_EVT_OTA_ENTER 0] }
    ∧ __vb6824_frame_cb true boot_dev (wire_frame VB6824_CMD_RECV_CTL [0x4A])
        = some { boot_dev with calls := [Call.voice_command [0x4A] 1] } :=
  ⟨by decide,
   (control_text_dispatch boot_dev (wire_frame VB6824_CMD_RECV_CTL OTA_SENTINEL)
      (by decide) (by decide) (by decide)).1 (by decide),
   (control_text_dispatch boot_dev (wire_frame VB6824_CMD_RECV_CTL [0x4A])
      (by decide) (by decide) (by decide)).2 (by decide) (by decide)⟩

set_option maxRecDepth 100000 in
/-- C17 (the code at the failing inputs): the wake-word report is copied with
`strncpy(s_wakeup_word, frame->data, frame->len)`, bounded by the frame and not by
the 32 bytes of the cache. (1) For a report of 33 bytes `41` the copy stores 33
bytes, past the end of `s_wakeup_word`. (2) For a report of 32 bytes `41` the cache
holds 32 bytes `41` and no NUL, so `vb6824_get_wakeup_word` returns a string that
is not terminated inside the cache. -/
theorem wakeup_word_not_bounded_by_cache :
    __vb6824_frame_cb true boot_dev
        (wire_frame VB6824_CMD_RECV_WAKEUP_WORD (List.replicate 33 0x41)) = none
    ∧ ∃ st', __vb6824_frame_cb true boot_dev
          (wire_frame VB6824_CMD_RECV_WAKEUP_WORD (List.replicate 32 0x41)) = some st'
        ∧ vb6824_get_wakeup_word st' = List.replicate 32 0x41
        ∧ 0 ∉ vb6824_get_wakeup_word st' := by
  refine ⟨by decide, { boot_dev with s_wait_fresh_wakeup_word := 0,
                                     s_wakeup_word := List.replicate 32 0x41 }, ?_, ?_, ?_⟩
  · decide
  · rfl
  · decide

/-- C14 (the code at the failing input): playback is enabled with the chunk
`01 02 03` queued, then `vb6824_audio_enable_output(false)` is called. The next
tick of `__send_timer_cb`, which never reads `g_output_enabled`, takes the chunk
and writes it to the transport as a `VB6824_CMD_SEND_PCM` frame, in the chunked
configuration and in the byte-buffer configuration alike. A round of `__send_task`
in the same state writes nothing. -/
theorem timer_tick_sends_while_playback_disabled :
    (vb6824_audio_enable_output playback_busy false).g_output_enabled = false
    ∧ (__send_timer_cb 40 xRingbufferReceive
          (vb6824_audio_enable_output playback_busy false)).uart
        = [wire_frame VB6824_CMD_SEND_PCM [1, 2, 3]]
    ∧ (__send_timer_cb 320 (xRingbufferReceiveUpTo 320)
          (vb6824_audio_enable_output playback_busy false)).uart
        = [wire_frame VB6824_CMD_SEND_PCM [1, 2, 3]]
    ∧ __send_task_round 40 xRingbufferReceive (vb6824_audio_enable_output playback_busy false)
        = some (vb6824_audio_enable_output playback_busy false) := by
  decide

/-- C18 (as stated, refuted): the status returned while the flag
`s_wait_fresh_wakeup_word` is set does not differ from the status of a fresh
handshake that is started successfully. In the state after `vb6824_init` the flag
is set and `vb6824_ota("1234", cb)` returns 1; in the state `ota_ready`, where the
flag is clear, the call writes the mode-switch frame, arms the timer and returns 1
as well. -/
theorem ota_status_same_while_waiting :
    boot_sys.dev.s_wait_fresh_wakeup_word ≠ 0
    ∧ (vb6824_ota 320 true boot_sys [0x31, 0x32, 0x33, 0x34] true).1 = 1
    ∧ ota_ready.dev.s_wait_fresh_wakeup_word = 0
    ∧ (vb6824_ota 320 true ota_ready [0x31, 0x32, 0x33, 0x34] true).1 = 1
    ∧ (vb6824_ota 320 true ota_ready [0x31, 0x32, 0x33, 0x34] true).2.uart
        = [wire_frame VB6824_CMD_SEND_OTA [0x01]]
    ∧ (vb6824_ota 320 true ota_ready [0x31, 0x32, 0x33, 0x34] true).2.effects
        = [Effect.jl_ota_set_code [0x31, 0x32, 0x33, 0x34], Effect.timer_start_once 500000] := by
  decide

/-- C18 (amended): for every code and callback, `vb6824_ota` called while the flag
`s_wait_fresh_wakeup_word` is still set returns at once with status 1, the status
it also returns for a fresh handshake whose timer is armed; it writes no frame to
the transport and does not arm the retry timer. What it does instead: it stores
the callback and the code, raises `VB6824_EVT_OTA_START` when an event callback is
registered, calls `jl_ota_start` and sets the mode to OTA. -/
theorem ota_while_waiting_starts_transfer (chunk : Nat) (create_ok : Bool) (st : Sys)
    (code : List Nat) (evt_cb : Bool) (hw : st.dev.s_wait_fresh_wakeup_word ≠ 0) :
    (vb6824_ota chunk create_ok st code evt_cb).1 = 1
    ∧ (vb6824_ota chunk create_ok st code evt_cb).2.uart = st.uart
    ∧ (vb6824_ota chunk create_ok st code evt_cb).2.effects
        = st.effects ++ [Effect.jl_ota_set_code code]
    ∧ (vb6824_ota chunk create_ok st code evt_cb).2.start_ota_timer = st.start_ota_timer
    ∧ (vb6824_ota chunk create_ok st code evt_cb).2.s_ota_evt = evt_cb
    ∧ (vb6824_ota chunk create_ok st code evt_cb).2.dev.s_mode = VB6824_MODE_OTA
    ∧ (vb6824_ota chunk create_ok st code evt_cb).2.dev.calls
        = st.dev.calls
          ++ (if st.dev.g_voice_event_cb then [Call.voice_event VB6824_EVT_OTA_START 0] else [])
          ++ [Call.jl_ota_start]
    ∧ ∀ st0 : Sys, st0.dev.s_wait_fresh_wakeup_word = 0 →
        (st0.start_ota_timer = true ∨ create_ok = true) →
        (vb6824_ota chunk create_ok st0 code evt_cb).1 = 1
        ∧ Effect.timer_start_once 500000 ∈ (vb6824_ota chunk create_ok st0 code evt_cb).2.effects := by
  refine ⟨?_, ?_, ?_, ?_, ?_, ?_, ?_, ?_⟩
  · unfold vb6824_ota; simp [hw]
  · unfold vb6824_ota; simp [hw]
  · unfold vb6824_ota; simp [hw]
  · unfold vb6824_ota; simp [hw]
  · unfold vb6824_ota; simp [hw]
  · unfold vb6824_ota; simp [hw]
  · unfold vb6824_ota
    cases hq : st.dev.g_voice_event_cb <;> simp [hw, hq]
  · intro st0 h0 ht
    unfold vb6824_ota
    simp only [h0, send_frame]
    rcases ht with ht | ht
    · simp [ht]
    · cases hq : st0.start_ota_timer <;> simp [hq, ht]

/-- Witness of `ota_while_waiting_starts_transfer`: `vb6824_ota("1234", cb)` in the
state after `vb6824_init`, where the flag is still set. -/
theorem ota_while_waiting_starts_transfer_witness :
    boot_sys.dev.s_wait_fresh_wakeup_word ≠ 0
    ∧ (vb6824_ota 320 true boot_sys [0x31, 0x32, 0x33, 0x34] true).1 = 1
    ∧ (vb6824_ota 320 true boot_sys [0x31, 0x32, 0x33, 0x34] true).2.uart = boot_sys.uart
    ∧ (vb6824_ota 320 true boot_sys [0x31, 0x32, 0x33, 0x34] true).2.effects
        = boot_sys.effects ++ [Effect.jl_ota_set_code [0x31, 0x32, 0x33, 0x34]] :=
  ⟨by decide,
   (ota_while_waiting_starts_transfer 320 true boot_sys [0x31, 0x32, 0x33, 0x34] true
      (by decide)).1,
   (ota_while_waiting_starts_transfer 320 true boot_sys [0x31, 0x32, 0x33, 0x34] true
      (by decide)).2.1,
   (ota_while_waiting_starts_transfer 320 true boot_sys [0x31, 0x32, 0x33, 0x34] true
      (by decide)).2.2.1⟩

/-- C19 (the code at the failing input): during an OTA transfer (`ota_running`)
the event `JL_OTA_FAIL` arrives with data 7; `s_wakeup_word` lies at address
`0x3FC9A000`. The case `JL_OTA_FAIL` has no `break` and runs on into the success
case. (1) When the voice module reports its wake word during the first sleep of
the polling loop, the function returns with the mode reverted to audio, one
request frame written, and the registered callback invoked once, with the failure
event and the address of `s_wakeup_word` as data instead of 7. (2) When no report
arrives, then after any number of rounds the function has not returned and the
callback has not been invoked. -/
theorem ota_fail_data_overwritten :
    (vb_ota_evt_cb 320 0x3FC9A000
        (fun k => if k = 0 then some (wire_frame VB6824_CMD_RECV_WAKEUP_WORD [0x41]) else none)
        5 ota_running JL_OTA_FAIL 7).2 = true
    ∧ (vb_ota_evt_cb 320 0x3FC9A000
        (fun k => if k = 0 then some (wire_frame VB6824_CMD_RECV_WAKEUP_WORD [0x41]) else none)
        5 ota_running JL_OTA_FAIL 7).1.effects = [Effect.ota_evt JL_OTA_FAIL 0x3FC9A000]
    ∧ (vb_ota_evt_cb 320 0x3FC9A000
        (fun k => if k = 0 then some (wire_frame VB6824_CMD_RECV_WAKEUP_WORD [0x41]) else none)
        5 ota_running JL_OTA_FAIL 7).1.dev.s_mode = VB6824_MODE_AUDIO
    ∧ (vb_ota_evt_cb 320 0x3FC9A000
        (fun k => if k = 0 then some (wire_frame VB6824_CMD_RECV_WAKEUP_WORD [0x41]) else none)
        5 ota_running JL_OTA_FAIL 7).1.uart
        = [wire_frame VB6824_CMD_SEND_GET_WAKEUP_WORD [0]]
    ∧ ∀ rounds,
        (vb_ota_evt_cb 320 0x3FC9A000 (fun _ => none) rounds ota_running JL_OTA_FAIL 7).2 = false
        ∧ (vb_ota_evt_cb 320 0x3FC9A000 (fun _ => none) rounds ota_running JL_OTA_FAIL 7).1.effects
            = [] := by
  refine ⟨by decide, by decide, by decide, by decide, ?_⟩
  intro rounds
  rw [ota_evt_poll_silent 320 _ (by decide) rounds ota_running JL_OTA_FAIL 7 (Or.inl rfl)
    (by decide)]
  exact ⟨rfl, rfl⟩

/-- C20 (the code at the failing input): during an OTA transfer (`ota_running`,
flag `s_wait_fresh_wakeup_word` set by `JL_OTA_START`) the event `JL_OTA_SUCCESS`
arrives and no wake-word report ever follows. The polling loop of `vb_ota_evt_cb`
has no attempt counter: after `rounds` rounds, for every `rounds`, it has written
`rounds` get-wake-word request frames, the function has not returned, and neither
the registered callback nor `esp_restart` has been called. -/
theorem ota_success_polls_without_bound (rounds : Nat) :
    (vb_ota_evt_cb 320 0x3FC9A000 (fun _ => none) rounds ota_running JL_OTA_SUCCESS 0).2 = false
    ∧ (vb_ota_evt_cb 320 0x3FC9A000 (fun _ => none) rounds ota_running JL_OTA_SUCCESS 0).1.uart
        = List.replicate rounds (wire_frame VB6824_CMD_SEND_GET_WAKEUP_WORD [0])
    ∧ (vb_ota_evt_cb 320 0x3FC9A000 (fun _ => none) rounds ota_running JL_OTA_SUCCESS 0).1.effects
        = [] := by
  rw [ota_evt_poll_silent 320 _ (by decide) rounds ota_running JL_OTA_SUCCESS 0 (Or.inr rfl)
    (by decide)]
  exact ⟨rfl, rfl, rfl⟩

/-- C21: the task scheduled for a `tts` message with state `stop`, for every device
state and listening mode. When the device state is Speaking it becomes Idle under
the listening mode manual-stop and Listening under every other listening mode; in
every other device state the task only waits for the background task and leaves
the application as it is. The listening mode is never changed. `is_running` is
what the audio processor answers to `IsRunning()`. -/
theorem tts_stop_task_transitions (is_running : Bool) (app : App) :
    (app.device_state_ = DeviceState.kDeviceStateSpeaking →
      app.listening_mode_ = ListeningMode.kListeningModeManualStop →
      (tts_stop_task is_running app).device_state_ = DeviceState.kDeviceStateIdle)
    ∧ (app.device_state_ = DeviceState.kDeviceStateSpeaking →
      app.listening_mode_ ≠ ListeningMode.kListeningModeManualStop →
      (tts_stop_task is_running app).device_state_ = DeviceState.kDeviceStateListening)
    ∧ (app.device_state_ ≠ DeviceState.kDeviceStateSpeaking →
      tts_stop_task is_running app = app.log [AppCall.WaitForCompletion]
      ∧ (tts_stop_task is_running app).device_state_ = app.device_state_)
    ∧ (tts_stop_task is_running app).listening_mode_ = app.listening_mode_ := by
  refine ⟨?_, ?_, ?_, ?_⟩
  · intro hs hm
    unfold tts_stop_task
    simp only [App.log, hs, hm, if_true]
    exact (SetDeviceState_state _ _ _).1
  · intro hs hm
    unfold tts_stop_task
    simp only [App.log, hs, hm, if_true, if_false]
    exact (SetDeviceState_state _ _ _).1
  · intro hs
    unfold tts_stop_task
    simp only [App.log, hs, if_false]
    exact ⟨trivial, trivial⟩
  · unfold tts_stop_task
    simp only []
    split_ifs
    · exact (SetDeviceState_state _ _ _).2.1
    · exact (SetDeviceState_state _ _ _).2.1
    · rfl

/-- C22 (as stated, refuted): from an application in the state
`kDeviceStateFatalError`, the direct call `SetDeviceState(kDeviceStateIdle)`, the
task scheduled when the audio channel is closed, and the network-error handler
each leave the device state at `kDeviceStateIdle`. -/
theorem fatal_error_left_for_idle :
    fatal_app.device_state_ = DeviceState.kDeviceStateFatalError
    ∧ (SetDeviceState false fatal_app DeviceState.kDeviceStateIdle).device_state_
        = DeviceState.kDeviceStateIdle
    ∧ (channel_closed_task false fatal_app).device_state_ = DeviceState.kDeviceStateIdle
    ∧ (OnNetworkError false fatal_app "lost" [[1, 2, 3]]).map App.device_state_
        = some DeviceState.kDeviceStateIdle := by
  decide

/-- C22 (amended): `kDeviceStateFatalError` is not terminal. From an application in
that state, a call `SetDeviceState(state)` sets the device state to `state`,
whatever `state` is; the task scheduled when the audio channel is closed and the
network-error handler set it to `kDeviceStateIdle`; the tasks scheduled for speech
start and speech stop leave it at `kDeviceStateFatalError`. -/
theorem fatal_error_not_terminal (is_running : Bool) (app : App)
    (h : app.device_state_ = DeviceState.kDeviceStateFatalError) :
    (∀ state, (SetDeviceState is_running app state).device_state_ = state)
    ∧ (channel_closed_task is_running app).device_state_ = DeviceState.kDeviceStateIdle
    ∧ (∀ message sound, ∃ app', OnNetworkError is_running app message sound = some app'
        ∧ app'.device_state_ = DeviceState.kDeviceStateIdle)
    ∧ (tts_start_task is_running app).device_state_ = DeviceState.kDeviceStateFatalError
    ∧ (tts_stop_task is_running app).device_state_ = DeviceState.kDeviceStateFatalError := by
  refine ⟨fun state => (SetDeviceState_state is_running app state).1,
    (SetDeviceState_state is_running _ _).1, ?_, ?_, ?_⟩
  · intro message sound
    obtain ⟨app', h1, h2⟩ := Alert_state
      (SetDeviceState is_running app DeviceState.kDeviceStateIdle) "ERROR" message "sad" sound
    exact ⟨app', h1, h2.trans (SetDeviceState_state _ _ _).1⟩
  · unfold tts_start_task
    simp [h]
  · unfold tts_stop_task
    simp [App.log, h]

/-- Witness of `fatal_error_not_terminal`: the application `fatal_app`. -/
theorem fatal_error_not_terminal_witness :
    fatal_app.device_state_ = DeviceState.kDeviceStateFatalError
    ∧ (∀ state, (SetDeviceState true fatal_app state).device_state_ = state)
    ∧ (tts_stop_task true fatal_app).device_state_ = DeviceState.kDeviceStateFatalError :=
  ⟨rfl, (fatal_error_not_terminal true fatal_app rfl).1,
   (fatal_error_not_terminal true fatal_app rfl).2.2.2.2⟩

/-- C23: the callbacks passed to `Application::Schedule` and the main event loop.
(1) For every list `cbs` of callbacks passed to `Schedule`, one call after the
other, the main loop then runs exactly these callbacks, each once, in the order
passed: after `cbs.length + 3` of its moves, and after any `m` more, the callbacks
run are `cbs`. (2) For every interleaving `evs` of the statements of calls of
`Schedule` with moves of the main loop, the callbacks run so far, then those of
the batch being run, then those waiting in `main_tasks_`, are the callbacks
enqueued, each once, in the order of their `push_back`: callbacks run one at a
time, in that order, none twice and none skipped. (3) After any such interleaving,
once the calls of `Schedule` under way have set the bit, the main loop runs every
callback enqueued: the callbacks run are then exactly those enqueued, in order.
(4) After any further moves `evs'`, callbacks enqueued meanwhile stand behind the
batch and the waiting ones; the callbacks run only grow; and as soon as a callback
enqueued after `evs` has run, the whole batch of that time has run before it. -/
theorem scheduled_callbacks_run_once_in_order {α : Type} (cbs : List α)
    (evs evs' : List (Ev α)) (m : Nat) :
    ((cbs.foldl Schedule (sched_init α)).exec
        (List.replicate (cbs.length + 3 + m) Ev.loop)).ran = cbs
    ∧ ((sched_init α).exec evs).ran ++ ((sched_init α).exec evs).batch
        ++ ((sched_init α).exec evs).main_tasks_ = pushes evs
    ∧ ((((sched_init α).exec evs).exec (List.replicate (pushes evs).length Ev.set_bits)).exec
        (List.replicate ((pushes evs).length + 3 + m) Ev.loop)).ran = pushes evs
    ∧ (((sched_init α).exec evs).exec evs').ran ++ (((sched_init α).exec evs).exec evs').batch
        ++ (((sched_init α).exec evs).exec evs').main_tasks_
      = ((sched_init α).exec evs).ran ++ ((sched_init α).exec evs).batch
        ++ ((sched_init α).exec evs).main_tasks_ ++ pushes evs'
    ∧ ((sched_init α).exec evs).ran <+: (((sched_init α).exec evs).exec evs').ran
    ∧ ((pushes evs).length < (((sched_init α).exec evs).exec evs').ran.length →
        ((sched_init α).exec evs).ran ++ ((sched_init α).exec evs).batch
          <+: (((sched_init α).exec evs).exec evs').ran) := by
  have h1 : ((sched_init α).exec evs).order = pushes evs := by
    rw [(sched_exec_order evs (sched_init α)).1]; rfl
  have h2 := sched_exec_order evs' ((sched_init α).exec evs)
  refine ⟨sched_Schedule_drain cbs _ (by omega), h1,
    sched_complete_drain evs _ (by omega), h2.1, h2.2, ?_⟩
  intro hl
  have a : (((sched_init α).exec evs).exec evs').ran
      <+: ((sched_init α).exec evs).order ++ pushes evs' := by
    rw [← h2.1]
    simp only [Sched.order, List.append_assoc]
    exact List.prefix_append _ _
  have b : ((sched_init α).exec evs).ran ++ ((sched_init α).exec evs).batch
      <+: ((sched_init α).exec evs).order ++ pushes evs' := by
    simp only [Sched.order, List.append_assoc]
    rw [← List.append_assoc]
    exact List.prefix_append _ _
  refine List.prefix_of_prefix_length_le b a ?_
  have c : (((sched_init α).exec evs).ran ++ ((sched_init α).exec evs).batch).length
      ≤ (pushes evs).length := by
    rw [← h1]
    simp only [Sched.order, List.length_append]
    omega
  omega

/-- Witness of `scheduled_callbacks_run_once_in_order`: the callbacks 1, 2, 3. Passed
to `Schedule` one call after the other, they have run in that order after six moves
of the main loop. In the interleaving where 1 and 2 are pushed, one call sets the
bit, the main loop wakes and takes both, 3 is pushed, and the main loop runs 1 and
2, the callback 3 waits in `main_tasks_` behind the batch; once the two calls under
way have set the bit, the main loop runs it as the third. -/
theorem scheduled_callbacks_run_once_in_order_witness :
    (([1, 2, 3].foldl Schedule (sched_init Nat)).exec (List.replicate 6 Ev.loop)).ran = [1, 2, 3]
    ∧ ((sched_init Nat).exec [Ev.push 1, Ev.push 2, Ev.set_bits, Ev.loop, Ev.loop, Ev.push 3,
        Ev.loop, Ev.loop]).ran = [1, 2]
    ∧ ((sched_init Nat).exec [Ev.push 1, Ev.push 2, Ev.set_bits, Ev.loop, Ev.loop, Ev.push 3,
        Ev.loop, Ev.loop]).main_tasks_ = [3]
    ∧ ((((sched_init Nat).exec [Ev.push 1, Ev.push 2, Ev.set_bits, Ev.loop, Ev.loop, Ev.push 3,
        Ev.loop, Ev.loop]).exec (List.replicate 3 Ev.set_bits)).exec
        (List.replicate 6 Ev.loop)).ran = [1, 2, 3] :=
  ⟨(scheduled_callbacks_run_once_in_order [1, 2, 3] [] [] 0).1, by decide, by decide,
   (scheduled_callbacks_run_once_in_order ([] : List Nat)
      [Ev.push 1, Ev.push 2, Ev.set_bits, Ev.loop, Ev.loop, Ev.push 3, Ev.loop, Ev.loop]
      [] 0).2.2.1⟩

/-- C24 (the code at the failing inputs): a candidate header that starts where
fewer than 7 bytes remain is not retained. Whenever the accumulated bytes (7 to 1038
of them) carry the header bytes at no offset with 7 or more bytes remaining, the
scan runs through the last six offsets without stopping, each round copying a
shorter tail to the front, and returns with exactly one byte retained; the bytes
from an offset `c` with two or more bytes remaining, a candidate header among
them, are therefore not the carry-over. For the `VB6824_CMD_RECV_CTL` frame
`55 AA 00 01 01 80 4A CB` split after its fourth byte behind nine bytes of noise,
the first feed retains only the byte `01`, and the second feed delivers no
frame. -/
theorem tail_candidate_keeps_one_byte (tmp data : List Nat)
    (h7 : 7 ≤ (tmp ++ data).length) (hmax : (tmp ++ data).length ≤ TMP_DATA_SIZE)
    (hno : ∀ j, j + 7 ≤ (tmp ++ data).length → rd16 (tmp ++ data) j ≠ FRAME_HEAD) :
    (∃ b, __frame_parse_data tmp data = ⟨[], Halt.ret [b]⟩)
    ∧ (∀ c, c + 2 ≤ (tmp ++ data).length →
        (__frame_parse_data tmp data).halt ≠ Halt.ret ((tmp ++ data).drop c))
    ∧ feed_all [] [[1, 2, 3, 4, 5, 6, 7, 8, 9, 0x55, 0xAA, 0x00, 0x01], [0x01, 0x80, 0x4A, 0xCB]]
        = ⟨[], Halt.ret [0x01, 0x01, 0x80, 0x4A, 0xCB]⟩ := by
  obtain ⟨b, hb⟩ := frame_parse_data_tail tmp data h7 hmax hno
  refine ⟨⟨b, hb⟩, ?_, by decide⟩
  intro c hc2
  rw [hb]
  intro h
  simp only [Halt.ret.injEq] at h
  have hl := congrArg List.length h
  simp only [List.length_singleton, List.length_drop] at hl
  omega

/-- Witness of `tail_candidate_keeps_one_byte`: nine bytes of noise followed by the
first four bytes `55 AA 00 01` of a frame, the candidate header at offset 9. -/
theorem tail_candidate_keeps_one_byte_witness :
    (7 ≤ ([] ++ [1, 2, 3, 4, 5, 6, 7, 8, 9, 0x55, 0xAA, 0x00, 0x01]).length
      ∧ rd16 ([] ++ [1, 2, 3, 4, 5, 6, 7, 8, 9, 0x55, 0xAA, 0x00, 0x01]) 9 = FRAME_HEAD)
    ∧ __frame_parse_data [] [1, 2, 3, 4, 5, 6, 7, 8, 9, 0x55, 0xAA, 0x00, 0x01]
        = ⟨[], Halt.ret [0x01]⟩
    ∧ (__frame_parse_data [] [1, 2, 3, 4, 5, 6, 7, 8, 9, 0x55, 0xAA, 0x00, 0x01]).halt
        ≠ Halt.ret (([] ++ [1, 2, 3, 4, 5, 6, 7, 8, 9, 0x55, 0xAA, 0x00, 0x01]).drop 9) :=
  ⟨by decide, by decide,
    (tail_candidate_keeps_one_byte [] [1, 2, 3, 4, 5, 6, 7, 8, 9, 0x55, 0xAA, 0x00, 0x01]
      (by decide) (by decide)
      (fun j hj => by
        have hj6 : j ≤ 6 := by simpa using hj
        interval_cases j <;> decide)).2.1 9 (by decide)⟩

/-- C25: one expiry of the OTA start retry timer. When the mode is not OTA,
`__start_ota_timer_cb` writes exactly one frame to the transport, the
`VB6824_CMD_SEND_OTA` frame with the single payload byte `01` (the bytes
`55 AA 00 01 02 05 01 08`), and rearms the timer once for 500000 microseconds;
when the mode is OTA it writes nothing and does not rearm: the state is left as it
is. `chunk` is `AUDIO_SEND_CHENK_LEN`. -/
theorem ota_retry_timer_resends_unless_ota (chunk : Nat) (st : Sys) (hc : 1 ≤ chunk) :
    (st.dev.s_mode ≠ VB6824_MODE_OTA →
      __start_ota_timer_cb chunk st
        = { st with uart := st.uart ++ [[0x55, 0xAA, 0x00, 0x01, 0x02, 0x05, 0x01, 0x08]],
                    effects := st.effects ++ [Effect.timer_start_once 500000] })
    ∧ (st.dev.s_mode = VB6824_MODE_OTA → __start_ota_timer_cb chunk st = st) := by
  constructor
  · intro h
    unfold __start_ota_timer_cb
    rw [if_pos h, send_frame_byte chunk _ _ st hc]
    rfl
  · intro h
    unfold __start_ota_timer_cb
    rw [if_neg (fun hn => hn h)]

/-- Witness of `ota_retry_timer_resends_unless_ota`: under
`AUDIO_SEND_CHENK_LEN = 40`, the module after `vb6824_init` (audio mode), where the
frame is resent and the timer rearmed, and the module in the middle of a transfer
(OTA mode), where nothing happens. -/
theorem ota_retry_timer_resends_unless_ota_witness :
    (1 ≤ 40 ∧ boot_sys.dev.s_mode ≠ VB6824_MODE_OTA ∧ ota_running.dev.s_mode = VB6824_MODE_OTA)
    ∧ __start_ota_timer_cb 40 boot_sys
        = { boot_sys with uart := [[0x55, 0xAA, 0x00, 0x01, 0x02, 0x05, 0x01, 0x08]],
                          effects := [Effect.timer_start_once 500000] }
    ∧ __start_ota_timer_cb 40 ota_running = ota_running :=
  ⟨by decide,
   (ota_retry_timer_resends_unless_ota 40 boot_sys (by decide)).1 (by decide),
   (ota_retry_timer_resends_unless_ota 40 ota_running (by decide)).2 (by decide)⟩

/-- C26: whatever the accumulator and the chunk hold, when `__frame_parse_data`
returns, the number of bytes it retains for the next call is at most 518, strictly
less than `FRAME_MAX_LIN`. (A call whose append does not fit the 1038-byte buffer,
or that loads a checksum byte behind a wrapped 16-bit frame length, ends in a fault
and retains nothing.) The bound is attained: of a frame that declares 512 payload
bytes and lacks only its checksum byte, all 518 bytes are retained. -/
theorem carry_over_at_most_518 (tmp data t : List Nat)
    (h : (__frame_parse_data tmp data).halt = Halt.ret t) :
    t.length ≤ 518 ∧ t.length < FRAME_MAX_LIN
    ∧ ∃ u, (__frame_parse_data [] (frame_body 0 (List.replicate 512 0))).halt = Halt.ret u
        ∧ u.length = 518 := by
  have h1 := frame_parse_data_carry tmp data t h
  refine ⟨h1, ?_, frame_parse_data_carry_518⟩
  simp only [FRAME_MAX_LIN]
  omega

/-- Witness of `carry_over_at_most_518`: the accumulator `09` and a chunk with the
first seven bytes of a frame that declares one payload byte; the seven bytes
it receives are retained, from the candidate offset 1 on. -/
theorem carry_over_at_most_518_witness :
    (__frame_parse_data [9] [0x55, 0xAA, 0x00, 0x01, 0x01, 0x80, 0x4A]).halt
        = Halt.ret [0x55, 0xAA, 0x00, 0x01, 0x01, 0x80, 0x4A]
    ∧ [0x55, 0xAA, 0x00, 0x01, 0x01, 0x80, 0x4A].length ≤ 518
    ∧ [0x55, 0xAA, 0x00, 0x01, 0x01, 0x80, 0x4A].length < FRAME_MAX_LIN :=
  ⟨by decide,
   (carry_over_at_most_518 [9] [0x55, 0xAA, 0x00, 0x01, 0x01, 0x80, 0x4A]
      [0x55, 0xAA, 0x00, 0x01, 0x01, 0x80, 0x4A] (by decide)).1,
   (carry_over_at_most_518 [9] [0x55, 0xAA, 0x00, 0x01, 0x01, 0x80, 0x4A]
      [0x55, 0xAA, 0x00, 0x01, 0x01, 0x80, 0x4A] (by decide)).2.1⟩

/-- C27: for every volume `v` from 0 to 100, `vb6824_audio_set_output_volume(v)`
writes exactly one frame to the transport, the `VB6824_CMD_SEND_VOLUM` frame whose
single payload byte is `31 * v / 100` rounded down; that byte is at most 31 and does
not decrease when `v` grows; for `v = 0` the frame is `55 AA 00 01 02 03 00 05`
(payload byte 0), for `v = 100` it is `55 AA 00 01 02 03 1F 24` (payload byte 31).
`chunk` is `AUDIO_SEND_CHENK_LEN`. -/
theorem set_output_volume_frame (chunk v : Nat) (st : Sys) (hc : 1 ≤ chunk) (hv : v ≤ 100) :
    vb6824_audio_set_output_volume chunk v st
      = { st with uart := st.uart ++ [wire_frame VB6824_CMD_SEND_VOLUM [31 * v / 100]] }
    ∧ frame_data (wire_frame VB6824_CMD_SEND_VOLUM [31 * v / 100]) = [31 * v / 100]
    ∧ 31 * v / 100 ≤ 31
    ∧ (∀ w, w ≤ v →
        ∃ a b, vb6824_audio_set_output_volume chunk w st
            = { st with uart := st.uart ++ [wire_frame VB6824_CMD_SEND_VOLUM [a]] }
          ∧ vb6824_audio_set_output_volume chunk v st
            = { st with uart := st.uart ++ [wire_frame VB6824_CMD_SEND_VOLUM [b]] }
          ∧ a ≤ b)
    ∧ vb6824_audio_set_output_volume chunk 0 st
      = { st with uart := st.uart ++ [[0x55, 0xAA, 0x00, 0x01, 0x02, 0x03, 0x00, 0x05]] }
    ∧ vb6824_audio_set_output_volume chunk 100 st
      = { st with uart := st.uart ++ [[0x55, 0xAA, 0x00, 0x01, 0x02, 0x03, 0x1F, 0x24]] } := by
  have key : ∀ w, w ≤ 100 → vb6824_audio_set_output_volume chunk w st
      = { st with uart := st.uart ++ [wire_frame VB6824_CMD_SEND_VOLUM [31 * w / 100]] } := by
    intro w hw
    unfold vb6824_audio_set_output_volume
    simp only []
    rw [send_frame_byte chunk _ _ st hc]
    have e1 : w % 256 = w := Nat.mod_eq_of_lt (by omega)
    have e2 : w * 31 / 100 < 256 := by omega
    rw [e1, Nat.mod_eq_of_lt e2, Nat.mul_comm w 31]
  refine ⟨key v hv, ?_, by omega, ?_, ?_, ?_⟩
  · exact frame_data_wire _ _ (by simp)
  · intro w hw
    exact ⟨31 * w / 100, 31 * v / 100, key w (by omega), key v hv, by omega⟩
  · rw [key 0 (by omega)]; rfl
  · rw [key 100 (by omega)]; rfl

/-- Witness of `set_output_volume_frame`: volume 50 under `AUDIO_SEND_CHENK_LEN = 40`
on the module after `vb6824_init`; the payload byte is 15. -/
theorem set_output_volume_frame_witness :
    (1 ≤ 40 ∧ 50 ≤ 100)
    ∧ vb6824_audio_set_output_volume 40 50 boot_sys
      = { boot_sys with uart := boot_sys.uart ++ [wire_frame VB6824_CMD_SEND_VOLUM [31 * 50 / 100]] } :=
  ⟨by decide, (set_output_volume_frame 40 50 boot_sys (by decide) (by decide)).1⟩

/-- C28: `vb6824_audio_read` in the chunked configurations, on a capture queue whose
oldest chunk is `item`. With `size` smaller than the length of `item` it returns 0
and copies nothing, and the chunk is nevertheless taken out of the queue, which is
left holding the chunks behind it: the chunk is lost. With `size` at least the
length of `item` it returns that length and copies exactly `item`. In both cases
it returns in its first round. -/
theorem audio_read_short_buffer_loses_chunk (st : Dev) (size : Nat) (item : List Nat)
    (rest : List (List Nat)) (rounds : Nat) (h : st.g_rx_ringbuffer.items = item :: rest) :
    (size < item.length →
      vb6824_audio_read (rounds + 1) st size
        = some (0, [], { st with g_rx_ringbuffer := { st.g_rx_ringbuffer with items := rest } }))
    ∧ (item.length ≤ size →
      vb6824_audio_read (rounds + 1) st size
        = some (item.length, item,
            { st with g_rx_ringbuffer := { st.g_rx_ringbuffer with items := rest } })) := by
  constructor
  · intro hs
    rw [vb6824_audio_read]
    simp only [xRingbufferReceive, h]
    rw [if_neg (by omega)]
  · intro hs
    rw [vb6824_audio_read]
    simp only [xRingbufferReceive, h]
    rw [if_pos (by omega)]

/-- Witness of `audio_read_short_buffer_loses_chunk`: the queue of `capture_busy`
holds the one chunk `01 02 03`; a read with `size = 2` returns 0 and leaves the
queue empty, a read with `size = 3` returns the chunk. -/
theorem audio_read_short_buffer_loses_chunk_witness :
    capture_busy.g_rx_ringbuffer.items = [1, 2, 3] :: []
    ∧ vb6824_audio_read (0 + 1) capture_busy 2
        = some (0, [], { capture_busy with g_rx_ringbuffer := ⟨400, []⟩ })
    ∧ vb6824_audio_read (0 + 1) capture_busy 3
        = some (3, [1, 2, 3], { capture_busy with g_rx_ringbuffer := ⟨400, []⟩ }) :=
  ⟨rfl,
   (audio_read_short_buffer_loses_chunk capture_busy 2 [1, 2, 3] [] 0 rfl).1 (by decide),
   (audio_read_short_buffer_loses_chunk capture_busy 3 [1, 2, 3] [] 0 rfl).2 (by decide)⟩

/-- C29: the incoming-audio handler, for every state of the application and every
packet. The limit `600 / OPUS_FRAME_DURATION_MS` is 10. With fewer than 10 packets
queued the packet is appended at the back of `audio_decode_queue_`; otherwise it is
dropped and the application left as it is. Hence, over any sequence of incoming
packets, the packets queued before stay at the front in their order, and a queue of
at most 10 packets never grows beyond 10. -/
theorem incoming_audio_appends_below_ten (app : App) (packet : List Nat)
    (packets : List (List Nat)) :
    600 / OPUS_FRAME_DURATION_MS = 10
    ∧ (app.audio_decode_queue_.length < 10 →
        OnIncomingAudio app packet
          = { app with audio_decode_queue_ := app.audio_decode_queue_ ++ [packet] })
    ∧ (10 ≤ app.audio_decode_queue_.length → OnIncomingAudio app packet = app)
    ∧ app.audio_decode_queue_ <+: (packets.foldl OnIncomingAudio app).audio_decode_queue_
    ∧ (app.audio_decode_queue_.length ≤ 10 →
        (packets.foldl OnIncomingAudio app).audio_decode_queue_.length ≤ 10) := by
  refine ⟨by decide, ?_, ?_, (OnIncomingAudio_foldl packets app).1,
    (OnIncomingAudio_foldl packets app).2⟩
  · intro h
    rw [OnIncomingAudio_eq, if_pos h]
  · intro h
    rw [OnIncomingAudio_eq, if_neg (by omega)]

/-- C30: for every 32-bit unsigned `n ≥ 1`, `dl_power_of_two(n)` is the floor of
the base-2 logarithm of `n`: a value `r` in `0..31` with `2^r ≤ n < 2^(r+1)`, the
only `r` with that property; for `n = 0` it returns 0; and for every `k` in
`0..31`, `dl_power_of_two(2^k) = k`. -/
theorem dl_power_of_two_is_floor_log2 (n : Nat) (h1 : 1 ≤ n) (h2 : n < 2 ^ 32) :
    (2 ^ dl_power_of_two n ≤ n ∧ n < 2 ^ (dl_power_of_two n + 1) ∧ dl_power_of_two n ≤ 31)
    ∧ (∀ r, 2 ^ r ≤ n → n < 2 ^ (r + 1) → r = dl_power_of_two n)
    ∧ dl_power_of_two n = Nat.log 2 n
    ∧ dl_power_of_two 0 = 0
    ∧ ∀ k, k ≤ 31 → dl_power_of_two (2 ^ k) = k := by
  have hb := dl_power_of_two_bounds n h1 h2
  refine ⟨hb, ?_, ?_, by decide, ?_⟩
  · intro r hr1 hr2
    exact pow_two_sandwich n r _ hr1 hr2 hb.1 hb.2.1
  · exact (Nat.log_eq_of_pow_le_of_lt_pow hb.1 hb.2.1).symm
  · intro k hk
    have hk1 : 1 ≤ 2 ^ k := Nat.one_le_two_pow
    have hk2 : 2 ^ k < 2 ^ 32 := Nat.pow_lt_pow_right (by norm_num) (by omega)
    have hp := dl_power_of_two_bounds (2 ^ k) hk1 hk2
    exact (pow_two_sandwich (2 ^ k) k _ (le_refl _)
      (Nat.pow_lt_pow_right (by norm_num) (by omega)) hp.1 hp.2.1).symm

/-- Witness of `dl_power_of_two_is_floor_log2`: `n = 1000`, where the result is 9
(`512 ≤ 1000 < 1024`). -/
theorem dl_power_of_two_is_floor_log2_witness :
    (1 ≤ 1000 ∧ 1000 < 2 ^ 32) ∧ dl_power_of_two 1000 = 9
    ∧ (2 ^ dl_power_of_two 1000 ≤ 1000 ∧ 1000 < 2 ^ (dl_power_of_two 1000 + 1)
        ∧ dl_power_of_two 1000 ≤ 31) :=
  ⟨by decide, by decide, (dl_power_of_two_is_floor_log2 1000 (by decide) (by decide)).1⟩

end VB6824
